import Mathlib

/-!
# vue-router: route map and navigation pipeline

A shallow embedding of `src/create-route-map.js`, `src/history/base.js`,
`src/util/resolve-components.js` and `src/index.js`, followed by the
properties proved about it.

Conventions of the embedding.

* JavaScript objects that the code compares with `===` (routes, route records)
  are modelled by values with decidable equality; two distinct objects are two
  distinct values (a `Route` carries a `ref` for that purpose).
* A function supplied by the user (a navigation guard, a subscriber) is
  modelled by an identifier; calling a subscriber appends an `Event` to the
  log of the history, and what a guard does when it is invoked is given by a
  `World`.
* The methods of the history back-end (`ensureURL`, `push`, `replace`) belong to
  the sub-classes of `History`; a call of one of them is logged and has no
  other effect here. Subscribers and back-end methods do not throw.
* A function of the source that takes callbacks and mutates `this` is a
  function on the state `History`, and a callback is a function on that state.
* `undefined` is `none`.
-/

namespace VueRouter

/-! ## Data model -/

/-- A user supplied navigation guard `(to, from, next) => ...`, known by its identity. -/
structure Guard where
  id : Nat
  deriving DecidableEq, Repr

/-- A user supplied subscriber (onError, onReady, afterEach, ... callback). -/
structure Callback where
  id : Nat
  deriving DecidableEq, Repr

/-- A live component instance that the host registered in `record.instances`. -/
structure Instance where
  id : Nat
  isBeingDestroyed : Bool
  deriving DecidableEq, Repr

/-- A value read as `m.instances[key]`: an instance that the host registered
under the key or, when the key names a member of `Object.prototype` and nothing
is registered under it, that member, which the plain object `instances: {}`
inherits. Both are truthy. -/
inductive InstanceSlot where
  | registered (inst : Instance)
  | inherited (member : String)
  deriving DecidableEq, Repr

/-- The value of a guard option `def.options[key]` of a component: absent, one
guard, or an array of guards (the merge of mixins). -/
inductive GuardOption where
  | absent
  | single (guard : Guard)
  | array (guards : List Guard)
  deriving DecidableEq, Repr

/-- The three in-component guard names used by `extractGuards`. -/
inductive GuardName where
  | beforeRouteLeave
  | beforeRouteUpdate
  | beforeRouteEnter
  deriving DecidableEq, Repr

/-- A component definition, seen through the options that `extractGuard` reads
after `_Vue.extend(def)`. -/
structure Component where
  id : Nat
  beforeRouteLeave : GuardOption
  beforeRouteUpdate : GuardOption
  beforeRouteEnter : GuardOption
  deriving DecidableEq, Repr

/-- The fields of a route record, as built by `addRouteRecord`. `components`
and `instances` list their own entries in `Object.keys` order; a component may
be `undefined` (`{ default: route.component }` of a config without component),
and `instances` holds the instances that the host registered. The parent
back-reference is kept as the parent's path, the only field of the parent that
the route map builder reads. The compiled `regex`, `meta` and `props` are not
modelled. -/
structure RouteRecord where
  path : String
  components : List (String × Option Component)
  instances : List (String × Instance)
  name : Option String
  parent : Option String
  matchAs : Option String
  redirect : Option String
  beforeEnter : Option Guard
  deriving DecidableEq, Repr

/-- An entry of `route.matched`: a record object. `ref` stands for the identity
of the object, which is what `===` and `!==` compare: two entries are the same
object exactly when they have the same `ref`, and then they have the same
fields; two objects with equal fields have different `ref`. -/
structure MatchedRecord where
  ref : Nat
  record : RouteRecord
  deriving DecidableEq, Repr

/-- A route: the snapshot produced by the matcher. `ref` stands for the identity
of the object. -/
structure Route where
  ref : Nat
  name : Option String
  path : String
  hash : String
  query : List (String × String)
  params : List (String × String)
  fullPath : String
  matched : List MatchedRecord
  redirectedFrom : Option String
  deriving DecidableEq, Repr

/-- The sentinel START route with path "/" and no matched record. -/
def START : Route :=
  { ref := 0, name := none, path := "/", hash := "", query := [], params := [],
    fullPath := "/", matched := [], redirectedFrom := none }

/-- The lookup `obj[key]` in an object given by its entries. -/
def lookup {β : Type} (key : String) : List (String × β) → Option β
  | [] => none
  | (k, v) :: rest => if k = key then some v else lookup key rest

/-- The names of the members of `Object.prototype`, which every object created
by the literal `{}` inherits. -/
def objectPrototypeKeys : List String :=
  ["constructor", "hasOwnProperty", "isPrototypeOf", "propertyIsEnumerable",
   "toLocaleString", "toString", "valueOf", "__proto__", "__defineGetter__",
   "__defineSetter__", "__lookupGetter__", "__lookupSetter__"]

/-- The read `m.instances[key]`. The record is created with `instances: {}`, a
plain object: the read gives the instance registered under the key, else the
member of `Object.prototype` of that name, else `undefined`. -/
def RouteRecord.instanceAt (m : RouteRecord) (key : String) : Option InstanceSlot :=
  match lookup key m.instances with
  | some inst => some (InstanceSlot.registered inst)
  | none => if key ∈ objectPrototypeKeys then some (InstanceSlot.inherited key) else none

/-! ## Route map builder (create-route-map.js) -/

/-- The fields of a route config other than its children. `aliases` is the
`alias` option as a list (a single string is the list of one element, no alias
the empty list) and `strict` is `pathToRegexpOptions.strict`. -/
structure RouteOptions where
  path : String
  name : Option String := none
  component : Option Component := none
  components : Option (List (String × Option Component)) := none
  redirect : Option String := none
  aliases : List String := []
  beforeEnter : Option Guard := none
  strict : Bool := false
  deriving DecidableEq, Repr

/-- A route config: its options and the nested `children` configs (no children
is the empty list). -/
inductive RouteConfig where
  | mk (options : RouteOptions) (children : List RouteConfig)

/-- The three results of `createRouteMap`. A dictionary is the list of its
entries in insertion order. -/
structure RouteMap where
  pathList : List String
  pathMap : List (String × RouteRecord)
  nameMap : List (String × RouteRecord)
  deriving DecidableEq, Repr

/-- Modelled from the spec: `cleanPath` of util/path, which is not among the
sources; it collapses every "//" to "/", scanning from the left. -/
def cleanPathChars : List Char → List Char
  | '/' :: '/' :: rest => '/' :: cleanPathChars rest
  | c :: rest => c :: cleanPathChars rest
  | [] => []

/-- Modelled from the spec: `cleanPath` on strings, see `cleanPathChars`. -/
def cleanPath (path : String) : String :=
  String.mk (cleanPathChars path.data)

/-- The replacement `path.replace(/\/$/, '')`: one trailing slash is removed. -/
def stripTrailingSlash (path : String) : String :=
  match path.data.reverse with
  | '/' :: rest => String.mk rest.reverse
  | _ => path

/-- The function `normalizePath(path, parent, strict)`. -/
def normalizePath (path : String) (parent : Option RouteRecord) (strict : Bool) : String :=
  let path := if !strict then stripTrailingSlash path else path
  if path.data.head? = some '/' then path
  else
    match parent with
    | none => path
    | some p => cleanPath (p.path ++ "/" ++ path)

/-- The literal `const record = ...` of `addRouteRecord`. -/
def createRecord (route : RouteOptions) (parent : Option RouteRecord) (matchAs : Option String) :
    RouteRecord :=
  { path := normalizePath route.path parent route.strict
    components :=
      match route.components with
      | some cs => cs
      | none => [("default", route.component)]
    instances := []
    name := route.name
    parent := parent.map (fun p => p.path)
    matchAs := matchAs
    redirect := route.redirect
    beforeEnter := route.beforeEnter }

/-- The step `if (!pathMap[record.path])` of `addRouteRecord`: push the path and
bind it to the record, unless the path is bound already. -/
def storeRecord (map : RouteMap) (record : RouteRecord) : RouteMap :=
  match lookup record.path map.pathMap with
  | some _ => map
  | none =>
    { map with
      pathList := map.pathList ++ [record.path]
      pathMap := map.pathMap ++ [(record.path, record)] }

/-- The step `if (name)` of `addRouteRecord`: a non-empty name is bound to the
record unless it is bound already (the other branch only warns). -/
def registerName (map : RouteMap) (name : Option String) (record : RouteRecord) : RouteMap :=
  match name with
  | none => map
  | some n =>
    if n = "" then map
    else
      match lookup n map.nameMap with
      | some _ => map
      | none => { map with nameMap := map.nameMap ++ [(n, record)] }

/-- The value `childMatchAs` of the children loop of `addRouteRecord`. -/
def childMatchAs (matchAs : Option String) (childPath : String) : Option String :=
  match matchAs with
  | none => none
  | some m => if m = "" then none else some (cleanPath (m ++ "/" ++ childPath))

/-- The path of a config. -/
def RouteConfig.path : RouteConfig → String
  | RouteConfig.mk options _ => options.path

mutual
/-- The function `addRouteRecord(pathList, pathMap, nameMap, route, parent, matchAs)`.
`production` is `process.env.NODE_ENV === 'production'`. The recursive call on
`aliasRoute = { path: alias, children: route.children }` is written out: such a
config has no name and no alias, so the call creates the alias record, visits
the children and stores the record. Warnings are not modelled. -/
def addRouteRecord (production : Bool) :
    RouteMap → RouteConfig → Option RouteRecord → Option String → RouteMap
  | map, RouteConfig.mk route children, parent, matchAs =>
    let record := createRecord route parent matchAs
    let map1 := addRouteChildren production map children record matchAs
    let map2 := storeRecord map1 record
    let map3 := route.aliases.foldl (fun m aliasPath =>
      if !production && aliasPath = route.path then m
      else
        let aliasRoute : RouteOptions := { path := aliasPath }
        let aliasMatchAs := if record.path = "" then "/" else record.path
        let aliasRecord := createRecord aliasRoute parent (some aliasMatchAs)
        storeRecord
          (addRouteChildren production m children aliasRecord (some aliasMatchAs))
          aliasRecord) map2
    registerName map3 route.name record
/-- The loop `route.children.forEach(child => addRouteRecord(...))`. -/
def addRouteChildren (production : Bool) :
    RouteMap → List RouteConfig → RouteRecord → Option String → RouteMap
  | map, [], _, _ => map
  | map, child :: rest, record, matchAs =>
    addRouteChildren production
      (addRouteRecord production map child (some record) (childMatchAs matchAs child.path))
      rest record matchAs
end

/-- The loop of `createRouteMap` that moves the wildcard: `fuel` is `l - i`,
which every iteration decreases by one, either by `i++` or by `l--`. -/
def createRouteMap.moveWildcards : Nat → Nat → List String → List String
  | 0, _, pathList => pathList
  | fuel + 1, i, pathList =>
    match pathList[i]? with
    | some p =>
      if p = "*" then createRouteMap.moveWildcards fuel i (pathList.eraseIdx i ++ [p])
      else createRouteMap.moveWildcards fuel (i + 1) pathList
    | none => createRouteMap.moveWildcards fuel (i + 1) pathList

/-- The function `createRouteMap(routes, oldPathList, oldPathMap, oldNameMap)`. -/
def createRouteMap (production : Bool) (routes : List RouteConfig)
    (oldPathList : Option (List String)) (oldPathMap : Option (List (String × RouteRecord)))
    (oldNameMap : Option (List (String × RouteRecord))) : RouteMap :=
  let start : RouteMap :=
    { pathList := oldPathList.getD []
      pathMap := oldPathMap.getD []
      nameMap := oldNameMap.getD [] }
  let map := routes.foldl (fun m route => addRouteRecord production m route none none) start
  { map with
    pathList := createRouteMap.moveWildcards map.pathList.length 0 map.pathList }

/-- The consistency of a path list with a path map: no duplicate in the list,
and the list holds exactly the keys of the map. -/
def RouteMap.Consistent (pathList : List String) (pathMap : List (String × RouteRecord)) :
    Prop :=
  pathList.Nodup ∧ ∀ p, p ∈ pathList ↔ (lookup p pathMap).isSome = true

/-- An entry of the guard queue: a function `(to, from, next) => ...` built by
the router around user code. -/
inductive Hook where
  /-- a user guard used as registered: `beforeEach`, `beforeEnter`, `beforeResolve` -/
  | guard (g : Guard)
  /-- the closure `boundRouteGuard` of `bindGuard`: `guard.apply(instance, arguments)` -/
  | boundRouteGuard (g : Guard) (inst : InstanceSlot)
  /-- the closure returned by `resolveAsyncComponents(matched)` -/
  | resolveAsyncComponents (matched : List RouteRecord)
  /-- the closure `routeEnterGuard` of `bindEnterGuard` -/
  | routeEnterGuard (g : Guard) (record : RouteRecord) (key : String)
  deriving DecidableEq, Repr

/-! ## Values, navigation failures, routes (util/errors, util/route) -/

/-- The four kinds of navigation failure, `NavigationFailureType`. -/
inductive NavigationFailureType where
  | redirected
  | aborted
  | cancelled
  | duplicated
  deriving DecidableEq, Repr

/-- A JavaScript value that a guard passes to `next` or throws, or that reaches
the abort path. `error` is an `Error` instance created by user code, `failure`
a navigation failure carrying `(from, to)`, `location` a plain object seen
through `typeof to.path === 'string'`, `typeof to.name === 'string'` and the
truthiness of `to.replace`, `func` a function, and `other` any other value with
its truthiness. The value `null` is not modelled. -/
inductive Val where
  | undefined
  | bool (b : Bool)
  | str (s : String)
  | error (message : String)
  | failure (type : NavigationFailureType) (origin target : Route)
  | location (path : Option String) (name : Option String) (replace : Bool)
  | func (id : Nat)
  | other (tag : Nat) (truthy : Bool)
  deriving DecidableEq, Repr

/-- The truthiness of a value. -/
def Val.truthy : Val → Bool
  | Val.undefined => false
  | Val.bool b => b
  | Val.str s => s ≠ ""
  | Val.error _ => true
  | Val.failure _ _ _ => true
  | Val.location _ _ _ => true
  | Val.func _ => true
  | Val.other _ t => t

/-- Modelled from the spec: `createNavigationDuplicatedError(from, to)` of
util/errors, which is not among the sources; a navigation failure of kind
duplicated that carries `(from, to)`. -/
def createNavigationDuplicatedError (origin target : Route) : Val :=
  Val.failure NavigationFailureType.duplicated origin target

/-- Modelled from the spec: `createNavigationCancelledError(from, to)` of
util/errors, which is not among the sources. -/
def createNavigationCancelledError (origin target : Route) : Val :=
  Val.failure NavigationFailureType.cancelled origin target

/-- Modelled from the spec: `createNavigationRedirectedError(from, to)` of
util/errors, which is not among the sources. -/
def createNavigationRedirectedError (origin target : Route) : Val :=
  Val.failure NavigationFailureType.redirected origin target

/-- Modelled from the spec: `createNavigationAbortedError(from, to)` of
util/errors, which is not among the sources. -/
def createNavigationAbortedError (origin target : Route) : Val :=
  Val.failure NavigationFailureType.aborted origin target

/-- Modelled from the spec: `isError(err)` of util/errors, which is not among
the sources; navigation failures are errors too. -/
def isError : Val → Bool
  | Val.error _ => true
  | Val.failure _ _ _ => true
  | _ => false

/-- Modelled from the spec: `isNavigationFailure(err, kind?)` of util/errors,
which is not among the sources; it tells navigation failures, of the given kind
when one is given, from ordinary errors. -/
def isNavigationFailure (err : Val) (errorType : Option NavigationFailureType) : Bool :=
  match err with
  | Val.failure type _ _ =>
    match errorType with
    | none => true
    | some t => type = t
  | _ => false

/-- Modelled from the spec: `isSameRoute(a, b)` of util/route, which is not
among the sources; deep equality of `path`, `query`, `hash`, `params`, `name`. -/
def isSameRoute (a b : Route) : Bool :=
  a.path = b.path ∧ a.query = b.query ∧ a.hash = b.hash ∧ a.params = b.params ∧
    a.name = b.name

/-! ## History and router state (history/base.js, index.js) -/

/-- A callback collected by `bindEnterGuard` in `cbs`: the function passed to
`next`, with the record and outlet whose instance `poll` waits for. -/
structure PostEnterCb where
  cb : Val
  record : RouteRecord
  key : String
  deriving DecidableEq, Repr

/-- An observable call made by the router: to a method of the history back-end
(`ensureURL`, `push`, `replace`), to the console, to a queue entry, or to a
callback supplied by the user or the host. The back-ends are not among the
sources: a call of one of their methods is recorded, and what the method does
then (a `push` starts a navigation of its own) is not modelled. -/
inductive Event where
  /-- `this.ensureURL(push)`; `none` is the call without argument -/
  | ensureURL (push : Option Bool)
  /-- an `onError` subscriber called with `err` -/
  | errorCb (cb : Callback) (err : Val)
  /-- `warn(false, message)` outside production -/
  | warn (message : String)
  /-- `console.error(err)` -/
  | consoleError (err : Val)
  /-- the iterator called `hook(route, current, next)` -/
  | hook (h : Hook) (target origin : Route)
  /-- `this.push(to)` -/
  | push (location : Val)
  /-- `this.replace(to)` -/
  | replace (location : Val)
  /-- `this.router.app.$nextTick(...)` scheduled with these post-enter callbacks -/
  | nextTick (cbs : List PostEnterCb)
  /-- the change listener `this.cb(route)` -/
  | listener (cb : Callback) (route : Route)
  /-- the `onComplete` callback of `transitionTo` -/
  | onComplete (cb : Callback) (route : Route)
  /-- the `onAbort` callback of `transitionTo` -/
  | onAbort (cb : Callback) (err : Val)
  /-- a global `afterEach` hook called with `(to, from)` -/
  | afterHook (cb : Callback) (target origin : Route)
  /-- a ready callback of `onReady` -/
  | readyCb (cb : Callback) (route : Route)
  /-- a ready-error callback of `onReady` -/
  | readyErrorCb (cb : Callback) (err : Val)
  deriving DecidableEq, Repr

/-- The fields of the router that the history reads. `app` tells whether
`router.app` is set. -/
structure Router where
  app : Bool
  beforeHooks : List (Option Guard)
  resolveHooks : List (Option Guard)
  afterHooks : List (Option Callback)
  deriving DecidableEq, Repr

/-- The state of a `History`, with the log of the calls it has made so far.
`postEnterCbs` is the array of that name, local to `confirmTransition`. -/
structure History where
  router : Router
  current : Route
  pending : Option Route
  cb : Option Callback
  ready : Bool
  readyCbs : List Callback
  readyErrorCbs : List Callback
  errorCbs : List Callback
  postEnterCbs : List PostEnterCb
  log : List Event
  deriving DecidableEq, Repr

/-- Append a call to the log. -/
def History.emit (h : History) (e : Event) : History :=
  { h with log := h.log ++ [e] }

/-- What a function `(to, from, next) => ...` does during its synchronous run:
the arguments of its successive calls of `next`, then the value it throws, if
any. A function that defers `next` has no call here. -/
structure Behaviour where
  calls : List Val
  throws : Option Val
  deriving DecidableEq, Repr

/-- The code outside the router: `production` is
`process.env.NODE_ENV === 'production'`; `guard g self to origin` is what the
user guard `g` does when called with that `this` and `(to, from, next)`;
`asyncComponents matched to origin` is what the step returned by
`resolveAsyncComponents(matched)` does, which depends on the component
factories of the records. -/
structure World where
  production : Bool
  guard : Guard → Option InstanceSlot → Route → Route → Behaviour
  asyncComponents : List RouteRecord → Route → Route → Behaviour

/-! ## `resolveQueue` (history/base.js) -/

/-- The `for (i = 0; i < max; i++) if (current[i] !== next[i]) break` loop of
`resolveQueue`: `fuel` is the number `max - i` of indices still to visit, and
the result is the final value of `i`. Reading past the end of an array gives
`undefined`, here `none`. -/
def resolveQueue.loop {α : Type} [DecidableEq α] (current next : List α) : Nat → Nat → Nat
  | 0, i => i
  | fuel + 1, i =>
    if current[i]? ≠ next[i]? then i else resolveQueue.loop current next fuel (i + 1)

/-- The result of `resolveQueue`. -/
structure ResolvedQueue (α : Type) where
  updated : List α
  activated : List α
  deactivated : List α
  deriving DecidableEq, Repr

/-- The function `resolveQueue(current, next)`: `slice(0, i)` is `take i` and
`slice(i)` is `drop i`. The elements are compared by identity, which is the
equality of `α`. -/
def resolveQueue {α : Type} [DecidableEq α] (current next : List α) : ResolvedQueue α :=
  let max := Nat.max current.length next.length
  let i := resolveQueue.loop current next max 0
  { updated := next.take i
    activated := next.drop i
    deactivated := current.drop i }

/-! ## `flatten`, `flatMapComponents` (util/resolve-components.js) -/

/-- An element of a JavaScript array that is handed to `concat`: either a value
that is not an array, or an array. -/
inductive Slot (β : Type) where
  | item (value : β)
  | array (values : List β)
  deriving DecidableEq, Repr

/-- The function `flatten(arr) = Array.prototype.concat.apply([], arr)`: the
elements of an array argument are appended one by one, any other argument is
appended as it is. -/
def flatten {β : Type} : List (Slot β) → List β
  | [] => []
  | Slot.item b :: rest => b :: flatten rest
  | Slot.array bs :: rest => bs ++ flatten rest

/-- The function `flatMapComponents(matched, fn)`: for every record, `fn` is
applied to every key of `m.components`, with `m.components[key]` and
`m.instances[key]`, and the per-record arrays are flattened. -/
def flatMapComponents {β : Type} (matched : List RouteRecord)
    (fn : Option Component → Option InstanceSlot → RouteRecord → String → β) : List β :=
  flatten (matched.map (fun m =>
    Slot.array (m.components.map (fun entry =>
      fn entry.2 (m.instanceAt entry.1) m entry.1))))

/-! ## Guard extraction (history/base.js) -/

/-- The function `extractGuard(def, key)`, that is `def.options[key]` once
the component is extended; an `undefined` component extends to a constructor
without guards. -/
def extractGuard (defn : Option Component) (key : GuardName) : GuardOption :=
  match defn with
  | none => GuardOption.absent
  | some c =>
    match key with
    | GuardName.beforeRouteLeave => c.beforeRouteLeave
    | GuardName.beforeRouteUpdate => c.beforeRouteUpdate
    | GuardName.beforeRouteEnter => c.beforeRouteEnter

/-- The function `extractGuards(records, name, bind, reverse)`. The callback
returns `undefined` without a guard, the bound guard for one guard and the
array of bound guards for an array of guards. -/
def extractGuards (records : List RouteRecord) (name : GuardName)
    (bind : Guard → Option InstanceSlot → RouteRecord → String → Option Hook)
    (reverse : Bool) : List (Option Hook) :=
  let guards : List (Slot (Option Hook)) :=
    flatMapComponents records (fun defn inst m key =>
      match extractGuard defn name with
      | GuardOption.absent => Slot.item none
      | GuardOption.single g => Slot.item (bind g inst m key)
      | GuardOption.array gs => Slot.array (gs.map (fun g => bind g inst m key)))
  flatten (if reverse then guards.reverse else guards)

/-- The function `bindGuard(guard, instance)`: a bound guard when the instance
exists, `undefined` otherwise. -/
def bindGuard (guard : Guard) (inst : Option InstanceSlot) (_m : RouteRecord) (_key : String) :
    Option Hook :=
  match inst with
  | some i => some (Hook.boundRouteGuard guard i)
  | none => none

/-- The function `extractLeaveGuards(deactivated)`. -/
def extractLeaveGuards (deactivated : List RouteRecord) : List (Option Hook) :=
  extractGuards deactivated GuardName.beforeRouteLeave bindGuard true

/-- The function `extractUpdateHooks(updated)`. -/
def extractUpdateHooks (updated : List RouteRecord) : List (Option Hook) :=
  extractGuards updated GuardName.beforeRouteUpdate bindGuard false

/-- The function `extractEnterGuards(activated, cbs, isValid)`: every guard is
wrapped by `bindEnterGuard(guard, match, key, cbs, isValid)`. -/
def extractEnterGuards (activated : List RouteRecord) : List (Option Hook) :=
  extractGuards activated GuardName.beforeRouteEnter
    (fun guard _ m key => some (Hook.routeEnterGuard guard m key)) false

/-! ## The transition controller (history/base.js) -/

/-- Modelled from the spec: `runQueue(queue, fn, cb)` of util/async, which is
not among the sources; it runs the entries in list order, skips the empty
entries, hands to `fn` every entry together with the continuation that runs the
rest of the queue, and calls `cb` after the last entry. -/
def runQueue {σ η : Type} : List (Option η) → (η → (σ → σ) → σ → σ) → (σ → σ) → σ → σ
  | [], _, cb => cb
  | none :: rest, fn, cb => runQueue rest fn cb
  | some hook :: rest, fn, cb => fn hook (runQueue rest fn cb)

/-- The statement `onAbort && onAbort(err)`. -/
def callOnAbort (onAbort : Option (Val → History → History)) (err : Val) (h : History) :
    History :=
  match onAbort with
  | some f => f err h
  | none => h

/-- The closure `abort` of `confirmTransition`: an error that is not a
navigation failure goes to every `errorCbs` subscriber (to the console when
there is none), then `onAbort`, when supplied, is called with `err`. -/
def confirmTransition.abort (w : World) (onAbort : Option (Val → History → History))
    (err : Val) (h : History) : History :=
  let h1 :=
    if !isNavigationFailure err none && isError err then
      if h.errorCbs.length ≠ 0 then
        h.errorCbs.foldl (fun s cb => s.emit (Event.errorCb cb err)) h
      else
        let s :=
          if w.production then h
          else h.emit (Event.warn "uncaught error during route navigation:")
        s.emit (Event.consoleError err)
    else h
  callOnAbort onAbort err h1

/-- The test `typeof to === 'string' || (typeof to === 'object' &&
(typeof to.path === 'string' || typeof to.name === 'string'))` of the iterator. -/
def isRedirect : Val → Bool
  | Val.str _ => true
  | Val.location path name _ => path.isSome || name.isSome
  | _ => false

/-- The test `typeof to === 'object' && to.replace` of the iterator. -/
def wantsReplace : Val → Bool
  | Val.location _ _ replace => replace
  | _ => false

/-- The callback `(to) => ...` that the iterator hands to a hook as its `next`.
The continuation `next` of `runQueue` ignores the value it is given. -/
def confirmTransition.next (w : World) (route current : Route)
    (onAbort : Option (Val → History → History)) (next : History → History)
    (target : Val) (h : History) : History :=
  if target = Val.bool false then
    confirmTransition.abort w onAbort (createNavigationAbortedError current route)
      (h.emit (Event.ensureURL (some true)))
  else if isError target then
    confirmTransition.abort w onAbort target (h.emit (Event.ensureURL (some true)))
  else if isRedirect target then
    let h1 := confirmTransition.abort w onAbort (createNavigationRedirectedError current route) h
    if wantsReplace target then h1.emit (Event.replace target)
    else h1.emit (Event.push target)
  else next h

/-- The synchronous run of a function of the given behaviour: its calls of
`next` in order, then its exception. -/
def runBehaviour (b : Behaviour) (next : Val → History → History) (h : History) :
    History × Option Val :=
  (b.calls.foldl (fun s v => next v s) h, b.throws)

/-- What a queue entry does when it is called: a bound guard runs the user
guard with the instance as `this`, `routeEnterGuard` and a plain guard run the
user guard without `this`, and the async step does what the component
factories make it do. -/
def Hook.behaviour (w : World) (hook : Hook) (target origin : Route) : Behaviour :=
  match hook with
  | Hook.guard g => w.guard g none target origin
  | Hook.boundRouteGuard g inst => w.guard g (some inst) target origin
  | Hook.resolveAsyncComponents matched => w.asyncComponents matched target origin
  | Hook.routeEnterGuard g _ _ => w.guard g none target origin

/-- The `next` that the user code of a queue entry receives: the one of the
iterator, except in `routeEnterGuard`, whose `cb => ...` first records a
function argument in `cbs` and then calls `next(cb)`. -/
def Hook.next (hook : Hook) (next : Val → History → History) : Val → History → History :=
  match hook with
  | Hook.routeEnterGuard _ record key =>
    fun cb s =>
      next cb
        (match cb with
         | Val.func _ => { s with postEnterCbs := s.postEnterCbs ++ [⟨cb, record, key⟩] }
         | _ => s)
  | _ => next

/-- The call `hook(to, from, next)` of a queue entry: the new state and the
value thrown, if any. -/
def Hook.call (w : World) (hook : Hook) (target origin : Route)
    (next : Val → History → History) (h : History) : History × Option Val :=
  runBehaviour (hook.behaviour w target origin) (hook.next next) h

/-- The closure `iterator` of `confirmTransition`. -/
def confirmTransition.iterator (w : World) (route current : Route)
    (onAbort : Option (Val → History → History)) (hook : Hook) (next : History → History)
    (h : History) : History :=
  if h.pending ≠ some route then
    confirmTransition.abort w onAbort (createNavigationCancelledError current route) h
  else
    match hook.call w route current (confirmTransition.next w route current onAbort next)
        (h.emit (Event.hook hook route current)) with
    | (h1, some e) => confirmTransition.abort w onAbort e h1
    | (h1, none) => h1

/-- The callback of the second `runQueue` of `confirmTransition`. -/
def confirmTransition.complete (w : World) (route current : Route)
    (onComplete : Route → History → History) (onAbort : Option (Val → History → History))
    (h : History) : History :=
  if h.pending ≠ some route then
    confirmTransition.abort w onAbort (createNavigationCancelledError current route) h
  else
    let h1 := onComplete route { h with pending := none }
    if h1.router.app then h1.emit (Event.nextTick h1.postEnterCbs) else h1

/-- The element `array[index]` of a JavaScript array, `undefined` outside it. -/
def jsIndex {α : Type} (xs : List α) (index : Int) : Option α :=
  if index < 0 then none else xs[index.toNat]?

/-- The first queue of `confirmTransition`, for the fields of the records of
the three lists. -/
def confirmTransition.queue (router : Router) (q : ResolvedQueue RouteRecord) :
    List (Option Hook) :=
  extractLeaveGuards q.deactivated ++
  router.beforeHooks.map (Option.map Hook.guard) ++
  extractUpdateHooks q.updated ++
  q.activated.map (fun m => m.beforeEnter.map Hook.guard) ++
  [some (Hook.resolveAsyncComponents q.activated)]

/-- The fields of the records of the three lists of `resolveQueue`. -/
def ResolvedQueue.records (q : ResolvedQueue MatchedRecord) : ResolvedQueue RouteRecord :=
  { updated := q.updated.map MatchedRecord.record
    activated := q.activated.map MatchedRecord.record
    deactivated := q.deactivated.map MatchedRecord.record }

/-- The callback of the first `runQueue` of `confirmTransition`: the enter
guards are extracted, and run with the `beforeResolve` hooks. -/
def confirmTransition.enter (w : World) (route current : Route)
    (activated : List RouteRecord)
    (onComplete : Route → History → History) (onAbort : Option (Val → History → History))
    (h : History) : History :=
  let h1 := { h with postEnterCbs := [] }
  let enterGuards := extractEnterGuards activated
  let queue := enterGuards ++ h1.router.resolveHooks.map (Option.map Hook.guard)
  runQueue queue (confirmTransition.iterator w route current onAbort)
    (confirmTransition.complete w route current onComplete onAbort) h1

/-- The method `confirmTransition(route, onComplete, onAbort)`. -/
def confirmTransition (w : World) (route : Route) (onComplete : Route → History → History)
    (onAbort : Option (Val → History → History)) (h : History) : History :=
  let current := h.current
  let lastRouteIndex : Int := (route.matched.length : Int) - 1
  let lastCurrentIndex : Int := (current.matched.length : Int) - 1
  if isSameRoute route current && decide (lastRouteIndex = lastCurrentIndex) &&
      decide (jsIndex route.matched lastRouteIndex = jsIndex current.matched lastCurrentIndex)
  then
    confirmTransition.abort w onAbort (createNavigationDuplicatedError current route)
      (h.emit (Event.ensureURL none))
  else
    let q := (resolveQueue h.current.matched route.matched).records
    let queue := confirmTransition.queue h.router q
    runQueue queue (confirmTransition.iterator w route current onAbort)
      (confirmTransition.enter w route current q.activated onComplete onAbort)
      { h with pending := some route }

/-- The method `updateRoute(route)`. -/
def updateRoute (route : Route) (h : History) : History :=
  let h1 := { h with current := route }
  match h1.cb with
  | some cb => h1.emit (Event.listener cb route)
  | none => h1

/-- The confirm callback that `transitionTo` passes to `confirmTransition`. -/
def transitionTo.onComplete (route : Route) (onComplete : Option Callback) (h : History) :
    History :=
  let prev := h.current
  let h1 := updateRoute route h
  let h2 :=
    match onComplete with
    | some cb => h1.emit (Event.onComplete cb route)
    | none => h1
  let h3 := h2.emit (Event.ensureURL none)
  let h4 := h3.router.afterHooks.foldl (fun s hook =>
    match hook with
    | some cb => s.emit (Event.afterHook cb route prev)
    | none => s) h3
  if !h4.ready then
    h4.readyCbs.foldl (fun s cb => s.emit (Event.readyCb cb route)) { h4 with ready := true }
  else h4

/-- The abort callback that `transitionTo` passes to `confirmTransition`. -/
def transitionTo.onAbort (route : Route) (onAbort : Option Callback) (err : Val)
    (h : History) : History :=
  let h1 :=
    match onAbort with
    | some cb => h.emit (Event.onAbort cb err)
    | none => h
  if err.truthy && !h1.ready then
    let h2 := { h1 with ready := true }
    if !isNavigationFailure err (some NavigationFailureType.redirected) then
      h2.readyErrorCbs.foldl (fun s cb => s.emit (Event.readyErrorCb cb err)) h2
    else
      h2.readyCbs.foldl (fun s cb => s.emit (Event.readyCb cb route)) h2
  else h1

/-- The method `transitionTo(location, onComplete, onAbort)`. The matcher is not
among the sources: `matched` is the outcome of `this.router.match(location,
this.current)`, a route or a thrown value. The result is the new state and the
value that `transitionTo` throws, if any. -/
def transitionTo (w : World) (matched : Except Val Route)
    (onComplete onAbort : Option Callback) (h : History) : History × Option Val :=
  match matched with
  | Except.error e =>
    (h.errorCbs.foldl (fun s cb => s.emit (Event.errorCb cb e)) h, some e)
  | Except.ok route =>
    (confirmTransition w route (fun _ => transitionTo.onComplete route onComplete)
      (some (transitionTo.onAbort route onAbort)) h, none)

/-! ## Async components (util/resolve-components.js) -/

/-- A call of one of the two callbacks `resolve` and `reject` that the step
hands to an async factory. The resolved definition is the one that is kept
after the unwrapping of an ES module. -/
inductive Settle where
  | resolve (resolvedDef : Component)
  | reject (reason : Val)
  deriving DecidableEq, Repr

/-- What an async factory `def(resolve, reject)` does during its synchronous
run: the calls of its two callbacks, in order, then the value it throws, if
any. A thenable that it returns matters by the later calls of the callbacks
only. -/
structure Factory where
  calls : List Settle
  throws : Option Val
  deriving DecidableEq, Repr

/-- A call of a callback of the factory number `index` (in the order of
`flatMapComponents`) after the synchronous run of the step. -/
structure Settlement where
  index : Nat
  call : Settle
  deriving DecidableEq, Repr

/-- The local state of one run of the step returned by
`resolveAsyncComponents`: the variables `hasAsync`, `pending` and `error`, the
latches `called` of the `once` wrappers of `resolve` and of `reject` (the
factories whose latch is set), the writes `match.components[key] =
resolvedDef`, and the arguments of the calls of `next` made so far (`undefined`
for `next()`). The function `next` is assumed to return normally. -/
structure AsyncState where
  hasAsync : Bool
  pending : Int
  error : Option Val
  resolveCalled : List Nat
  rejectCalled : List Nat
  assigned : List (Nat × Component)
  nexts : List Val
  deriving DecidableEq, Repr

/-- The state at the start of the step. -/
def AsyncState.init : AsyncState :=
  { hasAsync := false, pending := 0, error := none, resolveCalled := [], rejectCalled := [],
    assigned := [], nexts := [] }

/-- The callback `resolve` of the factory number `index`, under its `once`
wrapper. -/
def resolveAsyncComponents.resolve (index : Nat) (resolvedDef : Component)
    (s : AsyncState) : AsyncState :=
  if index ∈ s.resolveCalled then s
  else
    let s1 : AsyncState :=
      { s with
        resolveCalled := index :: s.resolveCalled
        assigned := s.assigned ++ [(index, resolvedDef)]
        pending := s.pending - 1 }
    if s1.pending ≤ 0 then { s1 with nexts := s1.nexts ++ [Val.undefined] } else s1

/-- The value `isError(reason) ? reason : new Error(msg)` of `reject`;
`describe` is the conversion of a value to a string in the template of `msg`. -/
def resolveAsyncComponents.errorOf (describe : Val → String) (key : String) (reason : Val) :
    Val :=
  if isError reason then reason
  else Val.error ("Failed to resolve async component " ++ key ++ ": " ++ describe reason)

/-- The callback `reject` of the factory number `index`, under its `once`
wrapper. The warning is not modelled. -/
def resolveAsyncComponents.reject (describe : Val → String) (index : Nat) (key : String)
    (reason : Val) (s : AsyncState) : AsyncState :=
  if index ∈ s.rejectCalled then s
  else
    let s1 : AsyncState := { s with rejectCalled := index :: s.rejectCalled }
    match s1.error with
    | some _ => s1
    | none =>
      { s1 with
        error := some (resolveAsyncComponents.errorOf describe key reason)
        nexts := s1.nexts ++ [resolveAsyncComponents.errorOf describe key reason] }

/-- A call of a callback of the factory number `index`. -/
def resolveAsyncComponents.settle (describe : Val → String) (index : Nat) (key : String)
    (call : Settle) (s : AsyncState) : AsyncState :=
  match call with
  | Settle.resolve resolvedDef => resolveAsyncComponents.resolve index resolvedDef s
  | Settle.reject reason => resolveAsyncComponents.reject describe index key reason s

/-- The callback that the step passes to `flatMapComponents`, for the component
number `index`: nothing for a component that is not an async factory (`none`);
for a factory, `hasAsync = true`, `pending++`, the call `def(resolve, reject)`
under `try`, and `reject(e)` when it throws. -/
def resolveAsyncComponents.visit (describe : Val → String) (index : Nat) (key : String)
    (factory : Option Factory) (s : AsyncState) : AsyncState :=
  match factory with
  | none => s
  | some f =>
    let s1 : AsyncState := { s with hasAsync := true, pending := s.pending + 1 }
    let s2 := f.calls.foldl
      (fun st call => resolveAsyncComponents.settle describe index key call st) s1
    match f.throws with
    | some e => resolveAsyncComponents.reject describe index key e s2
    | none => s2

/-- The visits of the components in the order of `flatMapComponents`, from the
component number `index` on. -/
def resolveAsyncComponents.loop (describe : Val → String) :
    Nat → List (String × Option Factory) → AsyncState → AsyncState
  | _, [], s => s
  | index, (key, factory) :: rest, s =>
    resolveAsyncComponents.loop describe (index + 1) rest
      (resolveAsyncComponents.visit describe index key factory s)

/-- The components that `flatMapComponents` hands to the callback of the step,
each with its key; `factoryOf` tells the async factories (the functions without
`cid`) and what they do. -/
def resolveAsyncComponents.entries (factoryOf : Option Component → Option Factory)
    (matched : List RouteRecord) : List (String × Option Factory) :=
  flatMapComponents matched (fun defn _ _ key => (key, factoryOf defn))

/-- The synchronous run of the step returned by `resolveAsyncComponents(matched)`:
the visits, then `if (!hasAsync) next()`. -/
def resolveAsyncComponents.start (describe : Val → String)
    (entries : List (String × Option Factory)) : AsyncState :=
  let s := resolveAsyncComponents.loop describe 0 entries AsyncState.init
  if !s.hasAsync then { s with nexts := s.nexts ++ [Val.undefined] } else s

/-- A later call of a callback: it exists when the component of that number is
an async factory. -/
def resolveAsyncComponents.later (describe : Val → String)
    (entries : List (String × Option Factory)) (s : AsyncState) (event : Settlement) :
    AsyncState :=
  match entries[event.index]? with
  | some (key, some _) => resolveAsyncComponents.settle describe event.index key event.call s
  | _ => s

/-- The run of the step: its synchronous run, then the later calls of the
callbacks, in the order in which they happen. -/
def resolveAsyncComponents.run (describe : Val → String)
    (factoryOf : Option Component → Option Factory) (matched : List RouteRecord)
    (events : List Settlement) : AsyncState :=
  events.foldl
    (resolveAsyncComponents.later describe
      (resolveAsyncComponents.entries factoryOf matched))
    (resolveAsyncComponents.start describe
      (resolveAsyncComponents.entries factoryOf matched))

/-! ## The router (index.js) and the base of a history (history/base.js) -/

/-- The call `list.indexOf(fn)`: the first index at which the array holds `fn`,
or -1 when it holds it nowhere. Functions are compared by identity, which is the
equality of `α`. -/
def indexOf {α : Type} [DecidableEq α] : List α → α → Int
  | [], _ => -1
  | x :: rest, fn =>
    if x = fn then 0
    else
      let i := indexOf rest fn
      if i > -1 then i + 1 else -1

/-- The thunk `() => { const i = list.indexOf(fn); if (i > -1) list.splice(i, 1) }`
that `registerHook` returns, as a change of the array it is called on. -/
def registerHook.unregister {α : Type} [DecidableEq α] (fn : α) (list : List α) : List α :=
  let i := indexOf list fn
  if i > -1 then list.eraseIdx i.toNat else list

/-- The function `registerHook(list, fn)`: the array after `list.push(fn)` and
the thunk that is returned. -/
def registerHook {α : Type} [DecidableEq α] (list : List α) (fn : α) :
    List α × (List α → List α) :=
  (list ++ [fn], registerHook.unregister fn)

/-- The function `createHref(base, fullPath, mode)`. -/
def createHref (base fullPath mode : String) : String :=
  let path := if mode = "hash" then "#" ++ fullPath else fullPath
  if base ≠ "" then cleanPath (base ++ "/" ++ path) else path

/-- The replacement `base.replace(/^https?:\/\/[^\/]+/, '')`: a leading
"http://" or "https://" followed by at least one character other than "/" is
removed together with all the characters up to the next "/". -/
def stripOrigin (base : String) : String :=
  let host (rest : List Char) : String :=
    match rest with
    | c :: _ => if c = '/' then base else String.mk (rest.dropWhile (fun d => d ≠ '/'))
    | [] => base
  match base.data with
  | 'h' :: 't' :: 't' :: 'p' :: 's' :: ':' :: '/' :: '/' :: rest => host rest
  | 'h' :: 't' :: 't' :: 'p' :: ':' :: '/' :: '/' :: rest => host rest
  | _ => base

/-- The function `normalizeBase(base)`. `inBrowser` is the constant of that name
and `baseHref` is `baseEl && baseEl.getAttribute('href')` for the `<base>`
element of the document: `none` without such an element or attribute. An
`undefined` base is `none`. -/
def normalizeBase (inBrowser : Bool) (baseHref : Option String) (base : Option String) :
    String :=
  let fallback : String :=
    if inBrowser then
      stripOrigin
        (match baseHref with
          | some href => if href = "" then "/" else href
          | none => "/")
    else "/"
  let base : String :=
    match base with
    | some b => if b = "" then fallback else b
    | none => fallback
  let base := if base.data.head? ≠ some '/' then "/" ++ base else base
  stripTrailingSlash base

/-! ## Vocabulary of the properties -/

/-- The queue entry calls `next()` once, without argument, and does not throw. -/
def Hook.proceeds (w : World) (hook : Hook) (target origin : Route) : Prop :=
  hook.behaviour w target origin = { calls := [Val.undefined], throws := none }

/-- The events that the abort path logs before it calls `onAbort`. -/
def confirmTransition.abortEvents (w : World) (errorCbs : List Callback) (err : Val) :
    List Event :=
  if isError err = true ∧ isNavigationFailure err none = false then
    if errorCbs = [] then
      (if w.production then []
        else [Event.warn "uncaught error during route navigation:"]) ++
        [Event.consoleError err]
    else errorCbs.map (fun cb => Event.errorCb cb err)
  else []

/-- The calls of `onError` subscribers recorded in a log. -/
def errorCbCalls (log : List Event) : List (Callback × Val) :=
  log.filterMap (fun e =>
    match e with
    | Event.errorCb cb err => some (cb, err)
    | _ => none)

/-- The invocations of the defined entries of a queue, in queue order. -/
def hookEvents (queue : List (Option Hook)) (route current : Route) : List Event :=
  (queue.filterMap id).map (fun k => Event.hook k route current)

/-- The navigations started through the back-end that a log records: the calls
of `push` and of `replace`. -/
def navigations (log : List Event) : List Event :=
  log.filter (fun e =>
    match e with
    | Event.push _ => true
    | Event.replace _ => true
    | _ => false)

/-- The calls that only the confirm callback of `transitionTo` makes: to the
change listener, to the `onComplete` of the caller and to the `afterEach`
hooks. -/
def commitCalls (log : List Event) : List Event :=
  log.filter (fun e =>
    match e with
    | Event.listener _ _ => true
    | Event.onComplete _ _ => true
    | Event.afterHook _ _ _ => true
    | _ => false)

/-- The frame of a step of the controller: it keeps `current` and `pending`,
starts no navigation and makes no call of the confirm callback. -/
def Quiet (s r : History) : Prop :=
  r.current = s.current ∧ r.pending = s.pending ∧
    navigations r.log = navigations s.log ∧ commitCalls r.log = commitCalls s.log

/-- The record path as the specification words it: the path, with one trailing
"/" removed unless `strict` is set; that string itself if it starts with "/" or
there is no parent; otherwise `parent.path + "/" +` that string, with the "//"
collapsed. -/
def normalizePathSpec (path : String) (parent : Option RouteRecord) (strict : Bool) : String :=
  let stripped :=
    if strict then path
    else if path.data.getLast? = some '/' then String.mk path.data.dropLast
    else path
  if stripped.data.head? = some '/' ∨ parent.isNone = true then stripped
  else
    match parent with
    | some p => cleanPath (p.path ++ "/" ++ stripped)
    | none => stripped

/-- The value `record.path || '/'` that `addRouteRecord` passes as `matchAs` for
the aliases of a config. -/
def addRouteRecord.aliasMatchAs (route : RouteOptions) (parent : Option RouteRecord)
    (matchAs : Option String) : String :=
  if (createRecord route parent matchAs).path = "" then "/"
  else (createRecord route parent matchAs).path

/-- The record that the recursive call of `addRouteRecord` on
`aliasRoute = { path: alias, children: route.children }` creates. -/
def addRouteRecord.aliasRecord (route : RouteOptions) (parent : Option RouteRecord)
    (matchAs : Option String) (aliasPath : String) : RouteRecord :=
  createRecord { path := aliasPath } parent
    (some (addRouteRecord.aliasMatchAs route parent matchAs))

/-- One turn of the alias loop of `addRouteRecord`. -/
def addRouteRecord.aliasStep (production : Bool) (route : RouteOptions)
    (children : List RouteConfig) (parent : Option RouteRecord) (matchAs : Option String)
    (m : RouteMap) (aliasPath : String) : RouteMap :=
  if !production && aliasPath = route.path then m
  else
    storeRecord
      (addRouteChildren production m children
        (addRouteRecord.aliasRecord route parent matchAs aliasPath)
        (some (addRouteRecord.aliasMatchAs route parent matchAs)))
      (addRouteRecord.aliasRecord route parent matchAs aliasPath)

/-- The state of the maps during `createRouteMap` with old maps: the path list
is the old one followed by paths that are not in it, and every old path is
bound. -/
def ExtendsOld (old : List String) (m : RouteMap) : Prop :=
  ∃ added : List String, m.pathList = old ++ added ∧ (∀ p, p ∈ added → p ∉ old) ∧
    ∀ p, p ∈ old → (lookup p m.pathMap).isSome = true

mutual
/-- The names that `addRouteRecord` meets in a config and its descendants: the
`name` options that are truthy, that is not the empty string. -/
def RouteConfig.names : RouteConfig → List String
  | RouteConfig.mk route children =>
    (match route.name with
      | some n => if n = "" then [] else [n]
      | none => []) ++ RouteConfig.namesOfList children
/-- The names met in a list of configs and their descendants. -/
def RouteConfig.namesOfList : List RouteConfig → List String
  | [] => []
  | config :: rest => config.names ++ RouteConfig.namesOfList rest
end

/-- The string ends with "//". -/
def endsWithTwoSlashes (s : String) : Bool :=
  match s.data.reverse with
  | '/' :: '/' :: _ => true
  | _ => false

/-- The characters hold "//". -/
def hasDoubleSlash : List Char → Bool
  | '/' :: '/' :: _ => true
  | _ :: rest => hasDoubleSlash rest
  | [] => false

/-- Every binding of the path map binds a path to a record of that path. -/
def RouteMap.KeyedByPath (m : RouteMap) : Prop :=
  ∀ p r, lookup p m.pathMap = some r → r.path = p

mutual
/-- The paths of the records of a config in post-order: the records of the
children under the record of the config, then that record, then for each alias
that is not skipped the records of the children under the alias record, then
the alias record. -/
def RouteConfig.postOrder (production : Bool) :
    RouteConfig → Option RouteRecord → Option String → List String
  | RouteConfig.mk route children, parent, matchAs =>
    RouteConfig.postOrderOfList production children (createRecord route parent matchAs)
        matchAs ++
      [(createRecord route parent matchAs).path] ++
      (route.aliases.filter
        (fun aliasPath => !(!production && decide (aliasPath = route.path)))).flatMap
        (fun aliasPath =>
          RouteConfig.postOrderOfList production children
              (addRouteRecord.aliasRecord route parent matchAs aliasPath)
              (some (addRouteRecord.aliasMatchAs route parent matchAs)) ++
            [(addRouteRecord.aliasRecord route parent matchAs aliasPath).path])
/-- The paths of the records of the children of a record, in post-order, the
children in the order in which they are defined. -/
def RouteConfig.postOrderOfList (production : Bool) :
    List RouteConfig → RouteRecord → Option String → List String
  | [], _, _ => []
  | child :: rest, record, matchAs =>
    child.postOrder production (some record) (childMatchAs matchAs child.path) ++
      RouteConfig.postOrderOfList production rest record matchAs
end

/-- The paths of the records of a list of top-level configs, in post-order. -/
def postOrderOfRoutes (production : Bool) (routes : List RouteConfig) : List String :=
  routes.flatMap (fun route => route.postOrder production none none)

/-- The outcome of a transition started by `transitionTo`: `confirmTransition`
calls the confirm callback, or the abort callback with a failure. -/
inductive Outcome where
  | confirmed (route : Route) (onComplete : Option Callback)
  | aborted (route : Route) (onAbort : Option Callback) (err : Val)
  deriving DecidableEq, Repr

/-- The callback of `transitionTo` that an outcome runs. -/
def Outcome.run : Outcome → History → History
  | Outcome.confirmed route onComplete, h => transitionTo.onComplete route onComplete h
  | Outcome.aborted route onAbort err, h => transitionTo.onAbort route onAbort err h

/-- The outcome is a confirmation or an abort with a truthy failure. -/
def Outcome.settles : Outcome → Bool
  | Outcome.confirmed _ _ => true
  | Outcome.aborted _ _ err => err.truthy

/-- The event is the call of a ready or ready-error callback. -/
def Event.isReadyCall : Event → Bool
  | Event.readyCb _ _ => true
  | Event.readyErrorCb _ _ => true
  | _ => false

/-- The calls of ready and ready-error callbacks in a log. -/
def readyCalls (log : List Event) : List Event :=
  log.filter Event.isReadyCall

/-- The one list of callbacks that an outcome fires on a history that is not
ready: the ready callbacks with the route for a confirmation and for a
NavigationRedirected failure, the ready-error callbacks with the failure for
any other failure. -/
def Outcome.readyEvents (h : History) : Outcome → List Event
  | Outcome.confirmed route _ => h.readyCbs.map (fun cb => Event.readyCb cb route)
  | Outcome.aborted route _ err =>
    if isNavigationFailure err (some NavigationFailureType.redirected) then
      h.readyCbs.map (fun cb => Event.readyCb cb route)
    else h.readyErrorCbs.map (fun cb => Event.readyErrorCb cb err)

/-- The guards of a guard option, one by one. -/
def GuardOption.guards : GuardOption → List Guard
  | GuardOption.absent => []
  | GuardOption.single g => [g]
  | GuardOption.array gs => gs

/-- The hook returns without calling `next` and without throwing: it defers
its call of `next`. -/
def Hook.defers (w : World) (hook : Hook) (target origin : Route) : Prop :=
  hook.behaviour w target origin = { calls := [], throws := none }

/-- The calls of `next()` that the deferring hooks of a queue make after the
synchronous run of the queue has returned: every hook of the queue that
returned without calling `next` and without throwing calls, when its turn has
come, the `next` that the iterator gave it, with no argument. That `next` is
the closure of the iterator around the rest of the queue, and nothing else
happens to the history in between. This is what guards outside the router do,
not code of the router; it is meant for a queue all of whose hooks are
invoked, as they are when every hook calls `next()`. -/
def confirmTransition.laterCalls (w : World) (route current : Route)
    (onAbort : Option (Val → History → History)) :
    List (Option Hook) → (History → History) → History → History
  | [], _, h => h
  | none :: rest, cb, h => confirmTransition.laterCalls w route current onAbort rest cb h
  | some hook :: rest, cb, h =>
    confirmTransition.laterCalls w route current onAbort rest cb
      (if hook.behaviour w route current = { calls := [], throws := none } then
        hook.next
          (confirmTransition.next w route current onAbort
            (runQueue rest (confirmTransition.iterator w route current onAbort) cb))
          Val.undefined h
      else h)

/-- The guards that the outlets of the records declare under `name`, one list
for each outlet, record by record and outlet by outlet: each guard is bound to
the value of `m.instances[key]`, and an outlet without such a value has none. -/
def boundGuards (name : GuardName) (records : List RouteRecord) : List (List Hook) :=
  records.flatMap (fun m =>
    m.components.map (fun entry =>
      match m.instanceAt entry.1 with
      | some self =>
        (extractGuard entry.2 name).guards.map (fun g => Hook.boundRouteGuard g self)
      | none => []))

/-- The `beforeRouteEnter` guards of the records, record by record and outlet by
outlet. -/
def enterGuards (records : List RouteRecord) : List Hook :=
  records.flatMap (fun m =>
    m.components.flatMap (fun entry =>
      (extractGuard entry.2 GuardName.beforeRouteEnter).guards.map
        (fun g => Hook.routeEnterGuard g m entry.1)))

/-- The order of the hooks of a transition, in the words of the specification:
the `beforeRouteLeave` guards of the deactivated records, the outlets taken
from the last to the first; the `beforeEach` hooks; the `beforeRouteUpdate`
guards of the updated records; the `beforeEnter` guards of the activated
records; the async component step; the `beforeRouteEnter` guards of the
activated records; the `beforeResolve` hooks. -/
def confirmTransition.hookOrder (router : Router) (q : ResolvedQueue RouteRecord) :
    List Hook :=
  (boundGuards GuardName.beforeRouteLeave q.deactivated).reverse.flatten ++
  (router.beforeHooks.filterMap id).map Hook.guard ++
  (boundGuards GuardName.beforeRouteUpdate q.updated).flatten ++
  (q.activated.filterMap (fun m => m.beforeEnter)).map Hook.guard ++
  [Hook.resolveAsyncComponents q.activated] ++
  enterGuards q.activated ++
  (router.resolveHooks.filterMap id).map Hook.guard

/-- The defined values of an element handed to `concat`. -/
def Slot.defined {β : Type} : Slot (Option β) → List β
  | Slot.item x => x.toList
  | Slot.array xs => xs.filterMap id

/-- The three lists of `resolveQueue(this.current.matched, route.matched)`, as
the fields of their records. -/
def confirmTransition.resolved (h : History) (route : Route) : ResolvedQueue RouteRecord :=
  (resolveQueue h.current.matched route.matched).records

/-- The record has an outlet whose component declares the guard `g` under
`name`, and the read `m.instances[key]` of that outlet gives `self`. -/
def RouteRecord.HasBoundGuard (m : RouteRecord) (name : GuardName) (g : Guard)
    (self : InstanceSlot) : Prop :=
  ∃ entry, entry ∈ m.components ∧ m.instanceAt entry.1 = some self ∧
    g ∈ (extractGuard entry.2 name).guards

/-! ## A scenario: leaving "/a" for "/b" -/

/-- The component of "/a", with a `beforeRouteLeave` guard. -/
def Scenario.componentA : Component :=
  { id := 1, beforeRouteLeave := GuardOption.single ⟨1⟩,
    beforeRouteUpdate := GuardOption.absent, beforeRouteEnter := GuardOption.absent }

/-- The component of "/b", with a `beforeRouteEnter` guard. -/
def Scenario.componentB : Component :=
  { id := 2, beforeRouteLeave := GuardOption.absent,
    beforeRouteUpdate := GuardOption.absent, beforeRouteEnter := GuardOption.single ⟨3⟩ }

/-- The record of "/a", mounted. -/
def Scenario.recordA : RouteRecord :=
  { path := "/a", components := [("default", some Scenario.componentA)],
    instances := [("default", ⟨1, false⟩)], name := none, parent := none, matchAs := none,
    redirect := none, beforeEnter := none }

/-- The record of "/b", with a `beforeEnter` guard. -/
def Scenario.recordB : RouteRecord :=
  { path := "/b", components := [("default", some Scenario.componentB)],
    instances := [], name := none, parent := none, matchAs := none,
    redirect := none, beforeEnter := some ⟨2⟩ }

/-- The current route "/a". -/
def Scenario.routeA : Route :=
  { ref := 1, name := none, path := "/a", hash := "", query := [], params := [],
    fullPath := "/a", matched := [⟨1, Scenario.recordA⟩], redirectedFrom := none }

/-- The target route "/b". -/
def Scenario.routeB : Route :=
  { ref := 2, name := none, path := "/b", hash := "", query := [], params := [],
    fullPath := "/b", matched := [⟨2, Scenario.recordB⟩], redirectedFrom := none }

/-- A second match of "/a": another route object with the same content. -/
def Scenario.routeA2 : Route :=
  { Scenario.routeA with ref := 3 }

/-- A router with one hook of each kind. -/
def Scenario.router : Router :=
  { app := true, beforeHooks := [some ⟨10⟩], resolveHooks := [some ⟨11⟩],
    afterHooks := [some ⟨20⟩] }

/-- A ready history at "/a" with one `onError` subscriber. -/
def Scenario.history : History :=
  { router := Scenario.router, current := Scenario.routeA, pending := none, cb := some ⟨30⟩,
    ready := true, readyCbs := [], readyErrorCbs := [], errorCbs := [⟨40⟩],
    postEnterCbs := [], log := [] }

/-- The same history while the transition to "/b" is pending. -/
def Scenario.pendingHistory : History :=
  { Scenario.history with pending := some Scenario.routeB }

/-- A world in which the `beforeEnter` guard of "/b" has the given behaviour and
every other queue entry calls `next()`. -/
def Scenario.world (b : Behaviour) : World :=
  { production := false
    guard := fun g _ _ _ => if g.id = 2 then b else { calls := [Val.undefined], throws := none }
    asyncComponents := fun _ _ _ => { calls := [Val.undefined], throws := none } }

/-- The first queue of the scenario up to the `beforeEnter` guard of "/b". -/
def Scenario.before : List (Option Hook) :=
  [some (Hook.boundRouteGuard ⟨1⟩ (InstanceSlot.registered ⟨1, false⟩)),
   some (Hook.guard ⟨10⟩)]

/-- The first queue of the scenario after the `beforeEnter` guard of "/b". -/
def Scenario.after : List (Option Hook) :=
  [some (Hook.resolveAsyncComponents [Scenario.recordB])]

/-- An `onAbort` callback that records its call. -/
def Scenario.onAbort : Val → History → History :=
  fun err s => s.emit (Event.onAbort ⟨50⟩ err)

/-- A third route "/c", without matched record. -/
def Scenario.routeC : Route :=
  { ref := 4, name := none, path := "/c", hash := "", query := [], params := [],
    fullPath := "/c", matched := [], redirectedFrom := none }

/-- The history once a navigation to "/c" has superseded the one to "/b". -/
def Scenario.supersededHistory : History :=
  { Scenario.history with pending := some Scenario.routeC }

/-- The maps from which `createRouteMap` starts when it is given no old map. -/
def RouteMap.empty : RouteMap :=
  { pathList := [], pathMap := [], nameMap := [] }

/-- The state of the maps when `createRouteMap`, started from empty maps, has
added the configs `routes`. -/
def addedRoutes (production : Bool) (routes : List RouteConfig) : RouteMap :=
  routes.foldl (fun m route => addRouteRecord production m route none none) RouteMap.empty

/-- The state of the maps when the alias loop of `addRouteRecord` is about to
store the record of the alias that follows the aliases `before`: the canonical
record is stored, the aliases `before` are done, and the children configs have
been added under the alias record. -/
def addRouteRecord.beforeAliasStore (production : Bool) (map : RouteMap)
    (route : RouteOptions) (children : List RouteConfig) (parent : Option RouteRecord)
    (matchAs : Option String) (before : List String) (aliasPath : String) : RouteMap :=
  addRouteChildren production
    (before.foldl (addRouteRecord.aliasStep production route children parent matchAs)
      (storeRecord
        (addRouteChildren production map children (createRecord route parent matchAs)
          matchAs)
        (createRecord route parent matchAs)))
    children (addRouteRecord.aliasRecord route parent matchAs aliasPath)
    (some (addRouteRecord.aliasMatchAs route parent matchAs))

/-- A component `U`. -/
def Scenario.componentU : Component :=
  { id := 7, beforeRouteLeave := GuardOption.absent,
    beforeRouteUpdate := GuardOption.absent, beforeRouteEnter := GuardOption.absent }

/-- The options `{ path: "/u", alias: "/user", component: U }`. -/
def Scenario.userOptions : RouteOptions :=
  { path := "/u", aliases := ["/user"], component := some Scenario.componentU }

/-- The path map of the maps built from `[{ path: "/x" }, { path: "*" }]`. -/
def Scenario.oldPathMap : List (String × RouteRecord) :=
  [("/x", createRecord { path := "/x" } none none),
   ("*", createRecord { path := "*" } none none)]

/-- The name map binds non-alias records only: no bound record has a `matchAs`. -/
def NonAliasNames (nameMap : List (String × RouteRecord)) : Prop :=
  ∀ n r, (n, r) ∈ nameMap → r.matchAs = none

/-- The options `{ path: "/a", alias: "/z" }` of a route with a named child. -/
def Scenario.aliasedOptions : RouteOptions :=
  { path := "/a", aliases := ["/z"] }

/-- The options `{ path: "b", name: "child" }`. -/
def Scenario.childOptions : RouteOptions :=
  { path := "b", name := some "child" }

/-- The rejection that a call of a callback makes, with the key of its factory. -/
def Settle.rejection (key : String) : Settle → Option (String × Val)
  | Settle.reject reason => some (key, reason)
  | Settle.resolve _ => none

/-- The rejections that a component makes during the synchronous run of the
step: the calls of `reject` and then the exception, for an async factory. -/
def factoryRejections (key : String) : Option Factory → List (String × Val)
  | none => []
  | some f =>
    f.calls.filterMap (Settle.rejection key) ++
      (match f.throws with
        | some e => [(key, e)]
        | none => [])

/-- The rejections of the synchronous run of the step, in the order in which
they happen. -/
def syncRejections : List (String × Option Factory) → List (String × Val)
  | [] => []
  | (key, factory) :: rest => factoryRejections key factory ++ syncRejections rest

/-- The rejection that a later call of a callback makes. -/
def laterRejection (entries : List (String × Option Factory)) (event : Settlement) :
    Option (String × Val) :=
  match entries[event.index]? with
  | some (key, some _) => event.call.rejection key
  | _ => none

/-- All the rejections of a run of the step, in the order in which they happen. -/
def rejections (entries : List (String × Option Factory)) (events : List Settlement) :
    List (String × Val) :=
  syncRejections entries ++ events.filterMap (laterRejection entries)

/-- The state of the step agrees with the rejections made so far: `next` was
called with an error for the first of them and for no other, and `error` holds
that error. -/
def AsyncState.Agrees (describe : Val → String) (s : AsyncState)
    (made : List (String × Val)) : Prop :=
  s.nexts.filter isError =
      (made.head?.map (fun x => resolveAsyncComponents.errorOf describe x.1 x.2)).toList ∧
    s.error = made.head?.map (fun x => resolveAsyncComponents.errorOf describe x.1 x.2) ∧
    (made = [] → s.rejectCalled = [])

/-- A record with two outlets. -/
def Scenario.recordTwo : RouteRecord :=
  { path := "/two",
    components := [("default", some Scenario.componentA), ("side", some Scenario.componentB)],
    instances := [], name := none, parent := none, matchAs := none, redirect := none,
    beforeEnter := none }

/-- An async factory that calls `resolve` with `U` at once. -/
def Scenario.eager : Factory :=
  { calls := [Settle.resolve Scenario.componentU], throws := none }

/-- An async factory that returns without calling a callback. -/
def Scenario.lazy : Factory :=
  { calls := [], throws := none }

/-- The record of "/a" with the component `A` and no instance registered. -/
def Scenario.recordUnmounted : RouteRecord :=
  { Scenario.recordA with instances := [] }

/-- The component of "/p", with a `beforeRouteUpdate` guard. -/
def Scenario.componentP : Component :=
  { id := 4, beforeRouteLeave := GuardOption.absent,
    beforeRouteUpdate := GuardOption.single ⟨4⟩, beforeRouteEnter := GuardOption.absent }

/-- The record of "/p", mounted. -/
def Scenario.recordP : RouteRecord :=
  { path := "/p", components := [("default", some Scenario.componentP)],
    instances := [("default", ⟨4, false⟩)], name := none, parent := none, matchAs := none,
    redirect := none, beforeEnter := none }

/-- The record of "/p/a", mounted, a child of "/p". -/
def Scenario.recordPA : RouteRecord :=
  { Scenario.recordA with path := "/p/a", parent := some "/p" }

/-- The record of "/p/b", a child of "/p". -/
def Scenario.recordPB : RouteRecord :=
  { Scenario.recordB with path := "/p/b", parent := some "/p" }

/-- The current route "/p/a". -/
def Scenario.routePA : Route :=
  { ref := 5, name := none, path := "/p/a", hash := "", query := [], params := [],
    fullPath := "/p/a", matched := [⟨10, Scenario.recordP⟩, ⟨11, Scenario.recordPA⟩],
    redirectedFrom := none }

/-- The target route "/p/b", which reuses the record object of "/p". -/
def Scenario.routePB : Route :=
  { ref := 6, name := none, path := "/p/b", hash := "", query := [], params := [],
    fullPath := "/p/b", matched := [⟨10, Scenario.recordP⟩, ⟨12, Scenario.recordPB⟩],
    redirectedFrom := none }

/-- A ready history at "/p/a". -/
def Scenario.nestedHistory : History :=
  { Scenario.history with current := Scenario.routePA }

/-- A world in which the `beforeEach` hook and the async component step return
without calling `next` and call `next()` later, and every other guard calls
`next()` at once. -/
def Scenario.deferringWorld : World :=
  { production := false
    guard := fun g _ _ _ =>
      if g.id = 10 then { calls := [], throws := none }
      else { calls := [Val.undefined], throws := none }
    asyncComponents := fun _ _ _ => { calls := [], throws := none } }

/-- The record of "/a" with its component `A` in the one outlet "constructor"
and no instance registered. -/
def Scenario.recordConstructor : RouteRecord :=
  { Scenario.recordA with
    components := [("constructor", some Scenario.componentA)], instances := [] }


/-! ## Properties -/

/-! ### Route map builder -/

theorem lookup_append_none {β : Type} (key : String) (xs ys : List (String × β))
    (h : lookup key xs = none) : lookup key (xs ++ ys) = lookup key ys := by
  induction xs with
  | nil => rfl
  | cons x rest ih =>
    obtain ⟨k, v⟩ := x
    simp only [lookup, List.cons_append] at h ⊢
    by_cases hk : k = key
    · rw [if_pos hk] at h; exact Option.noConfusion h
    · rw [if_neg hk] at h ⊢; exact ih h

theorem lookup_append_some {β : Type} (key : String) (xs ys : List (String × β)) (v : β)
    (h : lookup key xs = some v) : lookup key (xs ++ ys) = some v := by
  induction xs with
  | nil => exact Option.noConfusion h
  | cons x rest ih =>
    obtain ⟨k, w⟩ := x
    simp only [lookup, List.cons_append] at h ⊢
    by_cases hk : k = key
    · rw [if_pos hk] at h ⊢; exact h
    · rw [if_neg hk] at h ⊢; exact ih h

mutual
/-- A property of route maps that `storeRecord` and `registerName` keep is kept
by `addRouteRecord`. -/
theorem addRouteRecord_preserves (production : Bool) (P : RouteMap → Prop)
    (hstore : ∀ m r, P m → P (storeRecord m r))
    (hname : ∀ m n r, P m → P (registerName m n r)) :
    ∀ (route : RouteConfig) (map : RouteMap) (parent : Option RouteRecord)
      (matchAs : Option String),
      P map → P (addRouteRecord production map route parent matchAs)
  | RouteConfig.mk route children, map, parent, matchAs, hP => by
    rw [addRouteRecord]
    apply hname
    have hfold : ∀ (aliases : List String) (m : RouteMap), P m →
        P (aliases.foldl (fun m aliasPath =>
          if (!production && decide (aliasPath = route.path)) = true then m
          else
            storeRecord
              (addRouteChildren production m children
                (createRecord { path := aliasPath } parent
                  (some (if (createRecord route parent matchAs).path = "" then "/"
                    else (createRecord route parent matchAs).path)))
                (some (if (createRecord route parent matchAs).path = "" then "/"
                    else (createRecord route parent matchAs).path)))
              (createRecord { path := aliasPath } parent
                (some (if (createRecord route parent matchAs).path = "" then "/"
                    else (createRecord route parent matchAs).path)))) m) := by
      intro aliases
      induction aliases with
      | nil => intro m hm; exact hm
      | cons a rest iha =>
        intro m hm
        rw [List.foldl_cons]
        apply iha
        split
        · exact hm
        · exact hstore _ _
            (addRouteChildren_preserves production P hstore hname children _ _ _ hm)
    exact hfold _ _ (hstore _ _
      (addRouteChildren_preserves production P hstore hname children _ _ _ hP))
/-- A property of route maps that `storeRecord` and `registerName` keep is kept
by the children loop of `addRouteRecord`. -/
theorem addRouteChildren_preserves (production : Bool) (P : RouteMap → Prop)
    (hstore : ∀ m r, P m → P (storeRecord m r))
    (hname : ∀ m n r, P m → P (registerName m n r)) :
    ∀ (children : List RouteConfig) (map : RouteMap) (record : RouteRecord)
      (matchAs : Option String),
      P map → P (addRouteChildren production map children record matchAs)
  | [], map, record, matchAs, hP => by
    rw [addRouteChildren]
    exact hP
  | child :: rest, map, record, matchAs, hP => by
    rw [addRouteChildren]
    exact addRouteChildren_preserves production P hstore hname rest _ _ _
      (addRouteRecord_preserves production P hstore hname child _ _ _ hP)
end

/-- The wildcard loop, started at index `|A|` of `A ++ B ++ stars` where `A` has
no wildcard: the wildcards of `B` join the `stars` at the end and the other
entries of `B` keep their order. -/
theorem createRouteMap.moveWildcards_spec :
    ∀ (fuel : Nat) (A B : List String) (k : Nat), B.length = fuel →
      createRouteMap.moveWildcards fuel A.length (A ++ B ++ List.replicate k "*") =
        A ++ B.filter (fun p => decide (p ≠ "*")) ++ List.replicate (B.count "*" + k) "*" := by
  intro fuel
  induction fuel with
  | zero =>
    intro A B k hB
    have : B = [] := List.length_eq_zero.mp hB
    subst this
    simp [createRouteMap.moveWildcards]
  | succ n ih =>
    intro A B k hB
    match B, hB with
    | b :: B', hB =>
      have hlen : B'.length = n := by simpa using hB
      have hget : (A ++ b :: B' ++ List.replicate k "*")[A.length]? = some b := by
        rw [List.append_assoc, List.getElem?_append_right (le_refl _)]
        simp
      rw [createRouteMap.moveWildcards, hget]
      simp only []
      by_cases hb : b = "*"
      · rw [if_pos hb]
        subst hb
        have herase : (A ++ "*" :: B' ++ List.replicate k "*").eraseIdx A.length ++ ["*"] =
            A ++ B' ++ List.replicate (k + 1) "*" := by
          rw [List.append_assoc, List.eraseIdx_append_of_length_le (le_refl _)]
          simp [List.replicate_succ']
        rw [herase, ih A B' (k + 1) hlen]
        have hc : List.count "*" ("*" :: B') = List.count "*" B' + 1 := by simp
        have hf : List.filter (fun p => decide (p ≠ "*")) ("*" :: B') =
            List.filter (fun p => decide (p ≠ "*")) B' := by simp
        rw [hc, hf]
        congr 2
        omega
      · rw [if_neg hb]
        have hA : A.length + 1 = (A ++ [b]).length := by simp
        have hl : A ++ b :: B' ++ List.replicate k "*" =
            (A ++ [b]) ++ B' ++ List.replicate k "*" := by simp
        rw [hA, hl, ih (A ++ [b]) B' k hlen]
        have hc : List.count "*" (b :: B') = List.count "*" B' := by
          rw [List.count_cons]
          simp [hb]
        have hf : List.filter (fun p => decide (p ≠ "*")) (b :: B') =
            b :: List.filter (fun p => decide (p ≠ "*")) B' := by
          simp [hb]
        rw [hc, hf]
        simp

/-- The wildcard loop of `createRouteMap` is a stable partition: the entries
other than "*" in their order, followed by the wildcards. -/
theorem createRouteMap.moveWildcards_eq (pathList : List String) :
    createRouteMap.moveWildcards pathList.length 0 pathList =
      pathList.filter (fun p => decide (p ≠ "*")) ++
        List.replicate (pathList.count "*") "*" := by
  have h := createRouteMap.moveWildcards_spec pathList.length [] pathList 0 rfl
  simpa using h

theorem storeRecord_consistent (m : RouteMap) (r : RouteRecord)
    (h : RouteMap.Consistent m.pathList m.pathMap) :
    RouteMap.Consistent (storeRecord m r).pathList (storeRecord m r).pathMap := by
  unfold storeRecord
  cases hl : lookup r.path m.pathMap with
  | some v => simpa using h
  | none =>
    obtain ⟨hnd, hkeys⟩ := h
    have hnot : r.path ∉ m.pathList := by
      intro hin
      have := (hkeys r.path).mp hin
      rw [hl] at this
      exact Bool.noConfusion this
    refine ⟨?_, ?_⟩
    · simp only []
      rw [List.nodup_append]
      refine ⟨hnd, List.nodup_singleton _, ?_⟩
      intro a ha hb
      rw [List.mem_singleton] at hb
      exact hnot (hb ▸ ha)
    · intro p
      simp only []
      cases hp : lookup p m.pathMap with
      | some w =>
        rw [lookup_append_some p _ _ w hp]
        have : p ∈ m.pathList := (hkeys p).mpr (by rw [hp]; rfl)
        simp [this]
      | none =>
        rw [lookup_append_none p _ _ hp]
        have hnp : p ∉ m.pathList := by
          intro hin
          have := (hkeys p).mp hin
          rw [hp] at this
          exact Bool.noConfusion this
        simp only [List.mem_append, List.mem_singleton, lookup, hnp, false_or]
        by_cases hrp : r.path = p
        · simp [hrp]
        · rw [if_neg hrp]
          simp only [Option.isSome_none]
          constructor
          · intro h'; exact absurd h'.symm hrp
          · intro h'; exact Bool.noConfusion h'

theorem registerName_paths (m : RouteMap) (n : Option String) (r : RouteRecord) :
    (registerName m n r).pathList = m.pathList ∧ (registerName m n r).pathMap = m.pathMap := by
  unfold registerName
  cases n with
  | none => exact ⟨rfl, rfl⟩
  | some name =>
    simp only []
    split
    · exact ⟨rfl, rfl⟩
    · split <;> exact ⟨rfl, rfl⟩

theorem createRouteMap_fold_consistent (production : Bool) (routes : List RouteConfig) :
    ∀ (m : RouteMap), RouteMap.Consistent m.pathList m.pathMap →
      RouteMap.Consistent
        (routes.foldl (fun m route => addRouteRecord production m route none none) m).pathList
        (routes.foldl (fun m route => addRouteRecord production m route none none) m).pathMap := by
  induction routes with
  | nil => intro m h; exact h
  | cons route rest ih =>
    intro m h
    rw [List.foldl_cons]
    apply ih
    exact addRouteRecord_preserves production
      (fun m => RouteMap.Consistent m.pathList m.pathMap)
      storeRecord_consistent
      (fun m n r hm => by
        obtain ⟨h1, h2⟩ := registerName_paths m n r
        show RouteMap.Consistent (registerName m n r).pathList (registerName m n r).pathMap
        rw [h1, h2]; exact hm)
      route m none none h

/-- C1. For every list of route configs, the `pathList` returned by
`createRouteMap`, started from no old maps or from old maps whose path list has
no duplicates and holds exactly the keys of the path map, contains at most one
entry equal to "*", and if it contains one, that entry is the last element. -/
theorem createRouteMap_wildcard_last (production : Bool) (routes : List RouteConfig)
    (oldPathList : Option (List String)) (oldPathMap : Option (List (String × RouteRecord)))
    (oldNameMap : Option (List (String × RouteRecord)))
    (hold : RouteMap.Consistent (oldPathList.getD []) (oldPathMap.getD [])) :
    (createRouteMap production routes oldPathList oldPathMap oldNameMap).pathList.count "*" ≤ 1 ∧
    ("*" ∈ (createRouteMap production routes oldPathList oldPathMap oldNameMap).pathList →
      (createRouteMap production routes oldPathList oldPathMap oldNameMap).pathList.getLast?
        = some "*") := by
  have hc := createRouteMap_fold_consistent production routes
    { pathList := oldPathList.getD [], pathMap := oldPathMap.getD [],
      nameMap := oldNameMap.getD [] } hold
  simp only [createRouteMap, createRouteMap.moveWildcards_eq]
  set l := (routes.foldl (fun m route => addRouteRecord production m route none none)
    { pathList := oldPathList.getD [], pathMap := oldPathMap.getD [],
      nameMap := oldNameMap.getD [] }).pathList with hl
  have hcount : l.count "*" ≤ 1 := List.nodup_iff_count_le_one.mp hc.1 "*"
  have hfilter : (l.filter (fun p => decide (p ≠ "*"))).count "*" = 0 := by
    rw [List.count_eq_zero]
    intro hmem
    have := (List.mem_filter.mp hmem).2
    simp at this
  constructor
  · rw [List.count_append, hfilter, List.count_replicate]
    simpa using hcount
  · intro hmem
    have hpos : l.count "*" ≠ 0 := by
      intro h0
      rw [h0] at hmem
      simp at hmem
    have hne : List.replicate (l.count "*") "*" ≠ [] := by
      intro h
      have := congrArg List.length h
      simp at this
      exact hpos this
    rw [List.getLast?_append_of_ne_nil _ hne, List.getLast?_replicate, if_neg hpos]

/-- A witness of `createRouteMap_wildcard_last`: the configs
`[{ path: "*" }, { path: "/x" }]` from empty maps give `["/x", "*"]`. -/
theorem createRouteMap_wildcard_last_witness :
    RouteMap.Consistent ((none : Option (List String)).getD [])
      ((none : Option (List (String × RouteRecord))).getD []) ∧
    (createRouteMap false
      [RouteConfig.mk { path := "*" } [], RouteConfig.mk { path := "/x" } []]
      none none none).pathList = ["/x", "*"] ∧
    (createRouteMap false
      [RouteConfig.mk { path := "*" } [], RouteConfig.mk { path := "/x" } []]
      none none none).pathList.count "*" ≤ 1 :=
  ⟨⟨List.nodup_nil, fun p => by simp [lookup]⟩, by decide,
    (createRouteMap_wildcard_last false
      [RouteConfig.mk { path := "*" } [], RouteConfig.mk { path := "/x" } []]
      none none none ⟨List.nodup_nil, fun p => by simp [lookup]⟩).1⟩

/-! ### Guard extraction -/

theorem flatten_append {β : Type} (xs ys : List (Slot β)) :
    flatten (xs ++ ys) = flatten xs ++ flatten ys := by
  induction xs with
  | nil => rfl
  | cons x rest ih =>
    cases x with
    | item b => simp [flatten, ih]
    | array bs => simp [flatten, ih]

theorem flatMapComponents_append {β : Type} (xs ys : List RouteRecord)
    (fn : Option Component → Option InstanceSlot → RouteRecord → String → β) :
    flatMapComponents (xs ++ ys) fn = flatMapComponents xs fn ++ flatMapComponents ys fn := by
  simp [flatMapComponents, flatten_append]

theorem extractGuards_append (xs ys : List RouteRecord) (name : GuardName)
    (bind : Guard → Option InstanceSlot → RouteRecord → String → Option Hook) :
    extractGuards (xs ++ ys) name bind false =
      extractGuards xs name bind false ++ extractGuards ys name bind false := by
  simp [extractGuards, flatMapComponents_append, flatten_append]

/-- C4. For every list of deactivated records given root to leaf, split at any
depth into a shallower part and a deeper part, the queue returned by
`extractLeaveGuards` consists of all the entries extracted from the deeper
records followed by all the entries extracted from the shallower records: every
`beforeRouteLeave` guard of a deeper record comes before every guard of a
shallower record. -/
theorem extractLeaveGuards_deepest_first (shallower deeper : List RouteRecord) :
    extractLeaveGuards (shallower ++ deeper) =
      extractLeaveGuards deeper ++ extractLeaveGuards shallower := by
  unfold extractLeaveGuards extractGuards
  simp only [if_true]
  rw [flatMapComponents_append, List.reverse_append, flatten_append]

/-! ### The transition controller -/

theorem foldl_emit {γ : Type} (f : γ → Event) (xs : List γ) :
    ∀ (h : History),
      xs.foldl (fun s x => s.emit (f x)) h = { h with log := h.log ++ xs.map f } := by
  induction xs with
  | nil => intro h; simp
  | cons x rest ih =>
    intro h
    rw [List.foldl_cons, ih]
    simp [History.emit]

theorem confirmTransition.abort_eq (w : World) (onAbort : Option (Val → History → History))
    (err : Val) (h : History) :
    confirmTransition.abort w onAbort err h =
      callOnAbort onAbort err
        { h with log := h.log ++ confirmTransition.abortEvents w h.errorCbs err } := by
  have key : (if (!isNavigationFailure err none && isError err) = true then
        if h.errorCbs.length ≠ 0 then
          h.errorCbs.foldl (fun s cb => s.emit (Event.errorCb cb err)) h
        else
          (if w.production = true then h
            else h.emit (Event.warn "uncaught error during route navigation:")).emit
            (Event.consoleError err)
      else h) =
      { h with log := h.log ++ confirmTransition.abortEvents w h.errorCbs err } := by
    unfold confirmTransition.abortEvents
    by_cases hc : isError err = true ∧ isNavigationFailure err none = false
    · have hc' : (!isNavigationFailure err none && isError err) = true := by
        simp [hc.1, hc.2]
      rw [if_pos hc', if_pos hc]
      by_cases hl : h.errorCbs = []
      · have : ¬ h.errorCbs.length ≠ 0 := by simp [hl]
        rw [if_neg this, if_pos hl]
        cases w.production <;> simp [History.emit]
      · have : h.errorCbs.length ≠ 0 := by
          intro h0; exact hl (List.length_eq_zero.mp h0)
        rw [if_pos this, if_neg hl, foldl_emit]
    · have hc' : ¬ (!isNavigationFailure err none && isError err) = true := by
        intro h'
        apply hc
        simp only [Bool.and_eq_true, Bool.not_eq_true'] at h'
        exact ⟨h'.2, h'.1⟩
      rw [if_neg hc', if_neg hc]
      simp
  unfold confirmTransition.abort
  simp only []
  rw [key]

theorem confirmTransition.abort_failure (w : World)
    (onAbort : Option (Val → History → History))
    (type : NavigationFailureType) (origin target : Route) (h : History) :
    confirmTransition.abort w onAbort (Val.failure type origin target) h =
      callOnAbort onAbort (Val.failure type origin target) h := by
  rw [confirmTransition.abort_eq]
  simp [confirmTransition.abortEvents, isNavigationFailure]

theorem errorCbCalls_abortEvents (w : World) (errorCbs : List Callback) (err : Val) :
    errorCbCalls (confirmTransition.abortEvents w errorCbs err) =
      if isError err = true ∧ isNavigationFailure err none = false then
        errorCbs.map (fun cb => (cb, err))
      else [] := by
  unfold confirmTransition.abortEvents
  by_cases hc : isError err = true ∧ isNavigationFailure err none = false
  · rw [if_pos hc, if_pos hc]
    by_cases hl : errorCbs = []
    · rw [if_pos hl, hl]
      cases w.production <;> simp [errorCbCalls]
    · rw [if_neg hl]
      clear hl
      induction errorCbs with
      | nil => rfl
      | cons cb rest ih =>
        simp only [errorCbCalls, List.map_cons, List.filterMap_cons] at ih ⊢
        rw [ih]
  · rw [if_neg hc, if_neg hc]
    rfl

theorem runQueue_append {σ η : Type} (pre post : List (Option η))
    (fn : η → (σ → σ) → σ → σ) (cb : σ → σ) :
    runQueue (pre ++ post) fn cb = runQueue pre fn (runQueue post fn cb) := by
  induction pre with
  | nil => rfl
  | cons x rest ih =>
    cases x with
    | none => simpa [runQueue] using ih
    | some k => simp [runQueue, ih]

theorem confirmTransition.iterator_proceeds (w : World) (route current : Route)
    (onAbort : Option (Val → History → History)) (hook : Hook) (next : History → History)
    (h : History) (hp : h.pending = some route) (hk : hook.proceeds w route current) :
    confirmTransition.iterator w route current onAbort hook next h =
      next (h.emit (Event.hook hook route current)) := by
  unfold Hook.proceeds at hk
  have hpend : ¬ h.pending ≠ some route := by simp [hp]
  unfold confirmTransition.iterator
  rw [if_neg hpend]
  unfold Hook.call runBehaviour
  rw [hk]
  cases hook <;>
    simp [Hook.next, confirmTransition.next, isError, isRedirect]

theorem confirmTransition.runQueue_proceeds (w : World) (route current : Route)
    (onAbort : Option (Val → History → History)) (cb : History → History) :
    ∀ (queue : List (Option Hook)) (h : History), h.pending = some route →
      (∀ k, some k ∈ queue → k.proceeds w route current) →
      runQueue queue (confirmTransition.iterator w route current onAbort) cb h =
        cb { h with log := h.log ++ hookEvents queue route current } := by
  intro queue
  induction queue with
  | nil => intro h _ _; simp [runQueue, hookEvents]
  | cons x rest ih =>
    intro h hp hall
    cases x with
    | none =>
      simp only [runQueue]
      rw [ih h hp (fun k hk => hall k (List.mem_cons_of_mem _ hk))]
      simp [hookEvents]
    | some k =>
      simp only [runQueue]
      rw [confirmTransition.iterator_proceeds w route current onAbort k _ h hp
        (hall k (List.mem_cons_self _ _))]
      rw [ih _ (by simpa [History.emit] using hp)
        (fun k' hk' => hall k' (List.mem_cons_of_mem _ hk'))]
      simp [hookEvents, History.emit]

theorem jsIndex_last {α : Type} (xs : List α) :
    jsIndex xs ((xs.length : Int) - 1) = xs.getLast? := by
  unfold jsIndex
  cases xs with
  | nil => simp
  | cons x rest =>
    have h1 : ¬ (((x :: rest).length : Int) - 1 < 0) := by
      simp only [List.length_cons]; omega
    rw [if_neg h1, List.getLast?_eq_getElem?]
    congr 1
    simp only [List.length_cons]
    omega

/-- The duplicate test of `confirmTransition` holds exactly when the routes are
the same, the matched lists have equal length and the same last record. -/
theorem duplicate_test_iff (route current : Route) :
    (isSameRoute route current &&
      decide (((route.matched.length : Int) - 1) = ((current.matched.length : Int) - 1)) &&
      decide (jsIndex route.matched ((route.matched.length : Int) - 1) =
        jsIndex current.matched ((current.matched.length : Int) - 1))) = true ↔
    (isSameRoute route current = true ∧ route.matched.length = current.matched.length ∧
      route.matched.getLast? = current.matched.getLast?) := by
  rw [jsIndex_last, jsIndex_last]
  simp only [Bool.and_eq_true, decide_eq_true_eq]
  constructor
  · rintro ⟨⟨h1, h2⟩, h3⟩
    exact ⟨h1, by omega, h3⟩
  · rintro ⟨h1, h2, h3⟩
    exact ⟨⟨h1, by omega⟩, h3⟩

/-- A queue whose entries before `hook` all proceed reaches `hook` with those
entries logged, and hands it the rest of the queue as its continuation. -/
theorem confirmTransition.runQueue_reaches (w : World) (route current : Route)
    (onAbort : Option (Val → History → History)) (cb : History → History)
    (pre rest : List (Option Hook)) (hook : Hook) (h : History)
    (hp : h.pending = some route)
    (hpre : ∀ k, some k ∈ pre → k.proceeds w route current) :
    runQueue (pre ++ some hook :: rest) (confirmTransition.iterator w route current onAbort)
        cb h =
      confirmTransition.iterator w route current onAbort hook
        (runQueue rest (confirmTransition.iterator w route current onAbort) cb)
        { h with log := h.log ++ hookEvents pre route current } := by
  rw [runQueue_append, confirmTransition.runQueue_proceeds w route current onAbort _ pre h hp hpre]
  rfl

/-- The iterator, entered for the pending route with a hook that calls `next`
once with `v` and does not throw, logs the call and runs the `next` of the
hook on `v`. -/
theorem confirmTransition.iterator_calls (w : World) (route current : Route)
    (onAbort : Option (Val → History → History)) (hook : Hook) (next : History → History)
    (v : Val) (h : History) (hp : h.pending = some route)
    (hk : hook.behaviour w route current = { calls := [v], throws := none }) :
    confirmTransition.iterator w route current onAbort hook next h =
      hook.next (confirmTransition.next w route current onAbort next) v
        (h.emit (Event.hook hook route current)) := by
  have hpend : ¬ h.pending ≠ some route := by simp [hp]
  unfold confirmTransition.iterator
  rw [if_neg hpend]
  unfold Hook.call runBehaviour
  rw [hk]
  rfl

theorem Hook.next_of_not_func (hook : Hook) (next : Val → History → History) (v : Val)
    (hv : ∀ id, v ≠ Val.func id) (h : History) : hook.next next v h = next v h := by
  cases hook with
  | routeEnterGuard g record key =>
    cases v with
    | func id => exact absurd rfl (hv id)
    | _ => rfl
  | _ => rfl

theorem filterMap_flatten_slots {β : Type} (slots : List (Slot (Option β))) :
    (flatten slots).filterMap id = (slots.map Slot.defined).flatten := by
  induction slots with
  | nil => rfl
  | cons s rest ih =>
    cases s with
    | item x =>
      cases x with
      | none => simp [flatten, Slot.defined, ih]
      | some v => simp [flatten, Slot.defined, ih]
    | array xs => simp [flatten, Slot.defined, ih, List.filterMap_append]

theorem flatMapComponents_eq {β : Type} (matched : List RouteRecord)
    (fn : Option Component → Option InstanceSlot → RouteRecord → String → β) :
    flatMapComponents matched fn =
      matched.flatMap (fun m =>
        m.components.map (fun entry => fn entry.2 (m.instanceAt entry.1) m entry.1)) := by
  unfold flatMapComponents
  induction matched with
  | nil => rfl
  | cons m rest ih => simp [flatten, ih]

theorem extractGuards_defined (records : List RouteRecord) (name : GuardName)
    (bind : Guard → Option InstanceSlot → RouteRecord → String → Option Hook)
    (reverse : Bool) :
    (extractGuards records name bind reverse).filterMap id =
      (if reverse then
        (records.flatMap (fun m => m.components.map (fun entry =>
          (extractGuard entry.2 name).guards.filterMap
            (fun g => bind g (m.instanceAt entry.1) m entry.1)))).reverse
      else
        records.flatMap (fun m => m.components.map (fun entry =>
          (extractGuard entry.2 name).guards.filterMap
            (fun g => bind g (m.instanceAt entry.1) m entry.1)))).flatten := by
  unfold extractGuards
  simp only []
  rw [filterMap_flatten_slots, flatMapComponents_eq]
  have key : ∀ X : List (Slot (Option Hook)),
      List.map Slot.defined (if reverse = true then X.reverse else X) =
        if reverse = true then (X.map Slot.defined).reverse else X.map Slot.defined := by
    intro X
    cases reverse <;> simp
  rw [key, List.map_flatMap]
  have hent : ∀ (m : RouteRecord) (entry : String × Option Component) (o : GuardOption),
      Slot.defined
        (match o with
          | GuardOption.absent => Slot.item none
          | GuardOption.single g => Slot.item (bind g (m.instanceAt entry.1) m entry.1)
          | GuardOption.array gs =>
            Slot.array (gs.map (fun g => bind g (m.instanceAt entry.1) m entry.1))) =
        o.guards.filterMap (fun g => bind g (m.instanceAt entry.1) m entry.1) := by
    intro m entry o
    cases o with
    | absent => rfl
    | single g =>
      cases hb : bind g (m.instanceAt entry.1) m entry.1 <;>
        simp [Slot.defined, GuardOption.guards, hb]
    | array gs =>
      simp only [Slot.defined, GuardOption.guards, List.filterMap_map]
      rfl
  have hfm : (records.flatMap fun m =>
      List.map Slot.defined
        (m.components.map (fun entry =>
          match extractGuard entry.2 name with
          | GuardOption.absent => Slot.item none
          | GuardOption.single g => Slot.item (bind g (m.instanceAt entry.1) m entry.1)
          | GuardOption.array gs =>
            Slot.array (gs.map (fun g => bind g (m.instanceAt entry.1) m entry.1))))) =
      records.flatMap (fun m => m.components.map (fun entry =>
        (extractGuard entry.2 name).guards.filterMap
          (fun g => bind g (m.instanceAt entry.1) m entry.1))) := by
    congr 1
    funext m
    rw [List.map_map]
    congr 1
    funext entry
    exact hent m entry _
  cases reverse with
  | false =>
    simp only [Bool.false_eq_true, if_false]
    exact congrArg List.flatten hfm
  | true =>
    simp only [if_true]
    exact congrArg (fun l => List.flatten (List.reverse l)) hfm

theorem extractLeaveGuards_defined (records : List RouteRecord) :
    (extractLeaveGuards records).filterMap id =
      (boundGuards GuardName.beforeRouteLeave records).reverse.flatten := by
  unfold extractLeaveGuards boundGuards
  rw [extractGuards_defined]
  simp only [if_true]
  congr 2
  congr 1
  funext m
  congr 1
  funext entry
  cases m.instanceAt entry.1 with
  | none => simp [bindGuard]
  | some self =>
    simp only [bindGuard]
    induction (extractGuard entry.2 GuardName.beforeRouteLeave).guards with
    | nil => rfl
    | cons g gs ih => simp [ih]

theorem extractUpdateHooks_defined (records : List RouteRecord) :
    (extractUpdateHooks records).filterMap id =
      (boundGuards GuardName.beforeRouteUpdate records).flatten := by
  unfold extractUpdateHooks boundGuards
  rw [extractGuards_defined]
  simp only [Bool.false_eq_true, if_false]
  congr 1
  congr 1
  funext m
  congr 1
  funext entry
  cases m.instanceAt entry.1 with
  | none => simp [bindGuard]
  | some self =>
    simp only [bindGuard]
    induction (extractGuard entry.2 GuardName.beforeRouteUpdate).guards with
    | nil => rfl
    | cons g gs ih => simp [ih]

theorem extractEnterGuards_defined (records : List RouteRecord) :
    (extractEnterGuards records).filterMap id = enterGuards records := by
  unfold extractEnterGuards enterGuards
  rw [extractGuards_defined]
  simp only [Bool.false_eq_true, if_false]
  induction records with
  | nil => rfl
  | cons m rest ih =>
    simp only [List.flatMap_cons, List.flatten_append, ih]
    congr 1
    induction m.components with
    | nil => rfl
    | cons entry es ihe =>
      simp only [List.map_cons, List.flatten_cons, List.flatMap_cons, ihe]
      congr 1
      induction (extractGuard entry.2 GuardName.beforeRouteEnter).guards with
      | nil => rfl
      | cons g gs ihg => simp [ihg]

theorem filterMap_map_guard (hooks : List (Option Guard)) :
    (hooks.map (Option.map Hook.guard)).filterMap id = (hooks.filterMap id).map Hook.guard := by
  induction hooks with
  | nil => rfl
  | cons x rest ih =>
    cases x with
    | none => simpa using ih
    | some g => simpa using ih

theorem filterMap_beforeEnter (records : List RouteRecord) :
    (records.map (fun m => m.beforeEnter.map Hook.guard)).filterMap id =
      (records.filterMap (fun m => m.beforeEnter)).map Hook.guard := by
  induction records with
  | nil => rfl
  | cons m rest ih =>
    cases hb : m.beforeEnter with
    | none => simpa [hb] using ih
    | some g => simpa [hb] using ih

/-- The defined entries of the two queues of `confirmTransition`, one after the
other, are the hooks in the order of the specification. -/
theorem confirmTransition.queues_defined (router : Router) (q : ResolvedQueue RouteRecord) :
    (confirmTransition.queue router q ++
      (extractEnterGuards q.activated ++
        router.resolveHooks.map (Option.map Hook.guard))).filterMap id =
      confirmTransition.hookOrder router q := by
  unfold confirmTransition.queue confirmTransition.hookOrder
  simp only [List.filterMap_append, extractLeaveGuards_defined, extractUpdateHooks_defined,
    extractEnterGuards_defined, filterMap_map_guard, filterMap_beforeEnter,
    List.append_assoc]
  rfl

theorem confirmTransition.iterator_defers (w : World) (route current : Route)
    (onAbort : Option (Val → History → History)) (hook : Hook) (next : History → History)
    (h : History) (hp : h.pending = some route) (hk : hook.defers w route current) :
    confirmTransition.iterator w route current onAbort hook next h =
      h.emit (Event.hook hook route current) := by
  unfold Hook.defers at hk
  have hpend : ¬ h.pending ≠ some route := by simp [hp]
  unfold confirmTransition.iterator
  rw [if_neg hpend]
  unfold Hook.call runBehaviour
  rw [hk]
  rfl

/-- A call of `next()` with no argument runs the continuation, whatever the
state is then. -/
theorem Hook.next_undefined (w : World) (route current : Route)
    (onAbort : Option (Val → History → History)) (hook : Hook) (K : History → History)
    (s : History) :
    hook.next (confirmTransition.next w route current onAbort K) Val.undefined s = K s := by
  rw [Hook.next_of_not_func hook _ Val.undefined (fun id h => Val.noConfusion h)]
  simp [confirmTransition.next, isError, isRedirect]

/-- A queue stops at the first hook that defers: the hooks before it are
invoked, then the hook, and nothing else happens. -/
theorem confirmTransition.runQueue_blocks (w : World) (route current : Route)
    (onAbort : Option (Val → History → History)) (cb : History → History)
    (pre rest : List (Option Hook)) (hook : Hook) (h : History)
    (hp : h.pending = some route)
    (hpre : ∀ k, some k ∈ pre → k.proceeds w route current)
    (hk : hook.defers w route current) :
    runQueue (pre ++ some hook :: rest) (confirmTransition.iterator w route current onAbort)
        cb h =
      { h with log := h.log ++ hookEvents (pre ++ [some hook]) route current } := by
  rw [confirmTransition.runQueue_reaches w route current onAbort cb pre rest hook h hp hpre,
    confirmTransition.iterator_defers w route current onAbort hook _
      { h with log := h.log ++ hookEvents pre route current } hp hk]
  simp [hookEvents, History.emit, List.filterMap_append]

/-- When every hook of a queue calls `next()`, at once or later, the queue
invokes its hooks in order and then calls its callback. -/
theorem confirmTransition.laterCalls_runQueue (w : World) (route current : Route)
    (onAbort : Option (Val → History → History)) (cb : History → History) :
    ∀ (queue : List (Option Hook)) (h : History), h.pending = some route →
      (∀ k, some k ∈ queue → k.proceeds w route current ∨ k.defers w route current) →
      confirmTransition.laterCalls w route current onAbort queue cb
          (runQueue queue (confirmTransition.iterator w route current onAbort) cb h) =
        cb { h with log := h.log ++ hookEvents queue route current } := by
  intro queue
  induction queue with
  | nil => intro h _ _; simp [runQueue, hookEvents, confirmTransition.laterCalls]
  | cons x rest ih =>
    intro h hp hall
    cases x with
    | none =>
      simp only [runQueue, confirmTransition.laterCalls]
      rw [ih h hp (fun k hk => hall k (List.mem_cons_of_mem _ hk))]
      simp [hookEvents]
    | some k =>
      simp only [runQueue, confirmTransition.laterCalls]
      have hp1 : (h.emit (Event.hook k route current)).pending = some route := hp
      rcases hall k (List.mem_cons_self _ _) with hk | hk
      · have hnot : ¬ (k.behaviour w route current = { calls := [], throws := none }) := by
          unfold Hook.proceeds at hk
          rw [hk]
          intro hc
          injection hc with h1 _
          exact List.noConfusion h1
        rw [if_neg hnot, confirmTransition.iterator_proceeds w route current onAbort k _ h hp hk,
          ih _ hp1 (fun k' hk' => hall k' (List.mem_cons_of_mem _ hk'))]
        simp [hookEvents, History.emit]
      · have hyes : k.behaviour w route current = { calls := [], throws := none } := hk
        rw [if_pos hyes, confirmTransition.iterator_defers w route current onAbort k _ h hp hk,
          Hook.next_undefined,
          ih _ hp1 (fun k' hk' => hall k' (List.mem_cons_of_mem _ hk'))]
        simp [hookEvents, History.emit]

theorem mem_filterMap_id {β : Type} (x : β) (xs : List (Option β)) :
    some x ∈ xs ↔ x ∈ xs.filterMap id := by
  simp [List.mem_filterMap]

/-- C3. For every transition that is not a duplicate, is not superseded, and in
which every hook calls `next()` with no argument, either during its run or
later, `confirmTransition` invokes the hooks in exactly this order: the
`beforeRouteLeave` guards of the deactivated records, taken from the last outlet
to the first; the global `beforeEach` hooks in registration order; the
`beforeRouteUpdate` guards of the updated records, root to leaf; the
`beforeEnter` guard of each activated record, root to leaf; the async component
step; then the `beforeRouteEnter` guards of the activated records; then the
global `beforeResolve` hooks in registration order; and only then `pending` is
reset and the commit callback is called. A hook that defers its call of `next`
stops the queue: no later hook is invoked and nothing is committed until it
calls `next()`, and that call runs the rest of the queue in the state the
history is in then. -/
theorem confirmTransition_guard_order (w : World) (route : Route)
    (onComplete : Route → History → History) (onAbort : Option (Val → History → History))
    (h : History)
    (hdup : ¬ (isSameRoute route h.current = true ∧
      route.matched.length = h.current.matched.length ∧
      route.matched.getLast? = h.current.matched.getLast?))
    (hall : ∀ k, k ∈ confirmTransition.hookOrder h.router (confirmTransition.resolved h route) →
      k.proceeds w route h.current ∨ k.defers w route h.current) :
    confirmTransition.laterCalls w route h.current onAbort
        (extractEnterGuards (confirmTransition.resolved h route).activated ++
          h.router.resolveHooks.map (Option.map Hook.guard))
        (confirmTransition.complete w route h.current onComplete onAbort)
        (confirmTransition.laterCalls w route h.current onAbort
          (confirmTransition.queue h.router (confirmTransition.resolved h route))
          (confirmTransition.enter w route h.current
            (confirmTransition.resolved h route).activated onComplete onAbort)
          (confirmTransition w route onComplete onAbort h)) =
      (fun h1 : History =>
        if h1.router.app = true then h1.emit (Event.nextTick h1.postEnterCbs) else h1)
      (onComplete route
        { h with
          pending := none
          postEnterCbs := []
          log := h.log ++
            (confirmTransition.hookOrder h.router (confirmTransition.resolved h route)).map
              (fun k => Event.hook k route h.current) }) ∧
    (∀ (cb : History → History) (pre rest : List (Option Hook)) (hook : Hook) (s : History),
      s.pending = some route →
      (∀ k, some k ∈ pre → k.proceeds w route h.current) →
      hook.defers w route h.current →
      runQueue (pre ++ some hook :: rest)
          (confirmTransition.iterator w route h.current onAbort) cb s =
        { s with log := s.log ++ hookEvents (pre ++ [some hook]) route h.current }) ∧
    (∀ (hook : Hook) (K : History → History) (s : History),
      hook.next (confirmTransition.next w route h.current onAbort K) Val.undefined s = K s) := by
  refine ⟨?_, fun cb pre rest hook s hp hpre hk =>
      confirmTransition.runQueue_blocks w route h.current onAbort cb pre rest hook s hp hpre hk,
    fun hook K s => Hook.next_undefined w route h.current onAbort hook K s⟩
  have hdup' := mt (duplicate_test_iff route h.current).mp hdup
  have hmem : ∀ k, some k ∈ confirmTransition.queue h.router (confirmTransition.resolved h route) ++
      (extractEnterGuards (confirmTransition.resolved h route).activated ++
        h.router.resolveHooks.map (Option.map Hook.guard)) →
      k.proceeds w route h.current ∨ k.defers w route h.current := by
    intro k hk
    apply hall
    rw [← confirmTransition.queues_defined]
    exact (mem_filterMap_id k _).mp hk
  have hc : confirmTransition w route onComplete onAbort h =
      runQueue (confirmTransition.queue h.router (confirmTransition.resolved h route))
        (confirmTransition.iterator w route h.current onAbort)
        (confirmTransition.enter w route h.current
          (confirmTransition.resolved h route).activated onComplete onAbort)
        { h with pending := some route } := by
    unfold confirmTransition
    simp only []
    rw [if_neg hdup']
    rfl
  rw [hc, confirmTransition.laterCalls_runQueue w route h.current onAbort _ _ _ rfl
    (fun k hk => hmem k (List.mem_append_left _ hk))]
  unfold confirmTransition.enter
  simp only []
  rw [confirmTransition.laterCalls_runQueue w route h.current onAbort _ _ _ rfl
    (fun k hk => hmem k (List.mem_append_right _ hk))]
  unfold confirmTransition.complete
  simp only [ne_eq, not_true_eq_false, if_false]
  have hlog : hookEvents (confirmTransition.queue h.router (confirmTransition.resolved h route))
        route h.current ++
      hookEvents (extractEnterGuards (confirmTransition.resolved h route).activated ++
        h.router.resolveHooks.map (Option.map Hook.guard)) route h.current =
      (confirmTransition.hookOrder h.router (confirmTransition.resolved h route)).map
        (fun k => Event.hook k route h.current) := by
    rw [← confirmTransition.queues_defined]
    simp only [hookEvents, List.filterMap_append, List.map_append]
  simp only [List.append_assoc, hlog]

/-- A witness of `confirmTransition_guard_order`: going from "/p/a" to "/p/b",
which reuses the record object of "/p", with a `beforeEach` hook and an async
step that defer `next`. The synchronous run stops at the `beforeEach` hook; with
the later calls the leave guard, `beforeEach`, the update guard of "/p",
`beforeEnter`, the async step, the enter guard and `beforeResolve` are invoked
in this order before the commit. A record object with the fields of "/p" but
another identity is not an updated record. -/
theorem confirmTransition_guard_order_witness :
    (confirmTransition Scenario.deferringWorld Scenario.routePB
      (fun r s => s.emit (Event.onComplete ⟨51⟩ r)) none Scenario.nestedHistory).log =
      [Event.hook (Hook.boundRouteGuard ⟨1⟩ (InstanceSlot.registered ⟨1, false⟩))
         Scenario.routePB Scenario.routePA,
       Event.hook (Hook.guard ⟨10⟩) Scenario.routePB Scenario.routePA] ∧
    (confirmTransition.laterCalls Scenario.deferringWorld Scenario.routePB Scenario.routePA none
        (extractEnterGuards [Scenario.recordPB] ++
          Scenario.router.resolveHooks.map (Option.map Hook.guard))
        (confirmTransition.complete Scenario.deferringWorld Scenario.routePB Scenario.routePA
          (fun r s => s.emit (Event.onComplete ⟨51⟩ r)) none)
        (confirmTransition.laterCalls Scenario.deferringWorld Scenario.routePB Scenario.routePA
          none
          (confirmTransition.queue Scenario.router
            (confirmTransition.resolved Scenario.nestedHistory Scenario.routePB))
          (confirmTransition.enter Scenario.deferringWorld Scenario.routePB Scenario.routePA
            [Scenario.recordPB] (fun r s => s.emit (Event.onComplete ⟨51⟩ r)) none)
          (confirmTransition Scenario.deferringWorld Scenario.routePB
            (fun r s => s.emit (Event.onComplete ⟨51⟩ r)) none Scenario.nestedHistory))).log =
      [Event.hook (Hook.boundRouteGuard ⟨1⟩ (InstanceSlot.registered ⟨1, false⟩))
         Scenario.routePB Scenario.routePA,
       Event.hook (Hook.guard ⟨10⟩) Scenario.routePB Scenario.routePA,
       Event.hook (Hook.boundRouteGuard ⟨4⟩ (InstanceSlot.registered ⟨4, false⟩))
         Scenario.routePB Scenario.routePA,
       Event.hook (Hook.guard ⟨2⟩) Scenario.routePB Scenario.routePA,
       Event.hook (Hook.resolveAsyncComponents [Scenario.recordPB]) Scenario.routePB
         Scenario.routePA,
       Event.hook (Hook.routeEnterGuard ⟨3⟩ Scenario.recordPB "default") Scenario.routePB
         Scenario.routePA,
       Event.hook (Hook.guard ⟨11⟩) Scenario.routePB Scenario.routePA,
       Event.onComplete ⟨51⟩ Scenario.routePB,
       Event.nextTick []] ∧
    (resolveQueue Scenario.routePA.matched
      [⟨20, Scenario.recordP⟩, ⟨12, Scenario.recordPB⟩]).updated = [] :=
  ⟨by decide,
    (congrArg History.log
      (confirmTransition_guard_order Scenario.deferringWorld Scenario.routePB
        (fun r s => s.emit (Event.onComplete ⟨51⟩ r)) none Scenario.nestedHistory
        (by decide)
        (fun k _ => by
          cases k with
          | guard g =>
            by_cases hg : g.id = 10 <;>
              simp [Hook.proceeds, Hook.defers, Hook.behaviour, Scenario.deferringWorld, hg]
          | boundRouteGuard g inst =>
            by_cases hg : g.id = 10 <;>
              simp [Hook.proceeds, Hook.defers, Hook.behaviour, Scenario.deferringWorld, hg]
          | routeEnterGuard g record key =>
            by_cases hg : g.id = 10 <;>
              simp [Hook.proceeds, Hook.defers, Hook.behaviour, Scenario.deferringWorld, hg]
          | resolveAsyncComponents matched =>
            simp [Hook.proceeds, Hook.defers, Hook.behaviour,
              Scenario.deferringWorld])).1).trans (by decide),
    by decide⟩

/-- C5. For every transition whose route is still pending, when a guard, reached
after guards that proceeded, calls `next(false)`: the controller calls
`ensureURL(true)` and hands a NavigationAborted failure built from
`(current, route)` to `onAbort`; the state handed over differs from the one at
the start of the queue only by the log, which holds the hooks run so far and
`ensureURL(true)`, so no later guard is invoked, `current` is unchanged and no
`onError` subscriber is called. The first part states the same of the call
`next(false)` itself, in any state and whatever the continuation. -/
theorem next_false_aborts (w : World) (route current : Route)
    (onAbort : Option (Val → History → History)) (cb : History → History)
    (pre rest : List (Option Hook)) (hook : Hook) (h : History)
    (hp : h.pending = some route)
    (hpre : ∀ k, some k ∈ pre → k.proceeds w route current)
    (hk : hook.behaviour w route current = { calls := [Val.bool false], throws := none }) :
    (∀ (continuation : History → History) (s : History),
      hook.next (confirmTransition.next w route current onAbort continuation)
          (Val.bool false) s =
        callOnAbort onAbort (createNavigationAbortedError current route)
          { s with log := s.log ++ [Event.ensureURL (some true)] }) ∧
    runQueue (pre ++ some hook :: rest) (confirmTransition.iterator w route current onAbort)
        cb h =
      callOnAbort onAbort (createNavigationAbortedError current route)
        { h with
          log := h.log ++ hookEvents pre route current ++
            [Event.hook hook route current, Event.ensureURL (some true)] } := by
  constructor
  · intro continuation s
    rw [Hook.next_of_not_func _ _ _ (fun id => by simp)]
    unfold confirmTransition.next
    rw [if_pos rfl]
    unfold createNavigationAbortedError
    rw [confirmTransition.abort_failure]
    rfl
  rw [confirmTransition.runQueue_reaches w route current onAbort cb pre rest hook h hp hpre]
  rw [confirmTransition.iterator_calls w route current onAbort hook _ (Val.bool false)
    { h with log := h.log ++ hookEvents pre route current } hp hk]
  rw [Hook.next_of_not_func _ _ _ (fun id => by simp)]
  unfold confirmTransition.next
  rw [if_pos rfl]
  unfold createNavigationAbortedError
  rw [confirmTransition.abort_failure]
  simp [History.emit]

/-- A witness of `next_false_aborts`: the `beforeEnter` guard of "/b" calls
`next(false)`. -/
theorem next_false_aborts_witness :
    runQueue (Scenario.before ++ some (Hook.guard ⟨2⟩) :: Scenario.after)
        (confirmTransition.iterator
          (Scenario.world { calls := [Val.bool false], throws := none })
          Scenario.routeB Scenario.routeA (some Scenario.onAbort))
        id Scenario.pendingHistory =
      { Scenario.pendingHistory with
        log :=
          [Event.hook (Hook.boundRouteGuard ⟨1⟩ (InstanceSlot.registered ⟨1, false⟩))
             Scenario.routeB Scenario.routeA,
           Event.hook (Hook.guard ⟨10⟩) Scenario.routeB Scenario.routeA,
           Event.hook (Hook.guard ⟨2⟩) Scenario.routeB Scenario.routeA,
           Event.ensureURL (some true),
           Event.onAbort ⟨50⟩
             (Val.failure NavigationFailureType.aborted Scenario.routeA Scenario.routeB)] } :=
  (next_false_aborts (Scenario.world { calls := [Val.bool false], throws := none })
    Scenario.routeB Scenario.routeA (some Scenario.onAbort) id Scenario.before Scenario.after
    (Hook.guard ⟨2⟩) Scenario.pendingHistory rfl
    (fun k hk => by
      simp only [Scenario.before, List.mem_cons, Option.some.injEq, List.mem_nil_iff,
        or_false] at hk
      rcases hk with rfl | rfl <;> exact Eq.refl _)
    rfl).2.trans (by decide)

/-- C6. For every guard, reached after guards that proceeded, that calls
`next(to)` where `to` is a string, or an object whose `path` or `name` is a
string: the controller first runs the abort path with a NavigationRedirected
failure built from `(current, route)`, does not advance to the next guard, and
then starts exactly one navigation with `to`: `replace(to)` if `to` is an
object with a truthy `replace`, `push(to)` otherwise. The first part states
the same of the call `next(to)` itself, in any state and whatever the
continuation. -/
theorem next_location_redirects (w : World) (route current : Route)
    (onAbort : Option (Val → History → History)) (cb : History → History)
    (pre rest : List (Option Hook)) (hook : Hook) (h : History) (target : Val)
    (hp : h.pending = some route)
    (hpre : ∀ k, some k ∈ pre → k.proceeds w route current)
    (ht : isRedirect target = true)
    (hk : hook.behaviour w route current = { calls := [target], throws := none }) :
    (∀ (continuation : History → History) (s : History),
      hook.next (confirmTransition.next w route current onAbort continuation) target s =
        (callOnAbort onAbort (createNavigationRedirectedError current route) s).emit
          (if wantsReplace target = true then Event.replace target
            else Event.push target)) ∧
    runQueue (pre ++ some hook :: rest) (confirmTransition.iterator w route current onAbort)
        cb h =
      (callOnAbort onAbort (createNavigationRedirectedError current route)
        { h with
          log := h.log ++ hookEvents pre route current ++
            [Event.hook hook route current] }).emit
        (if wantsReplace target = true then Event.replace target else Event.push target) := by
  have h1 : target ≠ Val.bool false := by
    intro hc; rw [hc] at ht; exact Bool.noConfusion ht
  have h2 : ¬ isError target = true := by
    intro hc
    cases target <;> first | exact Bool.noConfusion ht | exact Bool.noConfusion hc
  constructor
  · intro continuation s
    rw [Hook.next_of_not_func _ _ _
      (fun id hid => by rw [hid] at ht; exact Bool.noConfusion ht)]
    unfold confirmTransition.next
    rw [if_neg h1, if_neg h2, if_pos ht]
    unfold createNavigationRedirectedError
    rw [confirmTransition.abort_failure]
    split <;> rfl
  rw [confirmTransition.runQueue_reaches w route current onAbort cb pre rest hook h hp hpre]
  rw [confirmTransition.iterator_calls w route current onAbort hook _ target
    { h with log := h.log ++ hookEvents pre route current } hp hk]
  rw [Hook.next_of_not_func _ _ _ (fun id hid => by rw [hid] at ht; exact Bool.noConfusion ht)]
  unfold confirmTransition.next
  rw [if_neg h1, if_neg h2, if_pos ht]
  unfold createNavigationRedirectedError
  rw [confirmTransition.abort_failure]
  simp only [History.emit, List.append_assoc]
  split <;> rfl

/-- A witness of `next_location_redirects`: the `beforeEnter` guard of "/b"
calls `next({ path: "/c", replace: true })`. -/
theorem next_location_redirects_witness :
    runQueue (Scenario.before ++ some (Hook.guard ⟨2⟩) :: Scenario.after)
        (confirmTransition.iterator
          (Scenario.world
            { calls := [Val.location (some "/c") none true], throws := none })
          Scenario.routeB Scenario.routeA (some Scenario.onAbort))
        id Scenario.pendingHistory =
      { Scenario.pendingHistory with
        log :=
          [Event.hook (Hook.boundRouteGuard ⟨1⟩ (InstanceSlot.registered ⟨1, false⟩))
             Scenario.routeB Scenario.routeA,
           Event.hook (Hook.guard ⟨10⟩) Scenario.routeB Scenario.routeA,
           Event.hook (Hook.guard ⟨2⟩) Scenario.routeB Scenario.routeA,
           Event.onAbort ⟨50⟩
             (Val.failure NavigationFailureType.redirected Scenario.routeA Scenario.routeB),
           Event.replace (Val.location (some "/c") none true)] } :=
  (next_location_redirects
    (Scenario.world { calls := [Val.location (some "/c") none true], throws := none })
    Scenario.routeB Scenario.routeA (some Scenario.onAbort) id Scenario.before Scenario.after
    (Hook.guard ⟨2⟩) Scenario.pendingHistory (Val.location (some "/c") none true) rfl
    (fun k hk => by
      simp only [Scenario.before, List.mem_cons, Option.some.injEq, List.mem_nil_iff,
        or_false] at hk
      rcases hk with rfl | rfl <;> exact Eq.refl _)
    rfl rfl).2.trans (by decide)

/-- C7. In `confirmTransition` for a route `r`, whenever the iterator is entered
for a hook, or the final completion callback is reached, while `pending` is not
`r`: the hook is not invoked and `r` is not committed; the abort path is called
with a NavigationCancelled failure built from `(current, r)`, which goes to
`onAbort` and to no `onError` subscriber. The same holds for a whole queue run
that is entered in such a state, whatever its entries. -/
theorem superseded_transition_cancelled (w : World) (route current : Route)
    (onComplete : Route → History → History) (onAbort : Option (Val → History → History))
    (hook : Hook) (next : History → History) (queue : List (Option Hook)) (h : History)
    (hp : h.pending ≠ some route) :
    confirmTransition.iterator w route current onAbort hook next h =
      callOnAbort onAbort (createNavigationCancelledError current route) h ∧
    confirmTransition.complete w route current onComplete onAbort h =
      callOnAbort onAbort (createNavigationCancelledError current route) h ∧
    runQueue queue (confirmTransition.iterator w route current onAbort)
        (confirmTransition.complete w route current onComplete onAbort) h =
      callOnAbort onAbort (createNavigationCancelledError current route) h := by
  have hi : ∀ (k : Hook) (nx : History → History),
      confirmTransition.iterator w route current onAbort k nx h =
        callOnAbort onAbort (createNavigationCancelledError current route) h := by
    intro k nx
    unfold confirmTransition.iterator
    rw [if_pos hp]
    unfold createNavigationCancelledError
    rw [confirmTransition.abort_failure]
  have hc : confirmTransition.complete w route current onComplete onAbort h =
      callOnAbort onAbort (createNavigationCancelledError current route) h := by
    unfold confirmTransition.complete
    rw [if_pos hp]
    unfold createNavigationCancelledError
    rw [confirmTransition.abort_failure]
  refine ⟨hi hook next, hc, ?_⟩
  induction queue with
  | nil => exact hc
  | cons x rest ih =>
    cases x with
    | none => exact ih
    | some k => exact hi k _

/-- A witness of `superseded_transition_cancelled`: the history has no pending
route when the iterator of the transition to "/b" is entered. -/
theorem superseded_transition_cancelled_witness :
    Scenario.history.pending ≠ some Scenario.routeB ∧
    confirmTransition.iterator (Scenario.world { calls := [Val.undefined], throws := none })
        Scenario.routeB Scenario.routeA (some Scenario.onAbort) (Hook.guard ⟨2⟩) id
        Scenario.history =
      callOnAbort (some Scenario.onAbort)
        (createNavigationCancelledError Scenario.routeA Scenario.routeB) Scenario.history :=
  ⟨by decide,
    (superseded_transition_cancelled
      (Scenario.world { calls := [Val.undefined], throws := none })
      Scenario.routeB Scenario.routeA (fun _ s => s) (some Scenario.onAbort) (Hook.guard ⟨2⟩)
      id [] Scenario.history (by decide)).1⟩

/-- C8. For every route and current route such that `isSameRoute(route, current)`
holds, their matched lists have equal length and the same last record,
`confirmTransition` calls `ensureURL()` and hands a NavigationDuplicated
failure built from `(current, route)` to `onAbort`, and does nothing else: the
state handed over differs from the initial one only by the `ensureURL` entry of
the log, so `pending` is not assigned, no guard is invoked, `current` is not
changed, and the commit callback, which alone calls the `afterEach` hooks, is
not called. -/
theorem duplicate_navigation_aborts (w : World) (route : Route)
    (onComplete : Route → History → History) (onAbort : Option (Val → History → History))
    (h : History)
    (hsame : isSameRoute route h.current = true)
    (hlen : route.matched.length = h.current.matched.length)
    (hlast : route.matched.getLast? = h.current.matched.getLast?) :
    confirmTransition w route onComplete onAbort h =
      callOnAbort onAbort (createNavigationDuplicatedError h.current route)
        { h with log := h.log ++ [Event.ensureURL none] } := by
  have hdup := (duplicate_test_iff route h.current).mpr ⟨hsame, hlen, hlast⟩
  unfold confirmTransition
  simp only []
  rw [if_pos hdup]
  unfold createNavigationDuplicatedError
  rw [confirmTransition.abort_failure]
  rfl

/-- A witness of `duplicate_navigation_aborts`: at "/a", a second match of "/a". -/
theorem duplicate_navigation_aborts_witness :
    confirmTransition (Scenario.world { calls := [Val.undefined], throws := none })
        Scenario.routeA2 (fun r s => s.emit (Event.onComplete ⟨51⟩ r))
        (some Scenario.onAbort) Scenario.history =
      { Scenario.history with
        log :=
          [Event.ensureURL none,
           Event.onAbort ⟨50⟩
             (Val.failure NavigationFailureType.duplicated Scenario.routeA
               Scenario.routeA2)] } :=
  (duplicate_navigation_aborts (Scenario.world { calls := [Val.undefined], throws := none })
    Scenario.routeA2 (fun r s => s.emit (Event.onComplete ⟨51⟩ r)) (some Scenario.onAbort)
    Scenario.history (by decide) (by decide) (by decide)).trans (by decide)

/-- C9. For every value `err` passed to the abort path of `confirmTransition`,
the `onError` subscribers are called, each once, with `err`, in registration
order, if and only if `err` is an Error and is not a navigation failure;
otherwise none is called; and in every case the `onAbort` callback, when
supplied, is called exactly once, with `err`, after them. -/
theorem abort_notifies_subscribers (w : World) (err : Val) (h : History) :
    ∃ events : List Event,
      errorCbCalls events =
        (if isError err = true ∧ isNavigationFailure err none = false then
          h.errorCbs.map (fun cb => (cb, err))
        else []) ∧
      (∀ f : Val → History → History,
        confirmTransition.abort w (some f) err h =
          f err { h with log := h.log ++ events }) ∧
      confirmTransition.abort w none err h = { h with log := h.log ++ events } :=
  ⟨confirmTransition.abortEvents w h.errorCbs err,
    errorCbCalls_abortEvents w h.errorCbs err,
    fun f => confirmTransition.abort_eq w (some f) err h,
    confirmTransition.abort_eq w none err h⟩

/-- C10, amended. For every value `e` that a guard, reached after guards that
proceeded, throws synchronously instead of calling `next`, the exception is
caught and the transition is aborted with the original `e`: `onAbort` receives
`e`, no later guard is invoked and `current` is unchanged. The value `e`
reaches every `onError` subscriber when it is an Error that is not a navigation
failure, and no subscriber otherwise. -/
theorem guard_exception_aborts (w : World) (route current : Route)
    (onAbort : Option (Val → History → History)) (cb : History → History)
    (pre rest : List (Option Hook)) (hook : Hook) (h : History) (e : Val)
    (hp : h.pending = some route)
    (hpre : ∀ k, some k ∈ pre → k.proceeds w route current)
    (hk : hook.behaviour w route current = { calls := [], throws := some e }) :
    runQueue (pre ++ some hook :: rest) (confirmTransition.iterator w route current onAbort)
        cb h =
      callOnAbort onAbort e
        { h with
          log := h.log ++ hookEvents pre route current ++
            [Event.hook hook route current] ++
            confirmTransition.abortEvents w h.errorCbs e } ∧
    errorCbCalls (confirmTransition.abortEvents w h.errorCbs e) =
      (if isError e = true ∧ isNavigationFailure e none = false then
        h.errorCbs.map (fun c => (c, e))
      else []) := by
  refine ⟨?_, errorCbCalls_abortEvents w h.errorCbs e⟩
  rw [confirmTransition.runQueue_reaches w route current onAbort cb pre rest hook h hp hpre]
  have hpend : ¬ (h.pending ≠ some route) := by simp [hp]
  unfold confirmTransition.iterator
  simp only []
  rw [if_neg hpend]
  unfold Hook.call runBehaviour
  rw [hk]
  simp only [List.foldl_nil]
  rw [confirmTransition.abort_eq]
  simp [History.emit]

/-- A witness of `guard_exception_aborts`: the `beforeEnter` guard of "/b"
throws an Error, which reaches the subscriber and `onAbort`. -/
theorem guard_exception_aborts_witness :
    runQueue (Scenario.before ++ some (Hook.guard ⟨2⟩) :: Scenario.after)
        (confirmTransition.iterator
          (Scenario.world { calls := [], throws := some (Val.error "boom") })
          Scenario.routeB Scenario.routeA (some Scenario.onAbort))
        id Scenario.pendingHistory =
      { Scenario.pendingHistory with
        log :=
          [Event.hook (Hook.boundRouteGuard ⟨1⟩ (InstanceSlot.registered ⟨1, false⟩))
             Scenario.routeB Scenario.routeA,
           Event.hook (Hook.guard ⟨10⟩) Scenario.routeB Scenario.routeA,
           Event.hook (Hook.guard ⟨2⟩) Scenario.routeB Scenario.routeA,
           Event.errorCb ⟨40⟩ (Val.error "boom"),
           Event.onAbort ⟨50⟩ (Val.error "boom")] } :=
  (guard_exception_aborts
    (Scenario.world { calls := [], throws := some (Val.error "boom") })
    Scenario.routeB Scenario.routeA (some Scenario.onAbort) id Scenario.before Scenario.after
    (Hook.guard ⟨2⟩) Scenario.pendingHistory (Val.error "boom") rfl
    (fun k hk => by
      simp only [Scenario.before, List.mem_cons, Option.some.injEq, List.mem_nil_iff,
        or_false] at hk
      rcases hk with rfl | rfl <;> exact Eq.refl _)
    rfl).1.trans (by decide)

/-- C10, counterexample. The `beforeEnter` guard of "/b" throws the string
"boom" synchronously while an `onError` subscriber is registered: the
transition is aborted with "boom", which `onAbort` receives, but no `onError`
subscriber is called. -/
theorem guard_exception_not_reported :
    Hook.behaviour (Scenario.world { calls := [], throws := some (Val.str "boom") })
        (Hook.guard ⟨2⟩) Scenario.routeB Scenario.routeA =
      { calls := [], throws := some (Val.str "boom") } ∧
    Scenario.history.errorCbs = [⟨40⟩] ∧
    (transitionTo (Scenario.world { calls := [], throws := some (Val.str "boom") })
        (Except.ok Scenario.routeB) none (some ⟨50⟩) Scenario.history).1.log =
      [Event.hook (Hook.boundRouteGuard ⟨1⟩ (InstanceSlot.registered ⟨1, false⟩))
         Scenario.routeB Scenario.routeA,
       Event.hook (Hook.guard ⟨10⟩) Scenario.routeB Scenario.routeA,
       Event.hook (Hook.guard ⟨2⟩) Scenario.routeB Scenario.routeA,
       Event.onAbort ⟨50⟩ (Val.str "boom")] ∧
    errorCbCalls
      (transitionTo (Scenario.world { calls := [], throws := some (Val.str "boom") })
        (Except.ok Scenario.routeB) none (some ⟨50⟩) Scenario.history).1.log = [] := by
  decide

/-! ### `resolveQueue` -/

theorem resolveQueue.loop_spec {α : Type} [DecidableEq α] (current next : List α) :
    ∀ (fuel i : Nat), (∀ j, j < i → current[j]? = next[j]?) →
      i ≤ resolveQueue.loop current next fuel i ∧
      resolveQueue.loop current next fuel i ≤ i + fuel ∧
      (∀ j, j < resolveQueue.loop current next fuel i → current[j]? = next[j]?) ∧
      (resolveQueue.loop current next fuel i < i + fuel →
        current[resolveQueue.loop current next fuel i]? ≠
          next[resolveQueue.loop current next fuel i]?) := by
  intro fuel
  induction fuel with
  | zero =>
    intro i hi
    simp only [resolveQueue.loop]
    exact ⟨le_refl _, le_refl _, hi, fun h => absurd h (by omega)⟩
  | succ n ih =>
    intro i hi
    simp only [resolveQueue.loop]
    by_cases hne : current[i]? ≠ next[i]?
    · rw [if_pos hne]
      exact ⟨le_refl _, by omega, hi, fun _ => hne⟩
    · rw [if_neg hne]
      have heq : current[i]? = next[i]? := not_not.mp hne
      have hi' : ∀ j, j < i + 1 → current[j]? = next[j]? := by
        intro j hj
        rcases Nat.lt_succ_iff_lt_or_eq.mp hj with h | h
        · exact hi j h
        · rw [h]; exact heq
      obtain ⟨h1, h2, h3, h4⟩ := ih (i + 1) hi'
      exact ⟨by omega, by omega, h3, fun h => h4 (by omega)⟩

theorem resolveQueue.loop_le_length {α : Type} [DecidableEq α] (current next : List α) :
    resolveQueue.loop current next (Nat.max current.length next.length) 0 ≤ current.length ∧
    resolveQueue.loop current next (Nat.max current.length next.length) 0 ≤ next.length := by
  obtain ⟨_, h2, h3, _⟩ :=
    resolveQueue.loop_spec current next (Nat.max current.length next.length) 0
      (fun j hj => absurd hj (Nat.not_lt_zero j))
  have hmax : Nat.max current.length next.length = max current.length next.length := rfl
  rw [hmax] at h2 h3 ⊢
  set r := resolveQueue.loop current next (max current.length next.length) 0 with hr
  constructor
  · by_contra hlt
    have hlt' : current.length < r := Nat.lt_of_not_le hlt
    have hc : current[current.length]? = none := List.getElem?_eq_none (le_refl _)
    have hn : current.length < next.length := by
      rcases le_max_iff.mp (by simpa using h2 : r ≤ max current.length next.length) with h | h
      · omega
      · omega
    have := h3 current.length hlt'
    rw [hc, List.getElem?_eq_getElem hn] at this
    exact Option.noConfusion this
  · by_contra hlt
    have hlt' : next.length < r := Nat.lt_of_not_le hlt
    have hc : next[next.length]? = none := List.getElem?_eq_none (le_refl _)
    have hn : next.length < current.length := by
      rcases le_max_iff.mp (by simpa using h2 : r ≤ max current.length next.length) with h | h
      · omega
      · omega
    have := h3 next.length hlt'
    rw [hc, List.getElem?_eq_getElem hn] at this
    exact Option.noConfusion this

theorem resolveQueue.take_eq {α : Type} [DecidableEq α] (current next : List α) :
    current.take (resolveQueue.loop current next (Nat.max current.length next.length) 0) =
      next.take (resolveQueue.loop current next (Nat.max current.length next.length) 0) := by
  obtain ⟨_, _, h3, _⟩ :=
    resolveQueue.loop_spec current next (Nat.max current.length next.length) 0
      (fun j hj => absurd hj (Nat.not_lt_zero j))
  apply List.ext_getElem?
  intro j
  by_cases hj : j < resolveQueue.loop current next (Nat.max current.length next.length) 0
  · rw [List.getElem?_take_of_lt hj, List.getElem?_take_of_lt hj]
    exact h3 j hj
  · have hj' := Nat.le_of_not_lt hj
    rw [List.getElem?_eq_none (by simp; omega), List.getElem?_eq_none (by simp; omega)]

/-- C2. For all lists `current` and `next` of records compared by identity,
`resolveQueue` returns `updated`, `activated`, `deactivated` with
`updated ++ activated = next` and `updated ++ deactivated = current` (hence the
two length equations), and `updated` is the longest common prefix: `activated`
or `deactivated` is empty, or their first elements differ. -/
theorem resolveQueue_common_prefix {α : Type} [DecidableEq α] (current next : List α) :
    (resolveQueue current next).updated ++ (resolveQueue current next).activated = next ∧
    (resolveQueue current next).updated ++ (resolveQueue current next).deactivated = current ∧
    (resolveQueue current next).updated.length + (resolveQueue current next).activated.length
      = next.length ∧
    (resolveQueue current next).updated.length + (resolveQueue current next).deactivated.length
      = current.length ∧
    ((resolveQueue current next).activated = [] ∨
      (resolveQueue current next).deactivated = [] ∨
      (resolveQueue current next).activated.head? ≠
        (resolveQueue current next).deactivated.head?) := by
  obtain ⟨_, h2, _, h4⟩ :=
    resolveQueue.loop_spec current next (Nat.max current.length next.length) 0
      (fun j hj => absurd hj (Nat.not_lt_zero j))
  obtain ⟨hlc, hln⟩ := resolveQueue.loop_le_length current next
  have htake := resolveQueue.take_eq current next
  simp only [resolveQueue]
  set r := resolveQueue.loop current next (Nat.max current.length next.length) 0 with hr
  have e1 : next.take r ++ next.drop r = next := List.take_append_drop r next
  have e2 : next.take r ++ current.drop r = current := by
    rw [← htake]; exact List.take_append_drop r current
  refine ⟨e1, e2, ?_, ?_, ?_⟩
  · simp only [List.length_take, List.length_drop]
    omega
  · simp only [List.length_take, List.length_drop]
    omega
  · by_cases hmax : r < 0 + Nat.max current.length next.length
    · right; right
      have := h4 hmax
      simp only [List.head?_drop]
      exact fun h => this h.symm
    · left
      have hmax' : Nat.max current.length next.length = max current.length next.length := rfl
      rw [hmax'] at hmax
      have : next.length ≤ r := by
        have := le_max_right current.length next.length
        omega
      exact List.drop_eq_nil_of_le this

/-! ### The callbacks of `transitionTo` -/

theorem foldl_emit_defined {γ : Type} (f : γ → Event) (g : History → Option γ → History)
    (hsome : ∀ s c, g s (some c) = s.emit (f c)) (hnone : ∀ s, g s none = s)
    (xs : List (Option γ)) :
    ∀ (h : History),
      xs.foldl g h = { h with log := h.log ++ (xs.filterMap id).map f } := by
  induction xs with
  | nil => intro h; simp
  | cons x rest ih =>
    intro h
    rw [List.foldl_cons, ih]
    cases x with
    | none => simp [hnone]
    | some c => simp [hsome, History.emit]

/-- C11. For every confirmed transition to a route `r` from the previous current
route `p`, the confirm callback of `transitionTo` sets `current` to `r` and
calls the change listener (when one is registered) with `r`, then the
`onComplete` callback of the caller (when supplied), then `ensureURL()`,
exactly once, and after that every registered `afterEach` hook once, in
registration order, with `(r, p)`; the ready callbacks follow when the history
was not ready, and the history is ready afterwards. -/
theorem transitionTo_commit_order (route : Route) (onComplete : Option Callback)
    (h : History) :
    (transitionTo.onComplete route onComplete h).current = route ∧
    (transitionTo.onComplete route onComplete h).log =
      h.log ++
      (match h.cb with
        | some cb => [Event.listener cb route]
        | none => []) ++
      (match onComplete with
        | some cb => [Event.onComplete cb route]
        | none => []) ++
      [Event.ensureURL none] ++
      (h.router.afterHooks.filterMap id).map (fun cb => Event.afterHook cb route h.current) ++
      (if h.ready = true then [] else h.readyCbs.map (fun cb => Event.readyCb cb route)) ∧
    (transitionTo.onComplete route onComplete h).ready = true := by
  unfold transitionTo.onComplete updateRoute
  simp only []
  rw [foldl_emit_defined (fun cb => Event.afterHook cb route h.current) _
    (fun _ _ => rfl) (fun _ => rfl)]
  simp only [foldl_emit]
  cases hcb : h.cb <;> cases onComplete <;> cases hr : h.ready <;>
    simp [History.emit, hr]

/-- C12. For every abort of a transition with the failure `err`: the `onAbort`
callback of the caller, when supplied, is called with `err`; then, when `err`
is truthy and the history is not yet ready, every registered ready callback is
called (and no ready-error callback) if `err` is a NavigationRedirected
failure, every registered ready-error callback is called with `err` (and no
ready callback) otherwise, and `ready` becomes true; when the history is
already ready, neither list is called. The current route is not changed. -/
theorem transitionTo_abort_ready (route : Route) (onAbort : Option Callback) (err : Val)
    (h : History) :
    (transitionTo.onAbort route onAbort err h).log =
      h.log ++
      (match onAbort with
        | some cb => [Event.onAbort cb err]
        | none => []) ++
      (if err.truthy = true ∧ h.ready = false then
        (if isNavigationFailure err (some NavigationFailureType.redirected) = true then
          h.readyCbs.map (fun cb => Event.readyCb cb route)
        else h.readyErrorCbs.map (fun cb => Event.readyErrorCb cb err))
      else []) ∧
    (transitionTo.onAbort route onAbort err h).ready = (h.ready || err.truthy) ∧
    (transitionTo.onAbort route onAbort err h).current = h.current := by
  unfold transitionTo.onAbort
  simp only [foldl_emit]
  cases onAbort <;> cases ht : err.truthy <;> cases hr : h.ready <;>
    cases hn : isNavigationFailure err (some NavigationFailureType.redirected) <;>
    simp [History.emit, hr, ht, hn]

/-! ### Stale guards -/

theorem navigations_append (a b : List Event) :
    navigations (a ++ b) = navigations a ++ navigations b := by
  simp [navigations]

theorem commitCalls_append (a b : List Event) :
    commitCalls (a ++ b) = commitCalls a ++ commitCalls b := by
  simp [commitCalls]

theorem navigations_map_nil {γ : Type} (f : γ → Event) (xs : List γ)
    (hf : ∀ x, navigations [f x] = []) : navigations (xs.map f) = [] := by
  induction xs with
  | nil => rfl
  | cons x rest ih =>
    have := navigations_append [f x] (rest.map f)
    simp only [List.singleton_append] at this
    rw [List.map_cons, this, hf x, ih]
    rfl

theorem commitCalls_map_nil {γ : Type} (f : γ → Event) (xs : List γ)
    (hf : ∀ x, commitCalls [f x] = []) : commitCalls (xs.map f) = [] := by
  induction xs with
  | nil => rfl
  | cons x rest ih =>
    have := commitCalls_append [f x] (rest.map f)
    simp only [List.singleton_append] at this
    rw [List.map_cons, this, hf x, ih]
    rfl

theorem Quiet.refl (s : History) : Quiet s s := ⟨rfl, rfl, rfl, rfl⟩

theorem Quiet.trans {a b c : History} (h1 : Quiet a b) (h2 : Quiet b c) : Quiet a c :=
  ⟨h2.1.trans h1.1, h2.2.1.trans h1.2.1, h2.2.2.1.trans h1.2.2.1, h2.2.2.2.trans h1.2.2.2⟩

theorem transitionTo.onAbort_quiet (route : Route) (onAbort : Option Callback) (err : Val)
    (s : History) : Quiet s (transitionTo.onAbort route onAbort err s) := by
  unfold transitionTo.onAbort
  simp only [foldl_emit]
  have e1 : ∀ xs : List Callback,
      navigations (xs.map (fun cb => Event.readyCb cb route)) = [] :=
    fun xs => navigations_map_nil _ xs (fun _ => rfl)
  have e2 : ∀ xs : List Callback,
      navigations (xs.map (fun cb => Event.readyErrorCb cb err)) = [] :=
    fun xs => navigations_map_nil _ xs (fun _ => rfl)
  have e3 : ∀ xs : List Callback,
      commitCalls (xs.map (fun cb => Event.readyCb cb route)) = [] :=
    fun xs => commitCalls_map_nil _ xs (fun _ => rfl)
  have e4 : ∀ xs : List Callback,
      commitCalls (xs.map (fun cb => Event.readyErrorCb cb err)) = [] :=
    fun xs => commitCalls_map_nil _ xs (fun _ => rfl)
  have n1 : ∀ cb, navigations [Event.onAbort cb err] = [] := fun _ => rfl
  have c1 : ∀ cb, commitCalls [Event.onAbort cb err] = [] := fun _ => rfl
  have n2 : ∀ cb l, navigations (Event.onAbort cb err :: l) = navigations l :=
    fun _ _ => rfl
  have c2 : ∀ cb l, commitCalls (Event.onAbort cb err :: l) = commitCalls l :=
    fun _ _ => rfl
  cases onAbort <;> cases ht : err.truthy <;> cases hr : s.ready <;>
    cases hn : isNavigationFailure err (some NavigationFailureType.redirected) <;>
    simp [Quiet, History.emit, hr, ht, hn, navigations_append, commitCalls_append,
      e1, e2, e3, e4, n1, c1, n2, c2]

theorem confirmTransition.abortEvents_quiet (w : World) (errorCbs : List Callback)
    (err : Val) :
    navigations (confirmTransition.abortEvents w errorCbs err) = [] ∧
    commitCalls (confirmTransition.abortEvents w errorCbs err) = [] := by
  unfold confirmTransition.abortEvents
  have e1 : navigations (errorCbs.map (fun cb => Event.errorCb cb err)) = [] :=
    navigations_map_nil _ _ (fun _ => rfl)
  have e2 : commitCalls (errorCbs.map (fun cb => Event.errorCb cb err)) = [] :=
    commitCalls_map_nil _ _ (fun _ => rfl)
  split
  · split
    · cases w.production <;> exact ⟨rfl, rfl⟩
    · exact ⟨e1, e2⟩
  · exact ⟨rfl, rfl⟩

/-- The abort path of a transition started by `transitionTo` keeps `current` and
`pending`, starts no navigation and does not commit. -/
theorem confirmTransition.abort_quiet (w : World) (route : Route)
    (onAbort : Option Callback) (err : Val) (s : History) :
    Quiet s (confirmTransition.abort w (some (transitionTo.onAbort route onAbort)) err s) := by
  rw [confirmTransition.abort_eq]
  obtain ⟨hn, hc⟩ := confirmTransition.abortEvents_quiet w s.errorCbs err
  have hq : Quiet s
      { s with log := s.log ++ confirmTransition.abortEvents w s.errorCbs err } := by
    refine ⟨rfl, rfl, ?_, ?_⟩
    · show navigations (s.log ++ _) = _
      rw [navigations_append, hn, List.append_nil]
    · show commitCalls (s.log ++ _) = _
      rw [commitCalls_append, hc, List.append_nil]
  exact hq.trans (transitionTo.onAbort_quiet route onAbort err _)

/-- A queue run entered while `pending` is not the route of the transition is
the abort path with the cancelled failure. -/
theorem confirmTransition.runQueue_cancelled (w : World) (route current : Route)
    (onComplete : Route → History → History) (onAbort : Option (Val → History → History))
    (queue : List (Option Hook)) (h : History) (hp : h.pending ≠ some route) :
    runQueue queue (confirmTransition.iterator w route current onAbort)
        (confirmTransition.complete w route current onComplete onAbort) h =
      confirmTransition.abort w onAbort (createNavigationCancelledError current route) h := by
  induction queue with
  | nil =>
    simp only [runQueue]
    unfold confirmTransition.complete
    rw [if_pos hp]
  | cons x rest ih =>
    cases x with
    | none => exact ih
    | some k =>
      simp only [runQueue]
      unfold confirmTransition.iterator
      rw [if_pos hp]

/-- The rest of the first queue, entered while `pending` is not the route of the
transition, is the abort path with the cancelled failure, at most after the
reset of `postEnterCbs`. -/
theorem confirmTransition.rest_cancelled (w : World) (route current : Route)
    (activated : List RouteRecord)
    (onComplete : Route → History → History) (onAbort : Option (Val → History → History))
    (queue : List (Option Hook)) (h : History) (hp : h.pending ≠ some route) :
    runQueue queue (confirmTransition.iterator w route current onAbort)
        (confirmTransition.enter w route current activated onComplete onAbort) h =
      confirmTransition.abort w onAbort (createNavigationCancelledError current route) h ∨
    runQueue queue (confirmTransition.iterator w route current onAbort)
        (confirmTransition.enter w route current activated onComplete onAbort) h =
      confirmTransition.abort w onAbort (createNavigationCancelledError current route)
        { h with postEnterCbs := [] } := by
  induction queue with
  | nil =>
    right
    simp only [runQueue]
    unfold confirmTransition.enter
    simp only []
    exact confirmTransition.runQueue_cancelled w route current onComplete onAbort _ _ hp
  | cons x rest ih =>
    cases x with
    | none => exact ih
    | some k =>
      left
      simp only [runQueue]
      unfold confirmTransition.iterator
      rw [if_pos hp]

theorem Quiet.emit_quiet (s : History) (e : Event) (hn : navigations [e] = [])
    (hc : commitCalls [e] = []) : Quiet s (s.emit e) := by
  refine ⟨rfl, rfl, ?_, ?_⟩
  · show navigations (s.log ++ [e]) = _
    rw [navigations_append, hn, List.append_nil]
  · show commitCalls (s.log ++ [e]) = _
    rw [commitCalls_append, hc, List.append_nil]

/-- The continuation of a stale guard, in either queue of a transition started
by `transitionTo`, keeps `current` and `pending`, starts no navigation and does
not commit. -/
theorem confirmTransition.continuation_quiet (w : World) (route current : Route)
    (activated : List RouteRecord) (onComplete onAbort : Option Callback)
    (rest : List (Option Hook)) (K : History → History)
    (hK : K = runQueue rest
          (confirmTransition.iterator w route current
            (some (transitionTo.onAbort route onAbort)))
          (confirmTransition.enter w route current activated
            (fun _ => transitionTo.onComplete route onComplete)
            (some (transitionTo.onAbort route onAbort))) ∨
      K = runQueue rest
          (confirmTransition.iterator w route current
            (some (transitionTo.onAbort route onAbort)))
          (confirmTransition.complete w route current
            (fun _ => transitionTo.onComplete route onComplete)
            (some (transitionTo.onAbort route onAbort))))
    (s : History) (hp : s.pending ≠ some route) : Quiet s (K s) := by
  rcases hK with hK | hK
  · rw [hK]
    rcases confirmTransition.rest_cancelled w route current activated
        (fun _ => transitionTo.onComplete route onComplete)
        (some (transitionTo.onAbort route onAbort)) rest s hp with h1 | h1
    · rw [h1]
      exact confirmTransition.abort_quiet w route onAbort _ s
    · rw [h1]
      have hq : Quiet s { s with postEnterCbs := [] } := ⟨rfl, rfl, rfl, rfl⟩
      exact hq.trans (confirmTransition.abort_quiet w route onAbort _ _)
  · rw [hK, confirmTransition.runQueue_cancelled w route current _ _ rest s hp]
    exact confirmTransition.abort_quiet w route onAbort _ s

/-- The callback `next` of the iterator, called in any state with a
continuation that is quiet there: only a redirect starts a navigation. -/
theorem confirmTransition.next_stale (w : World) (route current : Route)
    (onAbort : Option Callback) (K : History → History) (v : Val) (s : History)
    (hK : Quiet s (K s)) :
    (confirmTransition.next w route current (some (transitionTo.onAbort route onAbort))
        K v s).current = s.current ∧
    (confirmTransition.next w route current (some (transitionTo.onAbort route onAbort))
        K v s).pending = s.pending ∧
    commitCalls (confirmTransition.next w route current
        (some (transitionTo.onAbort route onAbort)) K v s).log = commitCalls s.log ∧
    navigations (confirmTransition.next w route current
        (some (transitionTo.onAbort route onAbort)) K v s).log =
      navigations s.log ++
        (if isRedirect v = true then
          [if wantsReplace v = true then Event.replace v else Event.push v]
        else []) := by
  unfold confirmTransition.next
  by_cases h1 : v = Val.bool false
  · rw [if_pos h1]
    have hq := (Quiet.emit_quiet s (Event.ensureURL (some true)) rfl rfl).trans
      (confirmTransition.abort_quiet w route onAbort
        (createNavigationAbortedError current route) _)
    have hr : isRedirect v = false := by rw [h1]; rfl
    rw [hr]
    exact ⟨hq.1, hq.2.1, hq.2.2.2, by simpa using hq.2.2.1⟩
  · rw [if_neg h1]
    by_cases h2 : isError v = true
    · rw [if_pos h2]
      have hq := (Quiet.emit_quiet s (Event.ensureURL (some true)) rfl rfl).trans
        (confirmTransition.abort_quiet w route onAbort v _)
      have hr : isRedirect v = false := by
        cases v <;> first | rfl | exact Bool.noConfusion h2
      rw [hr]
      exact ⟨hq.1, hq.2.1, hq.2.2.2, by simpa using hq.2.2.1⟩
    · rw [if_neg h2]
      by_cases h3 : isRedirect v = true
      · rw [if_pos h3, if_pos h3]
        have hq := confirmTransition.abort_quiet w route onAbort
          (createNavigationRedirectedError current route) s
        simp only []
        by_cases h4 : wantsReplace v = true
        · rw [if_pos h4, if_pos h4]
          refine ⟨hq.1, hq.2.1, ?_, ?_⟩
          · show commitCalls (_ ++ [Event.replace v]) = _
            rw [commitCalls_append, hq.2.2.2]
            exact List.append_nil _
          · show navigations (_ ++ [Event.replace v]) = _
            rw [navigations_append, hq.2.2.1]
            rfl
        · rw [if_neg h4, if_neg h4]
          refine ⟨hq.1, hq.2.1, ?_, ?_⟩
          · show commitCalls (_ ++ [Event.push v]) = _
            rw [commitCalls_append, hq.2.2.2]
            exact List.append_nil _
          · show navigations (_ ++ [Event.push v]) = _
            rw [navigations_append, hq.2.2.1]
            rfl
      · rw [if_neg h3, if_neg h3]
        exact ⟨hK.1, hK.2.1, hK.2.2.2, by simpa using hK.2.2.1⟩

/-- C13, amended. For every transition to a route `r` started by `transitionTo`
that has been superseded (`pending` is no longer `r`), when a stale guard of
either queue calls `next` with any argument, `r` is not committed. When the
argument is not a redirect, the call assigns neither `current` nor `pending`,
starts no `push` or `replace` and makes no call of the change listener, of
`onComplete` or of an `afterEach` hook. When the argument is a string or an
object whose `path` or `name` is a string, the call runs the abort path with a
NavigationRedirected failure, which changes none of these, and then calls
`replace(to)` or `push(to)` exactly once, as the last thing it does; what the
navigation started there does is not stated. -/
theorem stale_next_does_not_commit (w : World) (route current : Route)
    (activated : List RouteRecord) (onComplete onAbort : Option Callback)
    (hook : Hook) (rest : List (Option Hook)) (K : History → History) (v : Val)
    (h : History) (hp : h.pending ≠ some route)
    (hK : K = runQueue rest
          (confirmTransition.iterator w route current
            (some (transitionTo.onAbort route onAbort)))
          (confirmTransition.enter w route current activated
            (fun _ => transitionTo.onComplete route onComplete)
            (some (transitionTo.onAbort route onAbort))) ∨
      K = runQueue rest
          (confirmTransition.iterator w route current
            (some (transitionTo.onAbort route onAbort)))
          (confirmTransition.complete w route current
            (fun _ => transitionTo.onComplete route onComplete)
            (some (transitionTo.onAbort route onAbort)))) :
    (isRedirect v = false →
      Quiet h (hook.next (confirmTransition.next w route current
        (some (transitionTo.onAbort route onAbort)) K) v h)) ∧
    (isRedirect v = true →
      (hook.next (confirmTransition.next w route current
          (some (transitionTo.onAbort route onAbort)) K) v h).log =
        (confirmTransition.abort w (some (transitionTo.onAbort route onAbort))
          (createNavigationRedirectedError current route) h).log ++
          [if wantsReplace v = true then Event.replace v else Event.push v] ∧
      Quiet h (confirmTransition.abort w (some (transitionTo.onAbort route onAbort))
        (createNavigationRedirectedError current route) h)) := by
  constructor
  · intro hr
    have key : ∀ s : History, s.pending = h.pending → s.current = h.current →
        s.log = h.log →
        Quiet h (confirmTransition.next w route current
          (some (transitionTo.onAbort route onAbort)) K v s) := by
      intro s hs hc hl
      have hps : s.pending ≠ some route := by rw [hs]; exact hp
      have := confirmTransition.next_stale w route current onAbort K v s
        (confirmTransition.continuation_quiet w route current activated onComplete onAbort
          rest K hK s hps)
      rw [hs, hc, hl, hr] at this
      exact ⟨this.1, this.2.1, by simpa using this.2.2.2, this.2.2.1⟩
    cases hook with
    | routeEnterGuard g record key =>
      cases v with
      | func id => exact key _ rfl rfl rfl
      | _ => exact key h rfl rfl rfl
    | _ => exact key h rfl rfl rfl
  · intro hr
    refine ⟨?_, confirmTransition.abort_quiet w route onAbort _ h⟩
    have hnf : ∀ id, v ≠ Val.func id := by
      intro id hv
      rw [hv] at hr
      exact Bool.noConfusion hr
    rw [Hook.next_of_not_func hook _ v hnf]
    have h1 : v ≠ Val.bool false := by
      intro hv
      rw [hv] at hr
      exact Bool.noConfusion hr
    have h2 : ¬ isError v = true := by
      cases v <;> first | exact Bool.noConfusion hr | (intro he; exact Bool.noConfusion he)
    unfold confirmTransition.next
    rw [if_neg h1, if_neg h2, if_pos hr]
    by_cases h4 : wantsReplace v = true
    · simp only [h4, if_true]
      rfl
    · simp only [h4, if_false]
      rfl

/-- A witness of `stale_next_does_not_commit`: the navigation to "/b" has been
superseded by one to "/c" when its `beforeEnter` guard calls `next()`. -/
theorem stale_next_does_not_commit_witness :
    Scenario.supersededHistory.pending ≠ some Scenario.routeB ∧
    isRedirect Val.undefined = false ∧
    Quiet Scenario.supersededHistory
      (Hook.next (Hook.guard ⟨2⟩)
        (confirmTransition.next (Scenario.world { calls := [], throws := none })
          Scenario.routeB Scenario.routeA
          (some (transitionTo.onAbort Scenario.routeB (some ⟨50⟩)))
          (runQueue Scenario.after
            (confirmTransition.iterator (Scenario.world { calls := [], throws := none })
              Scenario.routeB Scenario.routeA
              (some (transitionTo.onAbort Scenario.routeB (some ⟨50⟩))))
            (confirmTransition.enter (Scenario.world { calls := [], throws := none })
              Scenario.routeB Scenario.routeA [Scenario.recordB]
              (fun _ => transitionTo.onComplete Scenario.routeB none)
              (some (transitionTo.onAbort Scenario.routeB (some ⟨50⟩))))))
        Val.undefined Scenario.supersededHistory) :=
  ⟨by decide, rfl,
    (stale_next_does_not_commit (Scenario.world { calls := [], throws := none })
      Scenario.routeB Scenario.routeA [Scenario.recordB] none (some ⟨50⟩) (Hook.guard ⟨2⟩)
      Scenario.after _ Val.undefined Scenario.supersededHistory (by decide)
      (Or.inl rfl)).1 rfl⟩

/-- C13, counterexample. The navigation to "/b" has been superseded by one to
"/c" when its `beforeEnter` guard calls `next("/d")`: the abort callback is
called with the redirected failure and `push("/d")` is started. -/
theorem stale_next_starts_push :
    Scenario.supersededHistory.pending = some Scenario.routeC ∧
    Scenario.routeC ≠ Scenario.routeB ∧
    (Hook.next (Hook.guard ⟨2⟩)
      (confirmTransition.next (Scenario.world { calls := [], throws := none })
        Scenario.routeB Scenario.routeA
        (some (transitionTo.onAbort Scenario.routeB (some ⟨50⟩)))
        (runQueue Scenario.after
          (confirmTransition.iterator (Scenario.world { calls := [], throws := none })
            Scenario.routeB Scenario.routeA
            (some (transitionTo.onAbort Scenario.routeB (some ⟨50⟩))))
          (confirmTransition.enter (Scenario.world { calls := [], throws := none })
            Scenario.routeB Scenario.routeA [Scenario.recordB]
            (fun _ => transitionTo.onComplete Scenario.routeB none)
            (some (transitionTo.onAbort Scenario.routeB (some ⟨50⟩))))))
      (Val.str "/d") Scenario.supersededHistory).log =
      [Event.onAbort ⟨50⟩
         (Val.failure NavigationFailureType.redirected Scenario.routeA Scenario.routeB),
       Event.push (Val.str "/d")] := by
  decide

/-! ### `normalizePath` -/

theorem stripTrailingSlash_eq (path : String) :
    stripTrailingSlash path =
      if path.data.getLast? = some '/' then String.mk path.data.dropLast else path := by
  unfold stripTrailingSlash
  rcases List.eq_nil_or_concat path.data with hnil | ⟨front, c, hc⟩
  · rw [hnil]
    simp
  · rw [hc]
    simp only [List.concat_eq_append, List.reverse_append, List.reverse_cons,
      List.reverse_nil, List.nil_append, List.singleton_append, List.getLast?_append,
      List.getLast?_singleton, List.dropLast_concat]
    have hor : (some c).or front.getLast? = some c := rfl
    rw [hor]
    by_cases hslash : c = '/'
    · subst hslash
      simp
    · rw [if_neg (by simpa using hslash)]
      split
      · rename_i rest heq
        have : c = '/' := by
          have := congrArg List.head? heq
          simpa using this
        exact absurd this hslash
      · rfl

/-- C16. For every config path, optional parent record and strict flag,
`normalizePath` returns: the path with one trailing "/" removed when `strict`
is not set (the path itself when it is set), if that string starts with "/" or
there is no parent; otherwise `parent.path + "/" +` that string with the "//"
collapsed by `cleanPath`. The config
`{ path: "/a", children: [{ path: "b" }, { path: "/c" }] }` yields the records
of paths "/a/b", "/c" and "/a". -/
theorem normalizePath_spec (path : String) (parent : Option RouteRecord) (strict : Bool) :
    normalizePath path parent strict = normalizePathSpec path parent strict ∧
    (createRouteMap false
      [RouteConfig.mk { path := "/a" }
        [RouteConfig.mk { path := "b" } [], RouteConfig.mk { path := "/c" } []]]
      none none none).pathMap.map (fun entry => (entry.1, entry.2.path, entry.2.parent)) =
      [("/a/b", "/a/b", some "/a"), ("/c", "/c", some "/a"), ("/a", "/a", none)] := by
  refine ⟨?_, by decide⟩
  unfold normalizePath normalizePathSpec
  simp only []
  cases strict with
  | true =>
    simp only [Bool.not_true, Bool.false_eq_true, if_false, if_true]
    by_cases hh : path.data.head? = some '/'
    · rw [if_pos hh, if_pos (Or.inl hh)]
    · rw [if_neg hh]
      cases parent with
      | none => simp
      | some p => simp [hh]
  | false =>
    simp only [Bool.not_false, if_true, Bool.false_eq_true, if_false]
    rw [stripTrailingSlash_eq]
    by_cases hh : (if path.data.getLast? = some '/' then String.mk path.data.dropLast
        else path).data.head? = some '/'
    · rw [if_pos hh, if_pos (Or.inl hh)]
    · rw [if_neg hh]
      cases parent with
      | none => simp
      | some p => simp [hh]

/-! ### Aliases -/

theorem addRouteRecord_eq (production : Bool) (map : RouteMap) (route : RouteOptions)
    (children : List RouteConfig) (parent : Option RouteRecord) (matchAs : Option String) :
    addRouteRecord production map (RouteConfig.mk route children) parent matchAs =
      registerName
        (route.aliases.foldl
          (addRouteRecord.aliasStep production route children parent matchAs)
          (storeRecord
            (addRouteChildren production map children (createRecord route parent matchAs)
              matchAs)
            (createRecord route parent matchAs)))
        route.name (createRecord route parent matchAs) := by
  rw [addRouteRecord]
  rfl

theorem storeRecord_lookup_of_none (m : RouteMap) (r : RouteRecord)
    (h : lookup r.path m.pathMap = none) :
    lookup r.path (storeRecord m r).pathMap = some r := by
  unfold storeRecord
  rw [h]
  simp only []
  rw [lookup_append_none _ _ _ h]
  simp [lookup]

theorem storeRecord_keeps (p : String) (r0 : RouteRecord) (m : RouteMap) (r : RouteRecord)
    (h : lookup p m.pathMap = some r0) : lookup p (storeRecord m r).pathMap = some r0 := by
  unfold storeRecord
  cases hl : lookup r.path m.pathMap with
  | some v => exact h
  | none => exact lookup_append_some p _ _ r0 h

theorem storeRecord_bound (m : RouteMap) (r : RouteRecord) :
    (lookup r.path (storeRecord m r).pathMap).isSome = true := by
  cases hl : lookup r.path m.pathMap with
  | some v => rw [storeRecord_keeps r.path v m r hl]; rfl
  | none => rw [storeRecord_lookup_of_none m r hl]; rfl

theorem registerName_keeps (p : String) (r0 : RouteRecord) (m : RouteMap)
    (n : Option String) (r : RouteRecord)
    (h : lookup p m.pathMap = some r0) : lookup p (registerName m n r).pathMap = some r0 := by
  rw [(registerName_paths m n r).2]
  exact h

/-- A binding of `pathMap` is kept by `addRouteRecord`. -/
theorem addRouteRecord_keeps (production : Bool) (p : String) (r0 : RouteRecord)
    (route : RouteConfig) (m : RouteMap) (parent : Option RouteRecord)
    (matchAs : Option String) (h : lookup p m.pathMap = some r0) :
    lookup p (addRouteRecord production m route parent matchAs).pathMap = some r0 :=
  addRouteRecord_preserves production (fun m => lookup p m.pathMap = some r0)
    (fun m r => storeRecord_keeps p r0 m r) (fun m n r => registerName_keeps p r0 m n r)
    route m parent matchAs h

/-- A binding of `pathMap` is kept by the children loop. -/
theorem addRouteChildren_keeps (production : Bool) (p : String) (r0 : RouteRecord)
    (children : List RouteConfig) (m : RouteMap) (record : RouteRecord)
    (matchAs : Option String) (h : lookup p m.pathMap = some r0) :
    lookup p (addRouteChildren production m children record matchAs).pathMap = some r0 :=
  addRouteChildren_preserves production (fun m => lookup p m.pathMap = some r0)
    (fun m r => storeRecord_keeps p r0 m r) (fun m n r => registerName_keeps p r0 m n r)
    children m record matchAs h

theorem aliasStep_keeps (production : Bool) (route : RouteOptions)
    (children : List RouteConfig) (parent : Option RouteRecord) (matchAs : Option String)
    (p : String) (r0 : RouteRecord) (m : RouteMap) (a : String)
    (h : lookup p m.pathMap = some r0) :
    lookup p (addRouteRecord.aliasStep production route children parent matchAs m a).pathMap
      = some r0 := by
  unfold addRouteRecord.aliasStep
  split
  · exact h
  · exact storeRecord_keeps p r0 _ _ (addRouteChildren_keeps production p r0 children m _ _ h)

theorem aliasSteps_keep (production : Bool) (route : RouteOptions)
    (children : List RouteConfig) (parent : Option RouteRecord) (matchAs : Option String)
    (p : String) (r0 : RouteRecord) (aliases : List String) :
    ∀ (m : RouteMap), lookup p m.pathMap = some r0 →
      lookup p (aliases.foldl
        (addRouteRecord.aliasStep production route children parent matchAs) m).pathMap
        = some r0 := by
  induction aliases with
  | nil => intro m h; exact h
  | cons a rest ih =>
    intro m h
    rw [List.foldl_cons]
    exact ih _ (aliasStep_keeps production route children parent matchAs p r0 m a h)

theorem createRouteMap_keeps (production : Bool) (p : String) (r0 : RouteRecord)
    (routes : List RouteConfig) :
    ∀ (m : RouteMap), lookup p m.pathMap = some r0 →
      lookup p (routes.foldl (fun m route => addRouteRecord production m route none none)
        m).pathMap = some r0 := by
  induction routes with
  | nil => intro m h; exact h
  | cons route rest ih =>
    intro m h
    rw [List.foldl_cons]
    exact ih _ (addRouteRecord_keeps production p r0 route m none none h)

/-- The alias loop binds the path of an alias, when it is free at that moment,
to the alias record, and the binding is there when `addRouteRecord` returns. -/
theorem addRouteRecord_alias_bound (production : Bool) (map : RouteMap)
    (route : RouteOptions) (children : List RouteConfig) (parent : Option RouteRecord)
    (matchAs : Option String) (before after : List String) (a : String)
    (hal : route.aliases = before ++ a :: after)
    (hne : a ≠ route.path)
    (hfree : lookup (addRouteRecord.aliasRecord route parent matchAs a).path
      (addRouteChildren production
        (before.foldl (addRouteRecord.aliasStep production route children parent matchAs)
          (storeRecord
            (addRouteChildren production map children (createRecord route parent matchAs)
              matchAs)
            (createRecord route parent matchAs)))
        children (addRouteRecord.aliasRecord route parent matchAs a)
        (some (addRouteRecord.aliasMatchAs route parent matchAs))).pathMap = none) :
    lookup (addRouteRecord.aliasRecord route parent matchAs a).path
      (addRouteRecord production map (RouteConfig.mk route children) parent matchAs).pathMap
      = some (addRouteRecord.aliasRecord route parent matchAs a) := by
  rw [addRouteRecord_eq, hal, List.foldl_append, List.foldl_cons]
  apply registerName_keeps
  apply aliasSteps_keep
  have hskip : ¬ ((!production && decide (a = route.path)) = true) := by
    simp [hne]
  unfold addRouteRecord.aliasStep
  rw [if_neg hskip]
  exact storeRecord_lookup_of_none _ _ hfree

theorem createRouteMap_pathMap (production : Bool) (routes : List RouteConfig) :
    (createRouteMap production routes none none none).pathMap =
      (addedRoutes production routes).pathMap := rfl

theorem addedRoutes_append (production : Bool) (pre post : List RouteConfig)
    (config : RouteConfig) :
    addedRoutes production (pre ++ config :: post) =
      post.foldl (fun m route => addRouteRecord production m route none none)
        (addRouteRecord production (addedRoutes production pre) config none none) := by
  simp [addedRoutes, List.foldl_append]

/-- C17. For every route config that declares aliases, for each alias `a` that
differs from the path of the config and whose normalized path is not bound when
its record is stored: `createRouteMap` from empty maps binds the normalized
alias path in `pathMap` to one record, whose path is that path and whose
`matchAs` is the path of the canonical record, or "/" when that path is empty;
the children of that record are added by the children loop run on the same
children configs, with the alias record as parent. This holds for a top-level
config and for a config added under any parent, and the binding is kept by
everything `createRouteMap` does afterwards. -/
theorem alias_record_emitted (production : Bool) (pre post : List RouteConfig)
    (route : RouteOptions) (children : List RouteConfig) (before after : List String)
    (a : String)
    (hal : route.aliases = before ++ a :: after)
    (hne : a ≠ route.path)
    (hfree : lookup (normalizePath a none false)
      (addRouteRecord.beforeAliasStore production (addedRoutes production pre) route children
        none none before a).pathMap = none) :
    lookup (normalizePath a none false)
      (createRouteMap production (pre ++ RouteConfig.mk route children :: post)
        none none none).pathMap =
      some (addRouteRecord.aliasRecord route none none a) ∧
    (∀ parent matchAs,
      (addRouteRecord.aliasRecord route parent matchAs a).path =
        normalizePath a parent false ∧
      (addRouteRecord.aliasRecord route parent matchAs a).matchAs =
        some (if normalizePath route.path parent route.strict = "" then "/"
          else normalizePath route.path parent route.strict)) ∧
    (∀ map parent matchAs,
      addRouteRecord production map (RouteConfig.mk route children) parent matchAs =
        registerName
          (after.foldl (addRouteRecord.aliasStep production route children parent matchAs)
            (storeRecord
              (addRouteChildren production
                (before.foldl
                  (addRouteRecord.aliasStep production route children parent matchAs)
                  (storeRecord
                    (addRouteChildren production map children
                      (createRecord route parent matchAs) matchAs)
                    (createRecord route parent matchAs)))
                children (addRouteRecord.aliasRecord route parent matchAs a)
                (some (addRouteRecord.aliasMatchAs route parent matchAs)))
              (addRouteRecord.aliasRecord route parent matchAs a)))
          route.name (createRecord route parent matchAs)) ∧
    (∀ map parent matchAs,
      lookup (normalizePath a parent false)
        (addRouteRecord.beforeAliasStore production map route children parent matchAs
          before a).pathMap = none →
      lookup (normalizePath a parent false)
        (addRouteRecord production map (RouteConfig.mk route children) parent
          matchAs).pathMap =
        some (addRouteRecord.aliasRecord route parent matchAs a)) ∧
    (∀ (p : String) (r : RouteRecord) (m : RouteMap), lookup p m.pathMap = some r →
      (∀ config parent matchAs,
        lookup p (addRouteRecord production m config parent matchAs).pathMap = some r) ∧
      (∀ configs record matchAs,
        lookup p (addRouteChildren production m configs record matchAs).pathMap = some r) ∧
      (∀ routes,
        lookup p (createRouteMap production routes (some m.pathList) (some m.pathMap)
          (some m.nameMap)).pathMap = some r)) := by
  have hskip : ¬ ((!production && decide (a = route.path)) = true) := by
    simp [hne]
  refine ⟨?_, ?_, ?_, ?_, ?_⟩
  · rw [createRouteMap_pathMap, addedRoutes_append]
    apply createRouteMap_keeps
    exact addRouteRecord_alias_bound production _ route children none none before after a
      hal hne hfree
  · intro parent matchAs
    exact ⟨rfl, rfl⟩
  · intro map parent matchAs
    rw [addRouteRecord_eq, hal, List.foldl_append, List.foldl_cons]
    congr 2
    unfold addRouteRecord.aliasStep
    rw [if_neg hskip]
  · intro map parent matchAs hfree'
    exact addRouteRecord_alias_bound production map route children parent matchAs before
      after a hal hne hfree'
  · intro p r m hm
    refine ⟨fun config parent matchAs =>
        addRouteRecord_keeps production p r config m parent matchAs hm,
      fun configs record matchAs =>
        addRouteChildren_keeps production p r configs m record matchAs hm,
      fun routes => ?_⟩
    exact createRouteMap_keeps production p r routes
      { pathList := m.pathList, pathMap := m.pathMap, nameMap := m.nameMap } hm

/-- A witness of `alias_record_emitted`: `{ path: "/u", alias: "/user",
component: U }` binds "/user" to a record with `matchAs` "/u". -/
theorem alias_record_emitted_witness :
    (lookup "/user"
      (createRouteMap false [RouteConfig.mk Scenario.userOptions []]
        none none none).pathMap).map (fun r => (r.path, r.matchAs)) =
      some ("/user", some "/u") :=
  (congrArg (fun o : Option RouteRecord => o.map (fun r => (r.path, r.matchAs)))
    (alias_record_emitted false [] [] Scenario.userOptions [] [] [] "/user" rfl
      (by decide) (by decide)).1).trans (by decide)

/-- C18. For `{ path: "/u", alias: "/user", component: U }` the record bound to
"/u" has the component `U` as `default`, but the record that the alias loop
binds to "/user" has `undefined` as `default`: the alias is added from
`{ path: alias, children: route.children }`, which carries no component, so
the two components mappings differ, and only `matchAs`, "/u", leads from the
alias record to the canonical one. -/
theorem alias_record_has_no_component :
    (lookup "/u"
      (createRouteMap false [RouteConfig.mk Scenario.userOptions []]
        none none none).pathMap).map (fun r => r.components) =
      some [("default", some Scenario.componentU)] ∧
    (lookup "/user"
      (createRouteMap false [RouteConfig.mk Scenario.userOptions []]
        none none none).pathMap).map (fun r => r.components) =
      some [("default", none)] ∧
    (lookup "/user"
      (createRouteMap false [RouteConfig.mk Scenario.userOptions []]
        none none none).pathMap).map (fun r => r.components) ≠
    (lookup "/u"
      (createRouteMap false [RouteConfig.mk Scenario.userOptions []]
        none none none).pathMap).map (fun r => r.components) ∧
    (lookup "/user"
      (createRouteMap false [RouteConfig.mk Scenario.userOptions []]
        none none none).pathMap).map (fun r => (r.path, r.matchAs)) =
      some ("/user", some "/u") := by
  decide

/-! ### Dynamic addition of routes -/

theorem storeRecord_nameMap (m : RouteMap) (r : RouteRecord) :
    (storeRecord m r).nameMap = m.nameMap := by
  unfold storeRecord
  split <;> rfl

theorem registerName_keeps_name (k : String) (r0 : RouteRecord) (m : RouteMap)
    (n : Option String) (r : RouteRecord) (h : lookup k m.nameMap = some r0) :
    lookup k (registerName m n r).nameMap = some r0 := by
  unfold registerName
  cases n with
  | none => exact h
  | some name =>
    simp only []
    split
    · exact h
    · split
      · exact h
      · exact lookup_append_some k _ _ r0 h

theorem storeRecord_extendsOld (old : List String) (m : RouteMap) (r : RouteRecord)
    (h : ExtendsOld old m) : ExtendsOld old (storeRecord m r) := by
  obtain ⟨added, hlist, hnew, hbound⟩ := h
  unfold storeRecord
  cases hl : lookup r.path m.pathMap with
  | some v => exact ⟨added, hlist, hnew, hbound⟩
  | none =>
    refine ⟨added ++ [r.path], ?_, ?_, ?_⟩
    · simp only []
      rw [hlist, List.append_assoc]
    · intro p hp hold
      rcases List.mem_append.mp hp with hp | hp
      · exact hnew p hp hold
      · rw [List.mem_singleton] at hp
        have := hbound p hold
        rw [hp, hl] at this
        exact Bool.noConfusion this
    · intro p hp
      simp only []
      cases hq : lookup p m.pathMap with
      | some w => rw [lookup_append_some p _ _ w hq]; rfl
      | none =>
        have := hbound p hp
        rw [hq] at this
        exact Bool.noConfusion this

theorem registerName_extendsOld (old : List String) (m : RouteMap) (n : Option String)
    (r : RouteRecord) (h : ExtendsOld old m) : ExtendsOld old (registerName m n r) := by
  obtain ⟨h1, h2⟩ := registerName_paths m n r
  unfold ExtendsOld
  rw [h1, h2]
  exact h

theorem fold_preserves (production : Bool) (P : RouteMap → Prop)
    (hstore : ∀ m r, P m → P (storeRecord m r))
    (hname : ∀ m n r, P m → P (registerName m n r)) (routes : List RouteConfig) :
    ∀ (m : RouteMap), P m →
      P (routes.foldl (fun m route => addRouteRecord production m route none none) m) := by
  induction routes with
  | nil => intro m h; exact h
  | cons route rest ih =>
    intro m h
    rw [List.foldl_cons]
    exact ih _ (addRouteRecord_preserves production P hstore hname route m none none h)

/-- C19. For every consistent old path list and path map, every old name map
and every list of new route configs, `createRouteMap` called with the old maps
removes and rebinds nothing: every path of the old path list is in the
resulting path list, every old key of `pathMap` and of `nameMap` is bound to
the same record as before, and the resulting path list is the old paths other
than "*" in their order, followed by the added paths other than "*", followed
by the wildcard, the added paths being paths that the old list does not
hold. -/
theorem createRouteMap_keeps_old (production : Bool) (routes : List RouteConfig)
    (oldPathList : List String) (oldPathMap oldNameMap : List (String × RouteRecord))
    (hold : RouteMap.Consistent oldPathList oldPathMap) :
    (∀ p, p ∈ oldPathList →
      p ∈ (createRouteMap production routes (some oldPathList) (some oldPathMap)
        (some oldNameMap)).pathList) ∧
    (∀ k r, lookup k oldPathMap = some r →
      lookup k (createRouteMap production routes (some oldPathList) (some oldPathMap)
        (some oldNameMap)).pathMap = some r) ∧
    (∀ k r, lookup k oldNameMap = some r →
      lookup k (createRouteMap production routes (some oldPathList) (some oldPathMap)
        (some oldNameMap)).nameMap = some r) ∧
    ∃ added : List String,
      (∀ p, p ∈ added → p ∉ oldPathList) ∧
      (createRouteMap production routes (some oldPathList) (some oldPathMap)
        (some oldNameMap)).pathList =
        oldPathList.filter (fun p => decide (p ≠ "*")) ++
          added.filter (fun p => decide (p ≠ "*")) ++
          List.replicate ((oldPathList ++ added).count "*") "*" := by
  have hstart : ExtendsOld oldPathList
      { pathList := oldPathList, pathMap := oldPathMap, nameMap := oldNameMap } :=
    ⟨[], by simp, fun p hp => absurd hp (List.not_mem_nil p), fun p hp => (hold.2 p).mp hp⟩
  obtain ⟨added, hlist, hnew, _⟩ := fold_preserves production (ExtendsOld oldPathList)
    (storeRecord_extendsOld oldPathList) (registerName_extendsOld oldPathList) routes _ hstart
  have hpl : (createRouteMap production routes (some oldPathList) (some oldPathMap)
      (some oldNameMap)).pathList =
      oldPathList.filter (fun p => decide (p ≠ "*")) ++
        added.filter (fun p => decide (p ≠ "*")) ++
        List.replicate ((oldPathList ++ added).count "*") "*" := by
    simp only [createRouteMap, createRouteMap.moveWildcards_eq, Option.getD_some]
    rw [hlist, List.filter_append]
  refine ⟨?_, ?_, ?_, added, hnew, hpl⟩
  · intro p hp
    rw [hpl]
    by_cases hstar : p = "*"
    · subst hstar
      apply List.mem_append_right
      rw [List.mem_replicate]
      refine ⟨?_, rfl⟩
      intro h0
      have : "*" ∉ oldPathList ++ added := List.count_eq_zero.mp h0
      exact this (List.mem_append_left _ hp)
    · apply List.mem_append_left
      apply List.mem_append_left
      exact List.mem_filter.mpr ⟨hp, by simpa using hstar⟩
  · intro k r hk
    exact createRouteMap_keeps production k r routes
      { pathList := oldPathList, pathMap := oldPathMap, nameMap := oldNameMap } hk
  · intro k r hk
    exact fold_preserves production (fun m => lookup k m.nameMap = some r)
      (fun m rec h => by
        show lookup k (storeRecord m rec).nameMap = some r
        rw [storeRecord_nameMap]; exact h)
      (fun m n rec h => registerName_keeps_name k r m n rec h) routes
      { pathList := oldPathList, pathMap := oldPathMap, nameMap := oldNameMap } hk

theorem Scenario.oldMaps_consistent :
    RouteMap.Consistent ["/x", "*"] Scenario.oldPathMap := by
  refine ⟨by decide, fun p => ?_⟩
  simp only [Scenario.oldPathMap, lookup, List.mem_cons, List.mem_nil_iff, or_false]
  by_cases h1 : "/x" = p
  · simp [h1]
  · by_cases h2 : "*" = p
    · subst h2
      rw [if_neg h1]
      simp
    · have h1' : ¬ p = "/x" := fun h => h1 h.symm
      have h2' : ¬ p = "*" := fun h => h2 h.symm
      simp [h1, h2, h1', h2']

/-- A witness of `createRouteMap_keeps_old`: the maps of "/x" and "*", extended
by `{ path: "/y" }`, still hold "/x" and "*", and "/y" comes between them. -/
theorem createRouteMap_keeps_old_witness :
    (createRouteMap false [RouteConfig.mk { path := "/y" } []] (some ["/x", "*"])
      (some Scenario.oldPathMap) (some [])).pathList = ["/x", "/y", "*"] ∧
    "/x" ∈ (createRouteMap false [RouteConfig.mk { path := "/y" } []] (some ["/x", "*"])
      (some Scenario.oldPathMap) (some [])).pathList :=
  ⟨by decide,
    (createRouteMap_keeps_old false [RouteConfig.mk { path := "/y" } []] ["/x", "*"]
      Scenario.oldPathMap [] Scenario.oldMaps_consistent).1 "/x" (by decide)⟩

/-! ### The name map -/

theorem lookup_eq_none_iff {β : Type} (key : String) (xs : List (String × β)) :
    lookup key xs = none ↔ key ∉ xs.map Prod.fst := by
  induction xs with
  | nil => simp [lookup]
  | cons x rest ih =>
    obtain ⟨k, v⟩ := x
    simp only [lookup, List.map_cons, List.mem_cons, not_or]
    by_cases hk : k = key
    · rw [if_pos hk]
      constructor
      · intro h; exact Option.noConfusion h
      · intro h; exact absurd hk.symm h.1
    · rw [if_neg hk, ih]
      constructor
      · intro h; exact ⟨fun h' => hk h'.symm, h⟩
      · intro h; exact h.2

theorem aliasSteps_preserve (production : Bool) (P : RouteMap → Prop)
    (hstore : ∀ m r, P m → P (storeRecord m r))
    (hname : ∀ m n r, P m → P (registerName m n r))
    (route : RouteOptions) (children : List RouteConfig) (parent : Option RouteRecord)
    (matchAs : Option String) (aliases : List String) :
    ∀ (m : RouteMap), P m →
      P (aliases.foldl (addRouteRecord.aliasStep production route children parent matchAs)
        m) := by
  induction aliases with
  | nil => intro m h; exact h
  | cons a rest ih =>
    intro m h
    rw [List.foldl_cons]
    apply ih
    unfold addRouteRecord.aliasStep
    split
    · exact h
    · exact hstore _ _ (addRouteChildren_preserves production P hstore hname children _ _ _ h)

theorem storeRecord_nameBound (n : String) (m : RouteMap) (r : RouteRecord)
    (h : (lookup n m.nameMap).isSome = true) :
    (lookup n (storeRecord m r).nameMap).isSome = true := by
  rw [storeRecord_nameMap]; exact h

theorem registerName_nameBound (n : String) (m : RouteMap) (name : Option String)
    (r : RouteRecord) (h : (lookup n m.nameMap).isSome = true) :
    (lookup n (registerName m name r).nameMap).isSome = true := by
  cases hl : lookup n m.nameMap with
  | none => rw [hl] at h; exact Bool.noConfusion h
  | some v => rw [registerName_keeps_name n v m name r hl]; rfl

theorem registerName_binds (m : RouteMap) (n : String) (r : RouteRecord) (hn : n ≠ "") :
    (lookup n (registerName m (some n) r).nameMap).isSome = true := by
  unfold registerName
  simp only []
  rw [if_neg hn]
  cases hl : lookup n m.nameMap with
  | some v => simp [hl]
  | none =>
    simp only []
    rw [lookup_append_none n _ _ hl]
    simp [lookup]

theorem registerName_of_bound (m : RouteMap) (name : Option String) (r : RouteRecord)
    (h : ∀ n, name = some n → n ≠ "" → (lookup n m.nameMap).isSome = true) :
    (registerName m name r).nameMap = m.nameMap := by
  unfold registerName
  cases name with
  | none => rfl
  | some n =>
    simp only []
    by_cases hn : n = ""
    · rw [if_pos hn]
    · rw [if_neg hn]
      cases hl : lookup n m.nameMap with
      | some v => rfl
      | none =>
        have := h n rfl hn
        rw [hl] at this
        exact Bool.noConfusion this

theorem RouteConfig.mem_names_mk (route : RouteOptions) (children : List RouteConfig)
    (n : String) :
    n ∈ (RouteConfig.mk route children).names ↔
      (route.name = some n ∧ n ≠ "") ∨ n ∈ RouteConfig.namesOfList children := by
  rw [RouteConfig.names, List.mem_append]
  apply or_congr_left
  cases hname : route.name with
  | none => simp
  | some k =>
    simp only []
    by_cases hk : k = ""
    · rw [if_pos hk]
      simp only [List.not_mem_nil, false_iff, Option.some.injEq, not_and, not_not]
      intro h
      rw [← h]; exact hk
    · rw [if_neg hk]
      simp only [List.mem_singleton, Option.some.injEq]
      constructor
      · intro h; rw [h]; exact ⟨rfl, hk⟩
      · intro h; exact h.1.symm

mutual
/-- After `addRouteRecord`, every name met in the config is bound. -/
theorem addRouteRecord_binds_names (production : Bool) :
    ∀ (config : RouteConfig) (map : RouteMap) (parent : Option RouteRecord)
      (matchAs : Option String) (n : String), n ∈ config.names →
      (lookup n (addRouteRecord production map config parent matchAs).nameMap).isSome = true
  | RouteConfig.mk route children, map, parent, matchAs, n, hn => by
    rw [addRouteRecord_eq]
    rcases (RouteConfig.mem_names_mk route children n).mp hn with ⟨hname, hne⟩ | hchild
    · rw [hname]
      exact registerName_binds _ n _ hne
    · apply registerName_nameBound
      apply aliasSteps_preserve production (fun m => (lookup n m.nameMap).isSome = true)
        (storeRecord_nameBound n) (registerName_nameBound n)
      apply storeRecord_nameBound
      exact addRouteChildren_binds_names production children map _ matchAs n hchild
/-- After the children loop, every name met in the children is bound. -/
theorem addRouteChildren_binds_names (production : Bool) :
    ∀ (children : List RouteConfig) (map : RouteMap) (record : RouteRecord)
      (matchAs : Option String) (n : String), n ∈ RouteConfig.namesOfList children →
      (lookup n (addRouteChildren production map children record matchAs).nameMap).isSome
        = true
  | [], map, record, matchAs, n, hn => by
    rw [RouteConfig.namesOfList] at hn
    exact absurd hn (List.not_mem_nil n)
  | child :: rest, map, record, matchAs, n, hn => by
    rw [addRouteChildren]
    rw [RouteConfig.namesOfList, List.mem_append] at hn
    rcases hn with hn | hn
    · exact addRouteChildren_preserves production
        (fun m => (lookup n m.nameMap).isSome = true)
        (storeRecord_nameBound n) (registerName_nameBound n) rest _ record matchAs
        (addRouteRecord_binds_names production child map (some record) _ n hn)
    · exact addRouteChildren_binds_names production rest _ record matchAs n hn
end

mutual
/-- When every name met in a config is bound already, `addRouteRecord` leaves
the name map as it is. -/
theorem addRouteRecord_names_bound (production : Bool) (nm : List (String × RouteRecord)) :
    ∀ (config : RouteConfig) (map : RouteMap) (parent : Option RouteRecord)
      (matchAs : Option String), map.nameMap = nm →
      (∀ n, n ∈ config.names → (lookup n nm).isSome = true) →
      (addRouteRecord production map config parent matchAs).nameMap = nm
  | RouteConfig.mk route children, map, parent, matchAs, hmap, hbound => by
    have hchildren : ∀ n, n ∈ RouteConfig.namesOfList children →
        (lookup n nm).isSome = true :=
      fun n hn => hbound n ((RouteConfig.mem_names_mk route children n).mpr (Or.inr hn))
    have hfold : ∀ (aliases : List String) (m : RouteMap), m.nameMap = nm →
        (aliases.foldl (addRouteRecord.aliasStep production route children parent matchAs)
          m).nameMap = nm := by
      intro aliases
      induction aliases with
      | nil => intro m hm; exact hm
      | cons a rest ih =>
        intro m hm
        rw [List.foldl_cons]
        apply ih
        unfold addRouteRecord.aliasStep
        split
        · exact hm
        · rw [storeRecord_nameMap]
          exact addRouteChildren_names_bound production nm children m _ _ hm hchildren
    rw [addRouteRecord_eq]
    have h2 := hfold route.aliases
      (storeRecord
        (addRouteChildren production map children (createRecord route parent matchAs)
          matchAs)
        (createRecord route parent matchAs))
      (by
        rw [storeRecord_nameMap]
        exact addRouteChildren_names_bound production nm children map _ _ hmap hchildren)
    rw [registerName_of_bound _ _ _ (fun n hname hne => by
      rw [h2]
      exact hbound n ((RouteConfig.mem_names_mk route children n).mpr (Or.inl ⟨hname, hne⟩)))]
    exact h2
/-- When every name met in the children is bound already, the children loop
leaves the name map as it is. -/
theorem addRouteChildren_names_bound (production : Bool) (nm : List (String × RouteRecord)) :
    ∀ (children : List RouteConfig) (map : RouteMap) (record : RouteRecord)
      (matchAs : Option String), map.nameMap = nm →
      (∀ n, n ∈ RouteConfig.namesOfList children → (lookup n nm).isSome = true) →
      (addRouteChildren production map children record matchAs).nameMap = nm
  | [], map, record, matchAs, hmap, _ => by
    rw [addRouteChildren]
    exact hmap
  | child :: rest, map, record, matchAs, hmap, hbound => by
    rw [addRouteChildren]
    apply addRouteChildren_names_bound production nm rest _ record matchAs
    · exact addRouteRecord_names_bound production nm child map (some record) _ hmap
        (fun n hn => hbound n (by
          rw [RouteConfig.namesOfList, List.mem_append]; exact Or.inl hn))
    · exact fun n hn => hbound n (by
        rw [RouteConfig.namesOfList, List.mem_append]; exact Or.inr hn)
end

theorem registerName_nonAlias (m : RouteMap) (name : Option String) (r : RouteRecord)
    (hr : r.matchAs = none) (h : NonAliasNames m.nameMap) :
    NonAliasNames (registerName m name r).nameMap := by
  unfold registerName
  cases name with
  | none => exact h
  | some n =>
    simp only []
    split
    · exact h
    · split
      · exact h
      · intro k v hkv
        rcases List.mem_append.mp hkv with hkv | hkv
        · exact h k v hkv
        · rw [List.mem_singleton] at hkv
          rw [(Prod.mk.inj hkv).2]
          exact hr

theorem registerName_keys_nodup (m : RouteMap) (name : Option String) (r : RouteRecord)
    (h : (m.nameMap.map Prod.fst).Nodup) :
    ((registerName m name r).nameMap.map Prod.fst).Nodup := by
  unfold registerName
  cases name with
  | none => exact h
  | some n =>
    simp only []
    split
    · exact h
    · cases hl : lookup n m.nameMap with
      | some v => exact h
      | none =>
        simp only [List.map_append, List.map_cons, List.map_nil]
        rw [List.nodup_append]
        refine ⟨h, List.nodup_singleton _, ?_⟩
        intro a ha hb
        rw [List.mem_singleton] at hb
        exact (lookup_eq_none_iff n m.nameMap).mp hl (hb ▸ ha)

mutual
/-- A config added without `matchAs` keeps the name map free of alias records:
the names of the children of its aliases are bound by the canonical children
before the alias loop meets them. -/
theorem addRouteRecord_nonAlias (production : Bool) :
    ∀ (config : RouteConfig) (map : RouteMap) (parent : Option RouteRecord),
      NonAliasNames map.nameMap →
      NonAliasNames (addRouteRecord production map config parent none).nameMap
  | RouteConfig.mk route children, map, parent, hmap => by
    rw [addRouteRecord_eq]
    apply registerName_nonAlias _ _ _ rfl
    have h1 : NonAliasNames
        (addRouteChildren production map children (createRecord route parent none)
          none).nameMap :=
      addRouteChildren_nonAlias production children map _ hmap
    have hbound : ∀ n, n ∈ RouteConfig.namesOfList children →
        (lookup n (addRouteChildren production map children (createRecord route parent none)
          none).nameMap).isSome = true :=
      fun n hn => addRouteChildren_binds_names production children map _ none n hn
    have hfold : ∀ (aliases : List String) (m : RouteMap),
        m.nameMap = (addRouteChildren production map children
          (createRecord route parent none) none).nameMap →
        (aliases.foldl (addRouteRecord.aliasStep production route children parent none)
          m).nameMap = (addRouteChildren production map children
          (createRecord route parent none) none).nameMap := by
      intro aliases
      induction aliases with
      | nil => intro m hm; exact hm
      | cons a rest ih =>
        intro m hm
        rw [List.foldl_cons]
        apply ih
        unfold addRouteRecord.aliasStep
        split
        · exact hm
        · rw [storeRecord_nameMap]
          exact addRouteChildren_names_bound production _ children m _ _ hm hbound
    rw [hfold route.aliases _ (storeRecord_nameMap _ _)]
    exact h1
/-- The children loop run without `matchAs` keeps the name map free of alias
records. -/
theorem addRouteChildren_nonAlias (production : Bool) :
    ∀ (children : List RouteConfig) (map : RouteMap) (record : RouteRecord),
      NonAliasNames map.nameMap →
      NonAliasNames (addRouteChildren production map children record none).nameMap
  | [], map, record, hmap => by
    rw [addRouteChildren]
    exact hmap
  | child :: rest, map, record, hmap => by
    rw [addRouteChildren]
    exact addRouteChildren_nonAlias production rest _ record
      (addRouteRecord_nonAlias production child map (some record) hmap)
end

/-- C20. For every list of route configs, with any nesting of children and
aliases, after `createRouteMap` from empty maps every name of `nameMap` is
bound once, to a record that is not an alias record (its `matchAs` is unset),
and every truthy name of the configs is bound. The children of an alias route
carry the names of the canonical children and do not rebind them: for
`{ path: "/a", alias: "/z", children: [{ path: "b", name: "child" }] }` the
name "child" is bound to the record of "/a/b", while "/z/b" is in the path
map with `matchAs` "/a/b". -/
theorem nameMap_binds_non_alias (production : Bool) (routes : List RouteConfig) :
    ((createRouteMap production routes none none none).nameMap.map Prod.fst).Nodup ∧
    (∀ n r, (n, r) ∈ (createRouteMap production routes none none none).nameMap →
      r.matchAs = none) ∧
    (∀ n, n ∈ RouteConfig.namesOfList routes →
      (lookup n (createRouteMap production routes none none none).nameMap).isSome = true) ∧
    (createRouteMap false
      [RouteConfig.mk Scenario.aliasedOptions [RouteConfig.mk Scenario.childOptions []]]
      none none none).nameMap.map (fun entry => (entry.1, entry.2.path, entry.2.matchAs)) =
      [("child", "/a/b", none)] ∧
    (createRouteMap false
      [RouteConfig.mk Scenario.aliasedOptions [RouteConfig.mk Scenario.childOptions []]]
      none none none).pathMap.map (fun entry => (entry.1, entry.2.name, entry.2.matchAs)) =
      [("/a/b", some "child", none), ("/a", none, none),
       ("/z/b", some "child", some "/a/b"), ("/z", none, some "/a")] := by
  have hname : (createRouteMap production routes none none none).nameMap =
      (addedRoutes production routes).nameMap := rfl
  rw [hname]
  refine ⟨?_, ?_, ?_, by decide, by decide⟩
  · exact fold_preserves production (fun m => (m.nameMap.map Prod.fst).Nodup)
      (fun m r h => by
        show ((storeRecord m r).nameMap.map Prod.fst).Nodup
        rw [storeRecord_nameMap]; exact h)
      (fun m n r h => registerName_keys_nodup m n r h) routes RouteMap.empty List.nodup_nil
  · have hfold : ∀ (rs : List RouteConfig) (m : RouteMap), NonAliasNames m.nameMap →
        NonAliasNames
          (rs.foldl (fun m route => addRouteRecord production m route none none)
            m).nameMap := by
      intro rs
      induction rs with
      | nil => intro m h; exact h
      | cons route rest ih =>
        intro m h
        rw [List.foldl_cons]
        exact ih _ (addRouteRecord_nonAlias production route m none h)
    exact hfold routes RouteMap.empty (fun n r h => absurd h (List.not_mem_nil _))
  · have hfold : ∀ (rs : List RouteConfig) (m : RouteMap) (n : String),
        n ∈ RouteConfig.namesOfList rs ∨ (lookup n m.nameMap).isSome = true →
        (lookup n (rs.foldl (fun m route => addRouteRecord production m route none none)
          m).nameMap).isSome = true := by
      intro rs
      induction rs with
      | nil =>
        intro m n h
        rcases h with h | h
        · rw [RouteConfig.namesOfList] at h
          exact absurd h (List.not_mem_nil n)
        · exact h
      | cons route rest ih =>
        intro m n h
        rw [List.foldl_cons]
        apply ih
        rcases h with h | h
        · rw [RouteConfig.namesOfList, List.mem_append] at h
          rcases h with h | h
          · exact Or.inr (addRouteRecord_binds_names production route m none none n h)
          · exact Or.inl h
        · exact Or.inr (addRouteRecord_preserves production
            (fun m => (lookup n m.nameMap).isSome = true)
            (storeRecord_nameBound n) (registerName_nameBound n) route m none none h)
    exact fun n hn => hfold routes RouteMap.empty n (Or.inl hn)

/-! ### Async components -/

theorem resolveAsyncComponents.isError_errorOf (describe : Val → String) (key : String)
    (reason : Val) : isError (resolveAsyncComponents.errorOf describe key reason) = true := by
  unfold resolveAsyncComponents.errorOf
  by_cases h : isError reason = true
  · rw [if_pos h]; exact h
  · rw [if_neg h]; rfl

theorem AsyncState.agrees_resolve (describe : Val → String) (index : Nat)
    (resolvedDef : Component) (s : AsyncState) (made : List (String × Val))
    (h : s.Agrees describe made) :
    (resolveAsyncComponents.resolve index resolvedDef s).Agrees describe made := by
  unfold resolveAsyncComponents.resolve
  split
  · exact h
  · simp only []
    split
    · refine ⟨?_, h.2.1, h.2.2⟩
      simp only [List.filter_append]
      rw [h.1]
      simp [isError]
    · exact ⟨h.1, h.2.1, h.2.2⟩

theorem AsyncState.agrees_reject (describe : Val → String) (index : Nat) (key : String)
    (reason : Val) (s : AsyncState) (made : List (String × Val))
    (h : s.Agrees describe made) :
    (resolveAsyncComponents.reject describe index key reason s).Agrees describe
      (made ++ [(key, reason)]) := by
  obtain ⟨h1, h2, h3⟩ := h
  cases made with
  | nil =>
    have hlatch : s.rejectCalled = [] := h3 rfl
    have herr : s.error = none := h2
    unfold resolveAsyncComponents.reject
    rw [hlatch, if_neg (List.not_mem_nil index)]
    simp only [herr]
    refine ⟨?_, rfl, fun hnil => absurd hnil (by simp)⟩
    simp only [List.filter_append, List.nil_append, List.head?_cons, Option.map_some',
      Option.toList_some]
    have h1' : s.nexts.filter isError = [] := h1
    rw [h1']
    simp [resolveAsyncComponents.isError_errorOf]
  | cons x rest =>
    have herr : s.error =
        some (resolveAsyncComponents.errorOf describe x.1 x.2) := h2
    have hagree : (x :: rest ++ [(key, reason)]).head? = (x :: rest).head? := rfl
    unfold resolveAsyncComponents.reject
    split
    · exact ⟨by rw [hagree]; exact h1, by rw [hagree]; exact h2,
        fun hnil => absurd hnil (by simp)⟩
    · simp only [herr]
      exact ⟨by rw [hagree]; exact h1, rfl, fun hnil => absurd hnil (by simp)⟩

theorem AsyncState.agrees_settle (describe : Val → String) (index : Nat) (key : String)
    (call : Settle) (s : AsyncState) (made : List (String × Val))
    (h : s.Agrees describe made) :
    (resolveAsyncComponents.settle describe index key call s).Agrees describe
      (made ++ (call.rejection key).toList) := by
  cases call with
  | resolve resolvedDef =>
    simp only [resolveAsyncComponents.settle, Settle.rejection, Option.toList_none,
      List.append_nil]
    exact AsyncState.agrees_resolve describe index resolvedDef s made h
  | reject reason =>
    simp only [resolveAsyncComponents.settle, Settle.rejection, Option.toList_some]
    exact AsyncState.agrees_reject describe index key reason s made h

theorem AsyncState.agrees_calls (describe : Val → String) (index : Nat) (key : String)
    (calls : List Settle) :
    ∀ (s : AsyncState) (made : List (String × Val)), s.Agrees describe made →
      (calls.foldl
        (fun st call => resolveAsyncComponents.settle describe index key call st)
        s).Agrees describe (made ++ calls.filterMap (Settle.rejection key)) := by
  induction calls with
  | nil => intro s made h; simpa using h
  | cons call rest ih =>
    intro s made h
    rw [List.foldl_cons]
    have := ih _ _ (AsyncState.agrees_settle describe index key call s made h)
    rw [List.append_assoc] at this
    cases hc : call.rejection key with
    | none => simpa [List.filterMap_cons, hc] using this
    | some x => simpa [List.filterMap_cons, hc] using this

theorem AsyncState.agrees_visit (describe : Val → String) (index : Nat) (key : String)
    (factory : Option Factory) (s : AsyncState) (made : List (String × Val))
    (h : s.Agrees describe made) :
    (resolveAsyncComponents.visit describe index key factory s).Agrees describe
      (made ++ factoryRejections key factory) := by
  cases factory with
  | none => simpa [resolveAsyncComponents.visit, factoryRejections] using h
  | some f =>
    have h1 : AsyncState.Agrees describe
        { s with hasAsync := true, pending := s.pending + 1 } made := h
    have h2 := AsyncState.agrees_calls describe index key f.calls _ made h1
    unfold resolveAsyncComponents.visit factoryRejections
    simp only []
    cases ht : f.throws with
    | none => simpa using h2
    | some e =>
      simp only []
      rw [← List.append_assoc]
      exact AsyncState.agrees_reject describe index key e _ _ h2

theorem AsyncState.agrees_loop (describe : Val → String)
    (entries : List (String × Option Factory)) :
    ∀ (index : Nat) (s : AsyncState) (made : List (String × Val)), s.Agrees describe made →
      (resolveAsyncComponents.loop describe index entries s).Agrees describe
        (made ++ syncRejections entries) := by
  induction entries with
  | nil => intro index s made h; simpa [resolveAsyncComponents.loop, syncRejections] using h
  | cons entry rest ih =>
    intro index s made h
    obtain ⟨key, factory⟩ := entry
    rw [resolveAsyncComponents.loop, syncRejections, ← List.append_assoc]
    exact ih _ _ _ (AsyncState.agrees_visit describe index key factory s made h)

theorem AsyncState.agrees_start (describe : Val → String)
    (entries : List (String × Option Factory)) :
    (resolveAsyncComponents.start describe entries).Agrees describe
      (syncRejections entries) := by
  have h := AsyncState.agrees_loop describe entries 0 AsyncState.init []
    ⟨rfl, rfl, fun _ => rfl⟩
  rw [List.nil_append] at h
  unfold resolveAsyncComponents.start
  simp only []
  split
  · refine ⟨?_, h.2.1, h.2.2⟩
    simp only [List.filter_append]
    rw [h.1]
    simp [isError]
  · exact h

theorem AsyncState.agrees_later (describe : Val → String)
    (entries : List (String × Option Factory)) (events : List Settlement) :
    ∀ (s : AsyncState) (made : List (String × Val)), s.Agrees describe made →
      (events.foldl (resolveAsyncComponents.later describe entries) s).Agrees describe
        (made ++ events.filterMap (laterRejection entries)) := by
  induction events with
  | nil => intro s made h; simpa using h
  | cons event rest ih =>
    intro s made h
    rw [List.foldl_cons]
    have hstep : (resolveAsyncComponents.later describe entries s event).Agrees describe
        (made ++ (laterRejection entries event).toList) := by
      unfold resolveAsyncComponents.later laterRejection
      split
      · exact AsyncState.agrees_settle describe _ _ _ s made h
      · simpa using h
    have := ih _ _ hstep
    rw [List.append_assoc] at this
    cases hc : laterRejection entries event with
    | none => simpa [List.filterMap_cons, hc] using this
    | some x => simpa [List.filterMap_cons, hc] using this

/-- C14. For every list of records, whatever their async factories do and
whenever their callbacks are called: the step returned by
`resolveAsyncComponents` calls `next` with an error exactly once when a
rejection happens (a call of `reject`, a rejected thenable, a synchronous
throw), and with the error of the first of them, the reason itself if it is an
Error and otherwise a new Error that wraps it; the later rejections call `next`
no further time; without a rejection `next` is called with no error. -/
theorem resolveAsyncComponents_rejects_once (describe : Val → String)
    (factoryOf : Option Component → Option Factory) (matched : List RouteRecord)
    (events : List Settlement) :
    (resolveAsyncComponents.run describe factoryOf matched events).nexts.filter isError =
      (match (rejections (resolveAsyncComponents.entries factoryOf matched) events).head? with
        | some (key, reason) =>
          [if isError reason = true then reason
            else Val.error
              ("Failed to resolve async component " ++ key ++ ": " ++ describe reason)]
        | none => []) := by
  have h := AsyncState.agrees_later describe
    (resolveAsyncComponents.entries factoryOf matched) events _ _
    (AsyncState.agrees_start describe (resolveAsyncComponents.entries factoryOf matched))
  have h1 := h.1
  unfold resolveAsyncComponents.run rejections
  rw [h1]
  cases (syncRejections (resolveAsyncComponents.entries factoryOf matched) ++
      events.filterMap
        (laterRejection (resolveAsyncComponents.entries factoryOf matched))).head? with
  | none => rfl
  | some x => rfl

/-- C15. The step run on a record with two async factories. When both call
`resolve` at once, the step calls `next()` twice: once when the first factory
resolves, before the second factory is even called, and once more when the
second resolves. When the first calls `resolve` at once and the second never
resolves, the step still calls `next()`, with one component resolved out of
two. So `next()` is not called at most once, nor only after all the factories
have resolved. -/
theorem resolveAsyncComponents_eager_next :
    (resolveAsyncComponents.run (fun _ => "") (fun _ => some Scenario.eager)
      [Scenario.recordTwo] []).nexts = [Val.undefined, Val.undefined] ∧
    (resolveAsyncComponents.run (fun _ => "")
      (fun defn => if defn = some Scenario.componentA then some Scenario.eager
        else some Scenario.lazy)
      [Scenario.recordTwo] []).nexts = [Val.undefined] ∧
    (resolveAsyncComponents.run (fun _ => "")
      (fun defn => if defn = some Scenario.componentA then some Scenario.eager
        else some Scenario.lazy)
      [Scenario.recordTwo] []).assigned = [(0, Scenario.componentU)] ∧
    (resolveAsyncComponents.entries
      (fun defn => if defn = some Scenario.componentA then some Scenario.eager
        else some Scenario.lazy)
      [Scenario.recordTwo]).length = 2 := by
  decide

/-! ### The wildcard pass and the consistency of the maps -/

/-- The wildcard loop of `createRouteMap` permutes the path list. -/
theorem createRouteMap.moveWildcards_perm (pathList : List String) :
    (createRouteMap.moveWildcards pathList.length 0 pathList).Perm pathList := by
  rw [createRouteMap.moveWildcards_eq]
  have h1 : List.replicate (pathList.count "*") "*" =
      pathList.filter (fun p => !decide (p ≠ "*")) := by
    rw [← List.filter_eq pathList "*"]
    congr 1
    funext p
    by_cases hp : p = "*" <;> simp [hp]
  rw [h1]
  exact List.filter_append_perm _ _

/-- When no path is listed twice, the wildcards moved to the end are one
wildcard at most. -/
theorem replicate_count_of_nodup (pathList : List String) (h : pathList.Nodup) :
    List.replicate (pathList.count "*") "*" = if "*" ∈ pathList then ["*"] else [] := by
  by_cases hmem : "*" ∈ pathList
  · rw [if_pos hmem, List.count_eq_one_of_mem h hmem]
    rfl
  · rw [if_neg hmem, List.count_eq_zero.mpr hmem]
    rfl

/-- The empty maps are consistent. -/
theorem RouteMap.empty_consistent :
    RouteMap.Consistent RouteMap.empty.pathList RouteMap.empty.pathMap :=
  ⟨List.nodup_nil, fun p => by simp [RouteMap.empty, lookup]⟩

/-- C21. For every list of route configs, the pass of `createRouteMap` that
moves the wildcard is stable: from empty maps, the final `pathList` is the list
of the paths in the order in which `addRouteRecord` inserted them, with "*"
removed, followed by "*" if it was inserted; from any old maps, it is the
inserted paths other than "*" in their order, followed by the wildcards. The
configs `[{ path: "*" }, { path: "/x" }]` are inserted as `["*", "/x"]` and
give `["/x", "*"]`. -/
theorem createRouteMap_wildcard_stable (production : Bool) (routes : List RouteConfig) :
    (createRouteMap production routes none none none).pathList =
      (addedRoutes production routes).pathList.filter (fun p => decide (p ≠ "*")) ++
        (if "*" ∈ (addedRoutes production routes).pathList then ["*"] else []) ∧
    (∀ (oldPathList : Option (List String))
        (oldPathMap oldNameMap : Option (List (String × RouteRecord))),
      (createRouteMap production routes oldPathList oldPathMap oldNameMap).pathList =
        (routes.foldl (fun m route => addRouteRecord production m route none none)
          { pathList := oldPathList.getD [], pathMap := oldPathMap.getD [],
            nameMap := oldNameMap.getD [] }).pathList.filter (fun p => decide (p ≠ "*")) ++
        List.replicate
          ((routes.foldl (fun m route => addRouteRecord production m route none none)
            { pathList := oldPathList.getD [], pathMap := oldPathMap.getD [],
              nameMap := oldNameMap.getD [] }).pathList.count "*") "*") ∧
    (addedRoutes false
      [RouteConfig.mk { path := "*" } [], RouteConfig.mk { path := "/x" } []]).pathList
      = ["*", "/x"] ∧
    (createRouteMap false
      [RouteConfig.mk { path := "*" } [], RouteConfig.mk { path := "/x" } []]
      none none none).pathList = ["/x", "*"] := by
  refine ⟨?_, fun _ _ _ => createRouteMap.moveWildcards_eq _, by decide, by decide⟩
  have hc := createRouteMap_fold_consistent production routes RouteMap.empty
    RouteMap.empty_consistent
  have hpl : (createRouteMap production routes none none none).pathList =
      createRouteMap.moveWildcards (addedRoutes production routes).pathList.length 0
        (addedRoutes production routes).pathList := rfl
  rw [hpl, createRouteMap.moveWildcards_eq]
  congr 1
  exact replicate_count_of_nodup _ hc.1

theorem storeRecord_keyedByPath (m : RouteMap) (r : RouteRecord) (h : m.KeyedByPath) :
    (storeRecord m r).KeyedByPath := by
  unfold storeRecord
  cases hl : lookup r.path m.pathMap with
  | some v => exact h
  | none =>
    intro p r0 hp
    simp only [] at hp
    cases hq : lookup p m.pathMap with
    | some w =>
      rw [lookup_append_some p _ _ w hq] at hp
      exact h p r0 (hq.trans hp)
    | none =>
      rw [lookup_append_none p _ _ hq] at hp
      simp only [lookup] at hp
      by_cases hrp : r.path = p
      · rw [if_pos hrp] at hp
        cases hp
        exact hrp
      · rw [if_neg hrp] at hp
        exact Option.noConfusion hp

theorem registerName_keyedByPath (m : RouteMap) (n : Option String) (r : RouteRecord)
    (h : m.KeyedByPath) : (registerName m n r).KeyedByPath := by
  unfold RouteMap.KeyedByPath
  rw [(registerName_paths m n r).2]
  exact h

theorem storeRecord_of_bound (m : RouteMap) (r : RouteRecord)
    (h : (lookup r.path m.pathMap).isSome = true) : storeRecord m r = m := by
  unfold storeRecord
  cases hl : lookup r.path m.pathMap with
  | some v => rfl
  | none => rw [hl] at h; exact Bool.noConfusion h

/-- C26. For every list of route configs, after `createRouteMap` from empty
maps the `pathList` has no duplicate entries, a path is in `pathList` if and
only if it is a key of `pathMap`, and the record bound to a path has that
path; when several configs normalize to the same path the record kept is the
first one inserted: storing a record under a bound path changes nothing, and a
binding is kept whatever configs are added after it. Of `{ path: "/a" }` and
`{ path: "/a/" }` only the first gets a record. -/
theorem createRouteMap_consistent (production : Bool) (routes : List RouteConfig) :
    (createRouteMap production routes none none none).pathList.Nodup ∧
    (∀ p, p ∈ (createRouteMap production routes none none none).pathList ↔
      (lookup p (createRouteMap production routes none none none).pathMap).isSome = true) ∧
    (∀ p r, lookup p (createRouteMap production routes none none none).pathMap = some r →
      r.path = p) ∧
    (∀ (m : RouteMap) (record : RouteRecord),
      (lookup record.path m.pathMap).isSome = true → storeRecord m record = m) ∧
    (∀ (more : List RouteConfig) p r,
      lookup p (createRouteMap production routes none none none).pathMap = some r →
      lookup p (createRouteMap production (routes ++ more) none none none).pathMap = some r) ∧
    (createRouteMap false
      [RouteConfig.mk { path := "/a", name := some "first" } [],
       RouteConfig.mk { path := "/a/", name := some "second" } []]
      none none none).pathMap =
      [("/a", createRecord { path := "/a", name := some "first" } none none)] := by
  have hc := createRouteMap_fold_consistent production routes RouteMap.empty
    RouteMap.empty_consistent
  have hperm := createRouteMap.moveWildcards_perm (addedRoutes production routes).pathList
  have hpl : (createRouteMap production routes none none none).pathList =
      createRouteMap.moveWildcards (addedRoutes production routes).pathList.length 0
        (addedRoutes production routes).pathList := rfl
  refine ⟨?_, ?_, ?_, storeRecord_of_bound, ?_, by decide⟩
  · rw [hpl]
    exact hperm.nodup_iff.mpr hc.1
  · intro p
    rw [hpl, hperm.mem_iff, createRouteMap_pathMap]
    exact hc.2 p
  · rw [createRouteMap_pathMap]
    exact fold_preserves production RouteMap.KeyedByPath storeRecord_keyedByPath
      registerName_keyedByPath routes RouteMap.empty
      (fun p r h => Option.noConfusion h)
  · intro more p r h
    rw [createRouteMap_pathMap] at h ⊢
    unfold addedRoutes
    rw [List.foldl_append]
    exact createRouteMap_keeps production p r more _ h

/-! ### Post-order of the path list -/

theorem storeRecord_pathList_of_not_mem (m : RouteMap) (r : RouteRecord)
    (hc : RouteMap.Consistent m.pathList m.pathMap) (h : r.path ∉ m.pathList) :
    (storeRecord m r).pathList = m.pathList ++ [r.path] := by
  unfold storeRecord
  cases hl : lookup r.path m.pathMap with
  | some v =>
    exact absurd ((hc.2 r.path).mpr (by rw [hl]; rfl)) h
  | none => rfl

theorem addRouteChildren_consistent (production : Bool) (children : List RouteConfig)
    (m : RouteMap) (record : RouteRecord) (matchAs : Option String)
    (h : RouteMap.Consistent m.pathList m.pathMap) :
    RouteMap.Consistent (addRouteChildren production m children record matchAs).pathList
      (addRouteChildren production m children record matchAs).pathMap :=
  addRouteChildren_preserves production
    (fun m => RouteMap.Consistent m.pathList m.pathMap)
    storeRecord_consistent
    (fun m n r hm => by
      obtain ⟨h1, h2⟩ := registerName_paths m n r
      show RouteMap.Consistent (registerName m n r).pathList (registerName m n r).pathMap
      rw [h1, h2]; exact hm)
    children m record matchAs h

theorem addRouteRecord_consistent (production : Bool) (route : RouteConfig)
    (m : RouteMap) (parent : Option RouteRecord) (matchAs : Option String)
    (h : RouteMap.Consistent m.pathList m.pathMap) :
    RouteMap.Consistent (addRouteRecord production m route parent matchAs).pathList
      (addRouteRecord production m route parent matchAs).pathMap :=
  addRouteRecord_preserves production
    (fun m => RouteMap.Consistent m.pathList m.pathMap)
    storeRecord_consistent
    (fun m n r hm => by
      obtain ⟨h1, h2⟩ := registerName_paths m n r
      show RouteMap.Consistent (registerName m n r).pathList (registerName m n r).pathMap
      rw [h1, h2]; exact hm)
    route m parent matchAs h

theorem nodup_append_left_assoc {l a b : List String} (h : (l ++ (a ++ b)).Nodup) :
    (l ++ a).Nodup := by
  rw [← List.append_assoc] at h
  exact (List.nodup_append.mp h).1

/-- The alias loop appends, for each alias that is not skipped, the paths of
the children under the alias record and the path of the alias record, when
these paths are new and pairwise distinct. -/
theorem aliasSteps_pathList (production : Bool) (route : RouteOptions)
    (children : List RouteConfig) (parent : Option RouteRecord) (matchAs : Option String)
    (hchildren : ∀ (m : RouteMap) (record : RouteRecord) (mAs : Option String),
      RouteMap.Consistent m.pathList m.pathMap →
      (m.pathList ++ RouteConfig.postOrderOfList production children record mAs).Nodup →
      (addRouteChildren production m children record mAs).pathList =
        m.pathList ++ RouteConfig.postOrderOfList production children record mAs)
    (aliases : List String) :
    ∀ (m : RouteMap), RouteMap.Consistent m.pathList m.pathMap →
      (m.pathList ++ (aliases.filter
        (fun aliasPath => !(!production && decide (aliasPath = route.path)))).flatMap
        (fun aliasPath =>
          RouteConfig.postOrderOfList production children
              (addRouteRecord.aliasRecord route parent matchAs aliasPath)
              (some (addRouteRecord.aliasMatchAs route parent matchAs)) ++
            [(addRouteRecord.aliasRecord route parent matchAs aliasPath).path])).Nodup →
      (aliases.foldl (addRouteRecord.aliasStep production route children parent matchAs)
        m).pathList =
        m.pathList ++ (aliases.filter
          (fun aliasPath => !(!production && decide (aliasPath = route.path)))).flatMap
          (fun aliasPath =>
            RouteConfig.postOrderOfList production children
                (addRouteRecord.aliasRecord route parent matchAs aliasPath)
                (some (addRouteRecord.aliasMatchAs route parent matchAs)) ++
              [(addRouteRecord.aliasRecord route parent matchAs aliasPath).path]) := by
  induction aliases with
  | nil => intro m _ _; simp
  | cons a rest ih =>
    intro m hc hnd
    rw [List.foldl_cons]
    by_cases hskip : (!production && decide (a = route.path)) = true
    · have hstep : addRouteRecord.aliasStep production route children parent matchAs m a
          = m := by
        unfold addRouteRecord.aliasStep
        rw [if_pos hskip]
      have hfilter : (a :: rest).filter
          (fun aliasPath => !(!production && decide (aliasPath = route.path))) =
          rest.filter (fun aliasPath => !(!production && decide (aliasPath = route.path))) := by
        rw [List.filter_cons_of_neg]
        simp only [hskip, Bool.not_true]
        exact Bool.false_ne_true
      rw [hstep, hfilter]
      rw [hfilter] at hnd
      exact ih m hc hnd
    · have hstep : addRouteRecord.aliasStep production route children parent matchAs m a
          = storeRecord
            (addRouteChildren production m children
              (addRouteRecord.aliasRecord route parent matchAs a)
              (some (addRouteRecord.aliasMatchAs route parent matchAs)))
            (addRouteRecord.aliasRecord route parent matchAs a) := by
        unfold addRouteRecord.aliasStep
        rw [if_neg hskip]
      have hfilter : (a :: rest).filter
          (fun aliasPath => !(!production && decide (aliasPath = route.path))) =
          a :: rest.filter
            (fun aliasPath => !(!production && decide (aliasPath = route.path))) := by
        rw [List.filter_cons_of_pos]
        rw [Bool.not_eq_true] at hskip
        rw [hskip]
        rfl
      rw [hfilter, List.flatMap_cons] at hnd ⊢
      rw [List.append_assoc] at hnd
      have hnd1 := nodup_append_left_assoc hnd
      have hch := hchildren m _ _ hc hnd1
      have hcc := addRouteChildren_consistent production children m
        (addRouteRecord.aliasRecord route parent matchAs a)
        (some (addRouteRecord.aliasMatchAs route parent matchAs)) hc
      have hnd2 : ((m.pathList ++ RouteConfig.postOrderOfList production children
            (addRouteRecord.aliasRecord route parent matchAs a)
            (some (addRouteRecord.aliasMatchAs route parent matchAs))) ++
          ([(addRouteRecord.aliasRecord route parent matchAs a).path] ++
            (rest.filter
              (fun aliasPath => !(!production && decide (aliasPath = route.path)))).flatMap
              (fun aliasPath =>
                RouteConfig.postOrderOfList production children
                    (addRouteRecord.aliasRecord route parent matchAs aliasPath)
                    (some (addRouteRecord.aliasMatchAs route parent matchAs)) ++
                  [(addRouteRecord.aliasRecord route parent matchAs aliasPath).path]))).Nodup := by
        rw [List.append_assoc]
        exact hnd
      have hnotmem : (addRouteRecord.aliasRecord route parent matchAs a).path ∉
          (addRouteChildren production m children
            (addRouteRecord.aliasRecord route parent matchAs a)
            (some (addRouteRecord.aliasMatchAs route parent matchAs))).pathList := by
        rw [hch]
        intro hmem
        exact (List.nodup_append.mp hnd2).2.2 hmem (List.mem_append_left _ (List.mem_singleton_self _))
      have hst := storeRecord_pathList_of_not_mem _ _ hcc hnotmem
      rw [hch] at hst
      rw [hstep, ih _ (storeRecord_consistent _ _ hcc), hst]
      · simp only [List.append_assoc]
      · rw [hst]
        rw [← List.append_assoc] at hnd2
        exact hnd2

mutual
/-- When the paths of the records of a config are new and pairwise distinct,
`addRouteRecord` appends them to the path list in post-order. -/
theorem addRouteRecord_postOrder (production : Bool) :
    ∀ (route : RouteConfig) (m : RouteMap) (parent : Option RouteRecord)
      (matchAs : Option String),
      RouteMap.Consistent m.pathList m.pathMap →
      (m.pathList ++ route.postOrder production parent matchAs).Nodup →
      (addRouteRecord production m route parent matchAs).pathList =
        m.pathList ++ route.postOrder production parent matchAs
  | RouteConfig.mk route children, m, parent, matchAs, hc, hnd => by
    rw [addRouteRecord_eq, (registerName_paths _ _ _).1]
    rw [RouteConfig.postOrder] at hnd ⊢
    rw [List.append_assoc] at hnd
    have hnd1 := nodup_append_left_assoc hnd
    have hch := addRouteChildren_postOrder production children m
      (createRecord route parent matchAs) matchAs hc hnd1
    have hcc := addRouteChildren_consistent production children m
      (createRecord route parent matchAs) matchAs hc
    rw [← List.append_assoc] at hnd
    have hnotmem : (createRecord route parent matchAs).path ∉
        (addRouteChildren production m children (createRecord route parent matchAs)
          matchAs).pathList := by
      rw [hch]
      intro hmem
      exact (List.nodup_append.mp hnd).2.2 hmem
        (List.mem_append_left _ (List.mem_singleton_self _))
    have hst := storeRecord_pathList_of_not_mem _ _ hcc hnotmem
    rw [hch] at hst
    rw [aliasSteps_pathList production route children parent matchAs
      (fun m record mAs h1 h2 => addRouteChildren_postOrder production children m record mAs h1 h2)
      route.aliases _ (storeRecord_consistent _ _ hcc), hst]
    · simp only [List.append_assoc]
    · rw [hst]
      rw [← List.append_assoc] at hnd
      exact hnd
/-- When the paths of the records of the children are new and pairwise distinct,
the children loop appends them to the path list in post-order. -/
theorem addRouteChildren_postOrder (production : Bool) :
    ∀ (children : List RouteConfig) (m : RouteMap) (record : RouteRecord)
      (matchAs : Option String),
      RouteMap.Consistent m.pathList m.pathMap →
      (m.pathList ++ RouteConfig.postOrderOfList production children record matchAs).Nodup →
      (addRouteChildren production m children record matchAs).pathList =
        m.pathList ++ RouteConfig.postOrderOfList production children record matchAs
  | [], m, record, matchAs, _, _ => by
    rw [addRouteChildren, RouteConfig.postOrderOfList, List.append_nil]
  | child :: rest, m, record, matchAs, hc, hnd => by
    rw [addRouteChildren]
    rw [RouteConfig.postOrderOfList] at hnd ⊢
    have hnd1 := nodup_append_left_assoc hnd
    have h1 := addRouteRecord_postOrder production child m (some record)
      (childMatchAs matchAs child.path) hc hnd1
    have hc1 := addRouteRecord_consistent production child m (some record)
      (childMatchAs matchAs child.path) hc
    rw [addRouteChildren_postOrder production rest _ record matchAs hc1, h1, List.append_assoc]
    rw [h1, List.append_assoc]
    exact hnd
end

theorem createRouteMap_fold_postOrder (production : Bool) (routes : List RouteConfig) :
    ∀ (m : RouteMap), RouteMap.Consistent m.pathList m.pathMap →
      (m.pathList ++ postOrderOfRoutes production routes).Nodup →
      (routes.foldl (fun m route => addRouteRecord production m route none none) m).pathList =
        m.pathList ++ postOrderOfRoutes production routes := by
  induction routes with
  | nil => intro m _ _; simp [postOrderOfRoutes]
  | cons route rest ih =>
    intro m hc hnd
    rw [List.foldl_cons]
    have hpo : postOrderOfRoutes production (route :: rest) =
        route.postOrder production none none ++ postOrderOfRoutes production rest := by
      simp [postOrderOfRoutes]
    rw [hpo] at hnd ⊢
    have h1 := addRouteRecord_postOrder production route m none none hc
      (nodup_append_left_assoc hnd)
    rw [ih _ (addRouteRecord_consistent production route m none none hc), h1,
      List.append_assoc]
    rw [h1, List.append_assoc]
    exact hnd

/-- C27. For every list of trees of route configs whose records have pairwise
distinct normalized paths, none of which is "*", `createRouteMap` from empty
maps lists the paths in post-order: the paths of the children of a record, in
the order in which the children are defined, come before the path of the
record (and the records of an alias follow those of its canonical route in the
same way). The config `{ path: "/a", children: [{ path: "b" }] }` gives
`["/a/b", "/a"]`. -/
theorem createRouteMap_post_order (production : Bool) (routes : List RouteConfig)
    (hdistinct : (postOrderOfRoutes production routes).Nodup)
    (hstar : "*" ∉ postOrderOfRoutes production routes) :
    (createRouteMap production routes none none none).pathList =
      postOrderOfRoutes production routes := by
  have hpl : (createRouteMap production routes none none none).pathList =
      createRouteMap.moveWildcards (addedRoutes production routes).pathList.length 0
        (addedRoutes production routes).pathList := rfl
  have hfold : (addedRoutes production routes).pathList =
      postOrderOfRoutes production routes := by
    have := createRouteMap_fold_postOrder production routes RouteMap.empty
      RouteMap.empty_consistent
      (by simpa [RouteMap.empty] using hdistinct)
    simpa [RouteMap.empty, addedRoutes] using this
  rw [hpl, createRouteMap.moveWildcards_eq, hfold, List.count_eq_zero.mpr hstar]
  simp only [List.replicate_zero, List.append_nil]
  rw [List.filter_eq_self]
  intro p hp
  have : p ≠ "*" := fun h => hstar (h ▸ hp)
  simpa using this

/-- A witness of `createRouteMap_post_order`: the config
`{ path: "/a", children: [{ path: "b" }] }` gives `["/a/b", "/a"]`. -/
theorem createRouteMap_post_order_witness :
    postOrderOfRoutes false
      [RouteConfig.mk { path := "/a" } [RouteConfig.mk { path := "b" } []]] = ["/a/b", "/a"] ∧
    (createRouteMap false
      [RouteConfig.mk { path := "/a" } [RouteConfig.mk { path := "b" } []]]
      none none none).pathList = ["/a/b", "/a"] :=
  ⟨by decide,
    (createRouteMap_post_order false
      [RouteConfig.mk { path := "/a" } [RouteConfig.mk { path := "b" } []]]
      (by decide) (by decide)).trans (by decide)⟩

/-! ### `registerHook` -/

theorem indexOf_ge {α : Type} [DecidableEq α] (fn : α) (list : List α) :
    -1 ≤ indexOf list fn := by
  induction list with
  | nil => simp [indexOf]
  | cons x rest ih =>
    simp only [indexOf]
    split
    · omega
    · split <;> omega

/-- The thunk removes the first occurrence of `fn`, if there is one. -/
theorem registerHook.unregister_eq_erase {α : Type} [DecidableEq α] (fn : α) (list : List α) :
    registerHook.unregister fn list = list.erase fn := by
  induction list with
  | nil => simp [registerHook.unregister, indexOf]
  | cons x rest ih =>
    unfold registerHook.unregister at ih ⊢
    simp only [indexOf]
    by_cases hx : x = fn
    · subst hx
      simp
    · rw [if_neg hx]
      have hne : (x == fn) = false := by simpa using hx
      rw [List.erase_cons, hne]
      simp only [] at ih ⊢
      by_cases hi : indexOf rest fn > -1
      · rw [if_pos hi] at ih ⊢
        have hpos : indexOf rest fn + 1 > -1 := by omega
        rw [if_pos hpos]
        have hnat : (indexOf rest fn + 1).toNat = (indexOf rest fn).toNat + 1 := by omega
        rw [hnat, List.eraseIdx_cons_succ, ih]
        rfl
      · rw [if_neg hi] at ih ⊢
        simp only [gt_iff_lt, lt_self_iff_false, if_false]
        rw [← ih]
        rfl

/-- C24. For every hook list `L` (`beforeHooks`, `resolveHooks` or
`afterHooks`) and every function `fn` that `L` does not hold already,
`registerHook` appends `fn` to the end of `L` and returns a thunk such that
invoking the thunk once restores the list to exactly its contents before the
registration, invoking it again changes nothing further, and hooks registered
in between are kept in their order. -/
theorem registerHook_unregister {α : Type} [DecidableEq α] (list : List α) (fn : α)
    (hnew : fn ∉ list) :
    (registerHook list fn).1 = list ++ [fn] ∧
    (registerHook list fn).2 (registerHook list fn).1 = list ∧
    (registerHook list fn).2 ((registerHook list fn).2 (registerHook list fn).1) = list ∧
    (∀ later : List α,
      (registerHook list fn).2 ((registerHook list fn).1 ++ later) = list ++ later) := by
  have h1 : (list ++ [fn]).erase fn = list := by
    rw [List.erase_append_right _ hnew]
    simp
  refine ⟨rfl, ?_, ?_, ?_⟩
  · show registerHook.unregister fn (list ++ [fn]) = list
    rw [registerHook.unregister_eq_erase, h1]
  · show registerHook.unregister fn (registerHook.unregister fn (list ++ [fn])) = list
    rw [registerHook.unregister_eq_erase, registerHook.unregister_eq_erase, h1,
      List.erase_of_not_mem hnew]
  · intro later
    show registerHook.unregister fn (list ++ [fn] ++ later) = list ++ later
    rw [registerHook.unregister_eq_erase, List.append_assoc, List.erase_append_right _ hnew]
    simp

/-- A witness of `registerHook_unregister`: a third guard is registered after
two others and unregistered. -/
theorem registerHook_unregister_witness :
    (registerHook [some (Guard.mk 1), some (Guard.mk 2)] (some (Guard.mk 3))).2
      (registerHook [some (Guard.mk 1), some (Guard.mk 2)] (some (Guard.mk 3))).1 =
      [some (Guard.mk 1), some (Guard.mk 2)] :=
  (registerHook_unregister [some (Guard.mk 1), some (Guard.mk 2)] (some (Guard.mk 3))
    (by decide)).2.1

/-- A counterexample to C24 as stated: when the first of two hooks is registered
a second time, the thunk removes its first occurrence, so the list is not
restored to the order it had, and a second invocation removes the other
occurrence. -/
theorem registerHook_twice_reorders :
    (registerHook [some (Guard.mk 1), some (Guard.mk 2)] (some (Guard.mk 1))).1 =
      [some (Guard.mk 1), some (Guard.mk 2), some (Guard.mk 1)] ∧
    (registerHook [some (Guard.mk 1), some (Guard.mk 2)] (some (Guard.mk 1))).2
      (registerHook [some (Guard.mk 1), some (Guard.mk 2)] (some (Guard.mk 1))).1 =
      [some (Guard.mk 2), some (Guard.mk 1)] ∧
    (registerHook [some (Guard.mk 1), some (Guard.mk 2)] (some (Guard.mk 1))).2
      ((registerHook [some (Guard.mk 1), some (Guard.mk 2)] (some (Guard.mk 1))).2
        (registerHook [some (Guard.mk 1), some (Guard.mk 2)] (some (Guard.mk 1))).1) =
      [some (Guard.mk 2)] := by
  decide

/-! ### `normalizeBase` -/

theorem stripTrailingSlash_mk_concat (front : List Char) (c : Char) :
    stripTrailingSlash (String.mk (front ++ [c])) =
      if c = '/' then String.mk front else String.mk (front ++ [c]) := by
  rw [stripTrailingSlash_eq]
  simp only [List.getLast?_append, List.getLast?_singleton, List.dropLast_concat]
  have hor : (some c).or front.getLast? = some c := rfl
  rw [hor]
  by_cases hslash : c = '/'
  · rw [if_pos hslash, if_pos (by rw [hslash])]
  · rw [if_neg hslash, if_neg (by simpa using hslash)]

theorem normalizeBase_of_nonempty (inBrowser : Bool) (baseHref : Option String)
    (base : String) (hne : base ≠ "") :
    normalizeBase inBrowser baseHref (some base) =
      stripTrailingSlash (if base.data.head? = some '/' then base else "/" ++ base) := by
  unfold normalizeBase
  simp only [if_neg hne]
  by_cases hh : base.data.head? = some '/'
  · simp [hh]
  · simp [hh]

/-- C22. For every non-empty base string, `normalizeBase` returns the base with
"/" put in front when it does not start with "/" and with one trailing "/"
removed: the result is the empty string or starts with "/", and it ends with
"/" exactly when the base ends with "//". -/
theorem normalizeBase_normalized (inBrowser : Bool) (baseHref : Option String)
    (base : String) (hne : base ≠ "") :
    normalizeBase inBrowser baseHref (some base) =
      stripTrailingSlash (if base.data.head? = some '/' then base else "/" ++ base) ∧
    (normalizeBase inBrowser baseHref (some base) = "" ∨
      (normalizeBase inBrowser baseHref (some base)).data.head? = some '/') ∧
    ((normalizeBase inBrowser baseHref (some base)).data.getLast? = some '/' ↔
      endsWithTwoSlashes base = true) := by
  refine ⟨normalizeBase_of_nonempty inBrowser baseHref base hne, ?_⟩
  rw [normalizeBase_of_nonempty inBrowser baseHref base hne]
  obtain ⟨l⟩ := base
  have hl : l ≠ [] := fun h => hne (by rw [h])
  rcases List.eq_nil_or_concat l with hnil | ⟨front, c, hc⟩
  · exact absurd hnil hl
  rw [List.concat_eq_append] at hc
  subst hc
  have hpre : ("/" ++ String.mk (front ++ [c])) = String.mk (('/' :: front) ++ [c]) := rfl
  have hends : endsWithTwoSlashes (String.mk (front ++ [c])) =
      (decide (c = '/') && decide (front.getLast? = some '/')) := by
    unfold endsWithTwoSlashes
    rcases List.eq_nil_or_concat front with hnil | ⟨f2, d, hd⟩
    · subst hnil
      by_cases hc : c = '/'
      · subst hc; rfl
      · simp only [List.nil_append, List.reverse_cons, List.reverse_nil]
        simp [hc]
    · rw [List.concat_eq_append] at hd
      subst hd
      simp only [List.reverse_append, List.reverse_cons, List.reverse_nil, List.nil_append,
        List.singleton_append, List.getLast?_append, List.getLast?_singleton, List.cons_append]
      have hor : (some d).or f2.getLast? = some d := rfl
      rw [hor]
      by_cases hc : c = '/'
      · subst hc
        by_cases hd : d = '/'
        · subst hd; rfl
        · simp [hd]
      · simp [hc]
  rw [hends]
  by_cases hh : (String.mk (front ++ [c])).data.head? = some '/'
  · rw [if_pos hh, stripTrailingSlash_mk_concat]
    by_cases hc : c = '/'
    · subst hc
      simp only [if_true]
      rcases List.eq_nil_or_concat front with hnil | ⟨f2, d, hd⟩
      · subst hnil
        exact ⟨Or.inl rfl, by simp⟩
      · rw [List.concat_eq_append] at hd
        subst hd
        refine ⟨Or.inr ?_, by simp⟩
        cases f2 with
        | nil => simpa using hh
        | cons x xs => simpa using hh
    · rw [if_neg hc]
      refine ⟨Or.inr hh, ?_⟩
      simp [hc]
  · rw [if_neg hh, hpre, stripTrailingSlash_mk_concat]
    by_cases hc : c = '/'
    · subst hc
      simp only [if_true]
      refine ⟨Or.inr rfl, ?_⟩
      rcases List.eq_nil_or_concat front with hnil | ⟨f2, d, hd⟩
      · subst hnil
        exact absurd rfl hh
      · rw [List.concat_eq_append] at hd
        subst hd
        rw [← List.cons_append, List.getLast?_append, List.getLast?_singleton]
        simp
    · rw [if_neg hc]
      refine ⟨Or.inr rfl, ?_⟩
      show (('/' :: front) ++ [c]).getLast? = some '/' ↔ _
      rw [List.getLast?_append, List.getLast?_singleton]
      simp [hc]

/-- A witness of `normalizeBase_normalized`: the base "app/" is normalized to
"/app". -/
theorem normalizeBase_normalized_witness :
    "app/" ≠ "" ∧ normalizeBase false none (some "app/") = "/app" ∧
    ((normalizeBase false none (some "app/")).data.getLast? = some '/' ↔
      endsWithTwoSlashes "app/" = true) :=
  ⟨by decide, by decide, (normalizeBase_normalized false none "app/" (by decide)).2.2⟩

/-- A counterexample to C22 as stated: the base "/app//" is not empty and
`normalizeBase` returns "/app/", which is not empty and ends with "/". -/
theorem normalizeBase_keeps_trailing_slash :
    "/app//" ≠ "" ∧ normalizeBase false none (some "/app//") = "/app/" ∧
    ¬ (normalizeBase false none (some "/app//") = "" ∨
      ((normalizeBase false none (some "/app//")).data.head? = some '/' ∧
        (normalizeBase false none (some "/app//")).data.getLast? ≠ some '/')) := by
  decide

/-! ### `createHref` -/

theorem cleanPathChars_slash_slash (rest : List Char) :
    cleanPathChars ('/' :: '/' :: rest) = '/' :: cleanPathChars rest := by
  rw [cleanPathChars]

theorem cleanPathChars_cons_of_ne (c : Char) (rest : List Char) (h : c ≠ '/') :
    cleanPathChars (c :: rest) = c :: cleanPathChars rest := by
  rw [cleanPathChars]
  intro r hr
  exact absurd hr h

theorem cleanPathChars_slash_cons_of_ne (d : Char) (rest : List Char) (h : d ≠ '/') :
    cleanPathChars ('/' :: d :: rest) = '/' :: cleanPathChars (d :: rest) := by
  rw [cleanPathChars]
  intro r _ h2
  injection h2 with h3 _
  exact h h3

theorem hasDoubleSlash_cons_of_ne (c : Char) (rest : List Char) (h : c ≠ '/') :
    hasDoubleSlash (c :: rest) = hasDoubleSlash rest := by
  rw [hasDoubleSlash]
  intro r hr
  exact absurd hr h

theorem hasDoubleSlash_slash_cons_of_ne (d : Char) (rest : List Char) (h : d ≠ '/') :
    hasDoubleSlash ('/' :: d :: rest) = hasDoubleSlash (d :: rest) := by
  rw [hasDoubleSlash]
  intro r _ h2
  injection h2 with h3 _
  exact h h3

/-- The step of an induction over characters that hold no "//": the list is
empty, or begins with a character other than "/", or is "/" alone, or is "/"
followed by a character other than "/". -/
theorem hasDoubleSlash_cases (l : List Char) (h : hasDoubleSlash l = false) :
    l = [] ∨ (∃ c rest, l = c :: rest ∧ c ≠ '/' ∧ hasDoubleSlash rest = false) ∨
      l = ['/'] ∨
      ∃ d rest, l = '/' :: d :: rest ∧ d ≠ '/' ∧ hasDoubleSlash (d :: rest) = false := by
  cases l with
  | nil => exact Or.inl rfl
  | cons c rest =>
    by_cases hc : c = '/'
    · subst hc
      cases rest with
      | nil => exact Or.inr (Or.inr (Or.inl rfl))
      | cons d rest2 =>
        by_cases hd : d = '/'
        · subst hd
          rw [hasDoubleSlash] at h
          exact Bool.noConfusion h
        · rw [hasDoubleSlash_slash_cons_of_ne d rest2 hd] at h
          exact Or.inr (Or.inr (Or.inr ⟨d, rest2, rfl, hd, h⟩))
    · rw [hasDoubleSlash_cons_of_ne c rest hc] at h
      exact Or.inr (Or.inl ⟨c, rest, rfl, hc, h⟩)

/-- Characters without "//" are left as they are by `cleanPath`. -/
theorem cleanPathChars_of_no_double_slash :
    ∀ (n : Nat) (l : List Char), l.length ≤ n → hasDoubleSlash l = false →
      cleanPathChars l = l := by
  intro n
  induction n with
  | zero =>
    intro l hlen _
    have : l = [] := List.length_eq_zero.mp (Nat.le_zero.mp hlen)
    subst this
    rfl
  | succ n ih =>
    intro l hlen h
    rcases hasDoubleSlash_cases l h with hnil | ⟨c, rest, hl, hc, hrest⟩ | hone |
      ⟨d, rest, hl, hd, hrest⟩
    · subst hnil; rfl
    · subst hl
      rw [cleanPathChars_cons_of_ne c rest hc, ih rest (by simpa using hlen) hrest]
    · subst hone; decide
    · subst hl
      rw [cleanPathChars_slash_cons_of_ne d rest hd,
        ih (d :: rest) (by simp at hlen ⊢; omega) hrest]

/-- After characters without "//" that do not end in "/", `cleanPath` goes on
as from the start. -/
theorem cleanPathChars_append :
    ∀ (n : Nat) (a : List Char), a.length ≤ n → hasDoubleSlash a = false →
      a.getLast? ≠ some '/' → ∀ rest : List Char,
      cleanPathChars (a ++ rest) = a ++ cleanPathChars rest := by
  intro n
  induction n with
  | zero =>
    intro a hlen _ _ rest
    have : a = [] := List.length_eq_zero.mp (Nat.le_zero.mp hlen)
    subst this
    rfl
  | succ n ih =>
    intro a hlen h hlast rest
    rcases hasDoubleSlash_cases a h with hnil | ⟨c, a2, hl, hc, ha2⟩ | hone |
      ⟨d, a2, hl, hd, ha2⟩
    · subst hnil; rfl
    · subst hl
      have hlast2 : a2.getLast? ≠ some '/' := by
        cases a2 with
        | nil => simp
        | cons x xs => simpa [List.getLast?_cons_cons] using hlast
      rw [List.cons_append, cleanPathChars_cons_of_ne c _ hc,
        ih a2 (by simpa using hlen) ha2 hlast2 rest]
      rfl
    · subst hone
      exact absurd rfl hlast
    · subst hl
      have hlast2 : (d :: a2).getLast? ≠ some '/' := by
        simpa [List.getLast?_cons_cons] using hlast
      rw [List.cons_append, List.cons_append, cleanPathChars_slash_cons_of_ne d _ hd,
        ← List.cons_append, ih (d :: a2) (by simp at hlen ⊢; omega) ha2 hlast2 rest]
      rfl

theorem createHref_of_empty (fullPath mode : String) :
    createHref "" fullPath mode = if mode = "hash" then "#" ++ fullPath else fullPath := by
  unfold createHref
  simp

/-- C23. For every normalized base ("" or "/..." without trailing slash) and
every `fullPath` that starts with "/", neither of which holds "//", the href
computed by `createHref` is: in hash mode `"#" + fullPath` when the base is
empty and `base + "/#" + fullPath` otherwise; in any other mode
`base + fullPath`. -/
theorem createHref_spec (base fullPath mode : String)
    (hbase : base = "" ∨ (base.data.head? = some '/' ∧ base.data.getLast? ≠ some '/'))
    (hfull : fullPath.data.head? = some '/')
    (hb : hasDoubleSlash base.data = false) (hf : hasDoubleSlash fullPath.data = false) :
    createHref base fullPath mode =
      if mode = "hash" then
        (if base = "" then "#" ++ fullPath else base ++ "/#" ++ fullPath)
      else base ++ fullPath := by
  obtain ⟨b⟩ := base
  obtain ⟨f⟩ := fullPath
  simp only [] at hfull hb hf
  by_cases hempty : String.mk b = ""
  · rw [hempty, createHref_of_empty]
    by_cases hm : mode = "hash"
    · simp [hm]
    · rw [if_neg hm, if_neg hm]
      show String.mk f = String.mk ([] ++ f)
      rfl
  · have hlast : b.getLast? ≠ some '/' := by
      rcases hbase with h | h
      · exact absurd h hempty
      · exact h.2
    have hsame : cleanPathChars f = f :=
      cleanPathChars_of_no_double_slash f.length f (le_refl _) hf
    cases f with
    | nil => simp at hfull
    | cons c f2 =>
      have hc : c = '/' := by simpa using hfull
      subst hc
      unfold createHref
      simp only [ne_eq, hempty, not_false_eq_true, if_true]
      by_cases hm : mode = "hash"
      · simp only [hm, if_true]
        show String.mk (cleanPathChars (b ++ ['/'] ++ ('#' :: '/' :: f2))) =
          String.mk (b ++ ['/', '#'] ++ ('/' :: f2))
        rw [List.append_assoc, cleanPathChars_append b.length b (le_refl _) hb hlast]
        have h1 : cleanPathChars (['/'] ++ '#' :: '/' :: f2) =
            '/' :: '#' :: cleanPathChars ('/' :: f2) := by
          show cleanPathChars ('/' :: '#' :: '/' :: f2) = _
          rw [cleanPathChars_slash_cons_of_ne '#' _ (by decide),
            cleanPathChars_cons_of_ne '#' _ (by decide)]
        rw [h1, hsame]
        simp
      · simp only [hm, if_false]
        show String.mk (cleanPathChars (b ++ ['/'] ++ ('/' :: f2))) =
          String.mk (b ++ ('/' :: f2))
        rw [List.append_assoc, cleanPathChars_append b.length b (le_refl _) hb hlast]
        have h1 : cleanPathChars (['/'] ++ '/' :: f2) = '/' :: cleanPathChars f2 := by
          show cleanPathChars ('/' :: '/' :: f2) = _
          rw [cleanPathChars_slash_slash]
        have hf2 : cleanPathChars f2 = f2 := by
          cases f2 with
          | nil => rfl
          | cons d f3 =>
            have hd : d ≠ '/' := by
              intro hd
              subst hd
              rw [hasDoubleSlash] at hf
              exact Bool.noConfusion hf
            rw [cleanPathChars_slash_cons_of_ne d f3 hd] at hsame
            injection hsame
        rw [h1, hf2]

/-- A witness of `createHref_spec`: the base "/app" and the path "/foo" in hash
mode and in history mode. -/
theorem createHref_spec_witness :
    createHref "/app" "/foo" "hash" = "/app/#/foo" ∧
    createHref "/app" "/foo" "history" = "/app/foo" :=
  ⟨(createHref_spec "/app" "/foo" "hash" (Or.inr (by decide)) (by decide) (by decide)
      (by decide)).trans (by decide),
   (createHref_spec "/app" "/foo" "history" (Or.inr (by decide)) (by decide) (by decide)
      (by decide)).trans (by decide)⟩

/-- A counterexample to C23 as stated: in hash mode with the base "/app" the
href is "/app/#/foo" and not "/app#/foo"; in history mode a "//" inside the
path is collapsed, so the href is not `base + fullPath`. -/
theorem createHref_hash_inserts_slash :
    createHref "/app" "/foo" "hash" = "/app/#/foo" ∧
    createHref "/app" "/foo" "hash" ≠ "/app" ++ "#" ++ "/foo" ∧
    createHref "/app" "/a//b" "history" = "/app/a/b" ∧
    createHref "/app" "/a//b" "history" ≠ "/app" ++ "/a//b" := by
  decide

/-! ### Ready callbacks -/

theorem readyCalls_append (a b : List Event) :
    readyCalls (a ++ b) = readyCalls a ++ readyCalls b := by
  simp [readyCalls]

theorem readyCalls_cons (e : Event) (log : List Event) :
    readyCalls (e :: log) = (if e.isReadyCall then [e] else []) ++ readyCalls log := by
  unfold readyCalls
  cases he : e.isReadyCall <;> simp [List.filter_cons, he]

theorem readyCalls_nil : readyCalls [] = [] := rfl

theorem readyCalls_map_readyCb (cbs : List Callback) (route : Route) :
    readyCalls (cbs.map (fun cb => Event.readyCb cb route)) =
      cbs.map (fun cb => Event.readyCb cb route) := by
  induction cbs with
  | nil => rfl
  | cons c rest ih =>
    have := readyCalls_append [Event.readyCb c route]
      (rest.map (fun cb => Event.readyCb cb route))
    simp only [List.singleton_append] at this
    rw [List.map_cons, this, ih]
    rfl

theorem readyCalls_map_readyErrorCb (cbs : List Callback) (err : Val) :
    readyCalls (cbs.map (fun cb => Event.readyErrorCb cb err)) =
      cbs.map (fun cb => Event.readyErrorCb cb err) := by
  induction cbs with
  | nil => rfl
  | cons c rest ih =>
    have := readyCalls_append [Event.readyErrorCb c err]
      (rest.map (fun cb => Event.readyErrorCb cb err))
    simp only [List.singleton_append] at this
    rw [List.map_cons, this, ih]
    rfl

theorem readyCalls_map_afterHook (cbs : List Callback) (route prev : Route) :
    readyCalls (cbs.map (fun cb => Event.afterHook cb route prev)) = [] := by
  induction cbs with
  | nil => rfl
  | cons c rest ih =>
    have := readyCalls_append [Event.afterHook c route prev]
      (rest.map (fun cb => Event.afterHook cb route prev))
    simp only [List.singleton_append] at this
    rw [List.map_cons, this, ih]
    rfl

/-- What one outcome does to the ready flag, to the two lists and to the calls
of their callbacks. -/
theorem Outcome.run_ready (o : Outcome) (h : History) :
    (o.run h).ready = (h.ready || o.settles) ∧
    (o.run h).readyCbs = h.readyCbs ∧
    (o.run h).readyErrorCbs = h.readyErrorCbs ∧
    readyCalls (o.run h).log =
      readyCalls h.log ++ (if h.ready || !o.settles then [] else o.readyEvents h) := by
  cases o with
  | confirmed route onComplete =>
    unfold Outcome.run transitionTo.onComplete updateRoute
    simp only []
    rw [foldl_emit_defined (fun cb => Event.afterHook cb route h.current) _
      (fun _ _ => rfl) (fun _ => rfl)]
    simp only [foldl_emit]
    cases hcb : h.cb <;> cases onComplete <;> cases hr : h.ready <;>
      simp [History.emit, hr, Outcome.settles, Outcome.readyEvents, readyCalls_append,
        readyCalls_map_readyCb, readyCalls_map_afterHook, readyCalls_cons, readyCalls_nil,
        Event.isReadyCall]
  | aborted route onAbort err =>
    unfold Outcome.run transitionTo.onAbort
    simp only [foldl_emit]
    cases onAbort <;> cases ht : err.truthy <;> cases hr : h.ready <;>
      cases hn : isNavigationFailure err (some NavigationFailureType.redirected) <;>
      simp [History.emit, hr, ht, hn, Outcome.settles, Outcome.readyEvents, readyCalls_append,
        readyCalls_map_readyCb, readyCalls_map_readyErrorCb, readyCalls_cons, readyCalls_nil,
        Event.isReadyCall]

/-- On a history that is ready, a sequence of outcomes fires no callback of
the two lists. -/
theorem outcomes_ready (outcomes : List Outcome) :
    ∀ (h : History), h.ready = true →
      (outcomes.foldl (fun s o => o.run s) h).ready = true ∧
      readyCalls (outcomes.foldl (fun s o => o.run s) h).log = readyCalls h.log := by
  induction outcomes with
  | nil => intro h hr; exact ⟨hr, rfl⟩
  | cons o rest ih =>
    intro h hr
    rw [List.foldl_cons]
    obtain ⟨h1, _, _, h4⟩ := Outcome.run_ready o h
    rw [hr] at h1 h4
    obtain ⟨h5, h6⟩ := ih (o.run h) (by rw [h1]; rfl)
    refine ⟨h5, ?_⟩
    rw [h6, h4]
    simp

/-- C25. Over every sequence of transition outcomes (confirmations and aborts,
in any order) on one history, the ready callbacks and the ready-error
callbacks are fired at most once in total: the history is ready afterwards
exactly when it was ready before or some outcome is a confirmation or an abort
with a truthy failure; on a history that was not ready, the calls of these
callbacks are those of exactly one of the two lists, made by the first such
outcome; and on a history that is ready no callback of either list is
called. -/
theorem ready_callbacks_fire_once (outcomes : List Outcome) (h : History) :
    (outcomes.foldl (fun s o => o.run s) h).ready = (h.ready || outcomes.any Outcome.settles) ∧
    readyCalls (outcomes.foldl (fun s o => o.run s) h).log =
      readyCalls h.log ++
        (if h.ready then []
         else
          match outcomes.find? Outcome.settles with
          | some o => o.readyEvents h
          | none => []) ∧
    (h.ready = true →
      readyCalls (outcomes.foldl (fun s o => o.run s) h).log = readyCalls h.log) := by
  refine ⟨?_, ?_, fun hr => (outcomes_ready outcomes h hr).2⟩
  · induction outcomes generalizing h with
    | nil => simp
    | cons o rest ih =>
      rw [List.foldl_cons, ih (o.run h), (Outcome.run_ready o h).1, List.any_cons,
        Bool.or_assoc]
  · induction outcomes generalizing h with
    | nil => simp
    | cons o rest ih =>
      rw [List.foldl_cons]
      obtain ⟨h1, h2, h3, h4⟩ := Outcome.run_ready o h
      cases hr : h.ready with
      | true =>
        rw [(outcomes_ready rest (o.run h) (by rw [h1, hr]; rfl)).2, h4, hr]
        simp
      | false =>
        rw [hr] at h1 h4
        cases hs : o.settles with
        | true =>
          rw [hs] at h1 h4
          rw [(outcomes_ready rest (o.run h) (by rw [h1]; rfl)).2, h4,
            List.find?_cons_of_pos _ hs]
          simp
        | false =>
          rw [hs] at h1 h4
          have hrun : (o.run h).ready = false := by rw [h1]; rfl
          rw [ih (o.run h), h4, hrun, List.find?_cons_of_neg _ (by simp [hs])]
          simp only [Bool.false_or, Bool.not_false, if_true, List.append_nil,
            Bool.false_eq_true, if_false]
          congr 1
          cases hfind : rest.find? Outcome.settles with
          | none => rfl
          | some o2 =>
            cases o2 with
            | confirmed route cb => simp only [Outcome.readyEvents, h2]
            | aborted route cb err => simp only [Outcome.readyEvents, h2, h3]

/-! ### Bound guards -/

theorem mem_flatten {β : Type} (x : β) (slots : List (Slot β)) :
    x ∈ flatten slots ↔
      ∃ s, s ∈ slots ∧ (s = Slot.item x ∨ ∃ bs, s = Slot.array bs ∧ x ∈ bs) := by
  induction slots with
  | nil => simp [flatten]
  | cons s rest ih =>
    cases s with
    | item b =>
      simp only [flatten, List.mem_cons, ih]
      constructor
      · rintro (h | ⟨s, hs, h⟩)
        · exact ⟨Slot.item b, Or.inl rfl, Or.inl (by rw [h])⟩
        · exact ⟨s, Or.inr hs, h⟩
      · rintro ⟨s, hs | hs, h⟩
        · subst hs
          rcases h with h | ⟨bs, h, _⟩
          · injection h with h
            exact Or.inl h.symm
          · exact Slot.noConfusion h
        · exact Or.inr ⟨s, hs, h⟩
    | array bs =>
      simp only [flatten, List.mem_append, List.mem_cons, ih]
      constructor
      · rintro (h | ⟨s, hs, h⟩)
        · exact ⟨Slot.array bs, Or.inl rfl, Or.inr ⟨bs, rfl, h⟩⟩
        · exact ⟨s, Or.inr hs, h⟩
      · rintro ⟨s, hs | hs, h⟩
        · subst hs
          rcases h with h | ⟨cs, h, hx⟩
          · exact Slot.noConfusion h
          · injection h with h
            exact Or.inl (h ▸ hx)
        · exact Or.inr ⟨s, hs, h⟩

theorem mem_flatMapComponents {β : Type} (x : β) (matched : List RouteRecord)
    (fn : Option Component → Option InstanceSlot → RouteRecord → String → β) :
    x ∈ flatMapComponents matched fn ↔
      ∃ m, m ∈ matched ∧ ∃ entry, entry ∈ m.components ∧
        x = fn entry.2 (m.instanceAt entry.1) m entry.1 := by
  unfold flatMapComponents
  rw [mem_flatten]
  constructor
  · rintro ⟨s, hs, h⟩
    obtain ⟨m, hm, rfl⟩ := List.mem_map.mp hs
    rcases h with h | ⟨bs, h, hx⟩
    · exact Slot.noConfusion h
    · injection h with h
      subst h
      obtain ⟨entry, he, rfl⟩ := List.mem_map.mp hx
      exact ⟨m, hm, entry, he, rfl⟩
  · rintro ⟨m, hm, entry, he, rfl⟩
    exact ⟨_, List.mem_map.mpr ⟨m, hm, rfl⟩, Or.inr ⟨_, rfl, List.mem_map.mpr ⟨entry, he, rfl⟩⟩⟩

/-- The entries of the queue that `extractGuards` builds with `bindGuard`: an
entry is in the queue exactly when some outlet of some record yields it. -/
theorem mem_extractGuards (e : Option Hook) (records : List RouteRecord) (name : GuardName)
    (bind : Guard → Option InstanceSlot → RouteRecord → String → Option Hook) (reverse : Bool) :
    e ∈ extractGuards records name bind reverse ↔
      ∃ m, m ∈ records ∧ ∃ entry, entry ∈ m.components ∧
        ((extractGuard entry.2 name = GuardOption.absent ∧ e = none) ∨
          ∃ g, g ∈ (extractGuard entry.2 name).guards ∧
            e = bind g (m.instanceAt entry.1) m entry.1) := by
  unfold extractGuards
  simp only []
  have hrev : ∀ slots : List (Slot (Option Hook)),
      (e ∈ flatten (if reverse = true then slots.reverse else slots)) ↔ e ∈ flatten slots := by
    intro slots
    cases reverse with
    | false => simp
    | true =>
      simp only [if_true]
      rw [mem_flatten, mem_flatten]
      simp only [List.mem_reverse]
  rw [hrev, mem_flatten]
  constructor
  · rintro ⟨s, hs, h⟩
    obtain ⟨m, hm, entry, he, rfl⟩ := (mem_flatMapComponents _ _ _).mp hs
    refine ⟨m, hm, entry, he, ?_⟩
    cases hg : extractGuard entry.2 name with
    | absent =>
      rw [hg] at h
      simp only [] at h
      rcases h with h | ⟨bs, h, _⟩
      · injection h with h
        exact Or.inl ⟨rfl, h.symm⟩
      · exact Slot.noConfusion h
    | single g =>
      rw [hg] at h
      simp only [] at h
      rcases h with h | ⟨bs, h, _⟩
      · injection h with h
        exact Or.inr ⟨g, List.mem_singleton_self g, h.symm⟩
      · exact Slot.noConfusion h
    | array gs =>
      rw [hg] at h
      simp only [] at h
      rcases h with h | ⟨bs, h, hx⟩
      · exact Slot.noConfusion h
      · injection h with h
        subst h
        obtain ⟨g, hgm, rfl⟩ := List.mem_map.mp hx
        exact Or.inr ⟨g, hgm, rfl⟩
  · rintro ⟨m, hm, entry, he, h⟩
    refine ⟨_, (mem_flatMapComponents _ _ _).mpr ⟨m, hm, entry, he, rfl⟩, ?_⟩
    cases hg : extractGuard entry.2 name with
    | absent =>
      rw [hg] at h
      simp only []
      rcases h with ⟨_, h⟩ | ⟨g, hgm, _⟩
      · exact Or.inl (by rw [h])
      · exact absurd hgm (List.not_mem_nil g)
    | single g0 =>
      rw [hg] at h
      simp only []
      rcases h with ⟨h, _⟩ | ⟨g, hgm, h⟩
      · exact GuardOption.noConfusion h
      · have : g = g0 := List.mem_singleton.mp hgm
        subst this
        exact Or.inl (by rw [h])
    | array gs =>
      rw [hg] at h
      simp only []
      rcases h with ⟨h, _⟩ | ⟨g, hgm, h⟩
      · exact GuardOption.noConfusion h
      · exact Or.inr ⟨_, rfl, List.mem_map.mpr ⟨g, hgm, h.symm⟩⟩

/-- A bound guard is in the queue exactly when an outlet with a registered
instance declares the guard. -/
theorem mem_extractGuards_bound (records : List RouteRecord) (name : GuardName)
    (reverse : Bool) (g : Guard) (inst : InstanceSlot) :
    some (Hook.boundRouteGuard g inst) ∈ extractGuards records name bindGuard reverse ↔
      ∃ m, m ∈ records ∧ m.HasBoundGuard name g inst := by
  rw [mem_extractGuards]
  constructor
  · rintro ⟨m, hm, entry, he, ⟨_, h⟩ | ⟨g2, hg2, h⟩⟩
    · exact Option.noConfusion h
    · refine ⟨m, hm, entry, he, ?_⟩
      cases hl : m.instanceAt entry.1 with
      | none =>
        rw [hl] at h
        exact Option.noConfusion h
      | some i =>
        rw [hl] at h
        simp only [bindGuard] at h
        injection h with h
        injection h with h1 h2
        subst h1 h2
        exact ⟨rfl, hg2⟩
  · rintro ⟨m, hm, entry, he, hl, hg⟩
    refine ⟨m, hm, entry, he, Or.inr ⟨g, hg, ?_⟩⟩
    rw [hl]
    rfl

/-- Every entry of the queue is `undefined` or a bound guard. -/
theorem extractGuards_entries (records : List RouteRecord) (name : GuardName)
    (reverse : Bool) (e : Option Hook)
    (he : e ∈ extractGuards records name bindGuard reverse) :
    e = none ∨ ∃ g inst, e = some (Hook.boundRouteGuard g inst) := by
  obtain ⟨m, _, entry, _, ⟨_, h⟩ | ⟨g, _, h⟩⟩ := (mem_extractGuards _ _ _ _ _).mp he
  · exact Or.inl h
  · cases hl : m.instanceAt entry.1 with
    | none => rw [hl] at h; exact Or.inl h
    | some i => rw [hl] at h; exact Or.inr ⟨g, i, h⟩

/-- Without a registered instance every entry of the queue is `undefined`. -/
theorem extractGuards_unmounted (records : List RouteRecord) (name : GuardName)
    (reverse : Bool)
    (hnone : ∀ m, m ∈ records → ∀ entry, entry ∈ m.components →
      m.instanceAt entry.1 = none)
    (e : Option Hook) (he : e ∈ extractGuards records name bindGuard reverse) : e = none := by
  obtain ⟨m, hm, entry, hentry, ⟨_, h⟩ | ⟨g, _, h⟩⟩ := (mem_extractGuards _ _ _ _ _).mp he
  · exact h
  · rw [hnone m hm entry hentry] at h
    exact h

theorem runQueue_skips {σ η : Type} (queue : List (Option η)) (fn : η → (σ → σ) → σ → σ)
    (cb : σ → σ) :
    runQueue queue fn cb = runQueue ((queue.filterMap id).map some) fn cb := by
  induction queue with
  | nil => rfl
  | cons x rest ih =>
    cases x with
    | none => simp only [runQueue, List.filterMap_cons_none, id_eq, ih]
    | some hook =>
      simp only [runQueue, List.filterMap_cons_some, id_eq, List.map_cons, ih]

/-- C28. For every list of records, the queues of `extractLeaveGuards` and
`extractUpdateHooks` hold a bound guard for the guard `g` of a component exactly
when the read `m.instances[key]` of its outlet gives a value, and the guard is
then run with that value as `this` and the arguments it receives; an instance
registered for the outlet is such a value. But `instances` is a plain object:
for the record with the one outlet "constructor", the component `A` and no
instance registered, the read gives the inherited `Object.prototype.constructor`
and the entry of the queue is a callable guard, where the same record with the
outlet "default" gives `undefined`. -/
theorem bound_guard_needs_instance (records : List RouteRecord) :
    (∀ g self, some (Hook.boundRouteGuard g self) ∈ extractLeaveGuards records ↔
      ∃ m, m ∈ records ∧ m.HasBoundGuard GuardName.beforeRouteLeave g self) ∧
    (∀ g self, some (Hook.boundRouteGuard g self) ∈ extractUpdateHooks records ↔
      ∃ m, m ∈ records ∧ m.HasBoundGuard GuardName.beforeRouteUpdate g self) ∧
    (∀ (m : RouteRecord) key inst, lookup key m.instances = some inst →
      m.instanceAt key = some (InstanceSlot.registered inst)) ∧
    (∀ (w : World) g self target origin,
      (Hook.boundRouteGuard g self).behaviour w target origin =
        w.guard g (some self) target origin) ∧
    Scenario.recordConstructor.instances = [] ∧
    extractLeaveGuards [Scenario.recordConstructor] =
      [some (Hook.boundRouteGuard ⟨1⟩ (InstanceSlot.inherited "constructor"))] ∧
    extractLeaveGuards [Scenario.recordUnmounted] = [none] ∧
    extractLeaveGuards [Scenario.recordA] =
      [some (Hook.boundRouteGuard ⟨1⟩ (InstanceSlot.registered ⟨1, false⟩))] := by
  refine ⟨fun g self => mem_extractGuards_bound records _ _ g self,
    fun g self => mem_extractGuards_bound records _ _ g self, ?_, fun _ _ _ _ _ => rfl,
    rfl, by decide, by decide, by decide⟩
  intro m key inst hl
  unfold RouteRecord.instanceAt
  rw [hl]


end VueRouter
